import Mathlib

/-!
# QueueSense: the doctor-consultation allocation engine

A shallow embedding of `src/script.js` (the `QueueSense` object) and a
verification of its consultation queue: booking, the allocated/waiting
recomputation, and the completion / no-show transitions.

Modelling conventions.

* JavaScript numbers are integers (`Int`) or `NaN` (`Num.nan`). Sums, products and remainders
  of integers are exact, as they are in the source while the values stay below `2 ^ 53`; the
  quotient `mins / 60` of `minutesToTime` is rounded to a double before it is floored.
* `Date.now()` is an explicit argument `now` of every operation that reads the clock.
* `loadState` / `saveState` are the identity on the modelled state: the JSON round
  trip keeps every modelled field.
* The in-place mutation of the objects held in `doc.patients` becomes a rebuilt list.
* Only the consultation branch of `bookToken` is modelled; the pharmacy / billing
  counters never touch `state.doctors`.
-/

namespace QueueSense

/-! ## Numbers and clock strings -/

/-- A JavaScript number as this program computes it: an exact integer, or `NaN`. -/
inductive Num where
  | int (v : Int)
  | nan
deriving DecidableEq, Repr

namespace Num

/-- JavaScript `+` on numbers. -/
def add : Num → Num → Num
  | int a, int b => int (a + b)
  | _, _ => nan

/-- JavaScript `-` on numbers. -/
def sub : Num → Num → Num
  | int a, int b => int (a - b)
  | _, _ => nan

/-- JavaScript `*` on numbers. -/
def mul : Num → Num → Num
  | int a, int b => int (a * b)
  | _, _ => nan

/-- JavaScript `<=`: every comparison with `NaN` is false. -/
def le : Num → Num → Bool
  | int a, int b => decide (a ≤ b)
  | _, _ => false

/-- JavaScript `<`: every comparison with `NaN` is false. -/
def lt : Num → Num → Bool
  | int a, int b => decide (a < b)
  | _, _ => false

end Num

/-- The pieces of `str.split(':')`, on the characters of the string. -/
def splitColon : List Char → List (List Char)
  | [] => [[]]
  | c :: cs =>
    if c = ':' then [] :: splitColon cs
    else
      match splitColon cs with
      | [] => [[c]]
      | x :: xs => (c :: x) :: xs

/-- Reads a run of decimal digits, most significant first; `none` on any other character. -/
def readDigits : List Char → Nat → Option Nat
  | [], acc => some acc
  | c :: cs, acc => if c.isDigit then readDigits cs (10 * acc + (c.toNat - 48)) else none

/-- Source: `Number(piece)` for one piece of a split clock string. A piece made of decimal
digits is read exactly (`Number("")` is `0`, `Number("09")` is `9`); every other piece is
taken to `NaN`. For signs, fractions, exponents, radix marks and surrounding blanks
JavaScript would produce a number: such strings lie outside the modelled fragment. -/
def toNumber (piece : List Char) : Num :=
  match readDigits piece 0 with
  | some n => Num.int n
  | none => Num.nan

/-- Source: `timeToMinutes(timeStr)`: `if (!timeStr) return 0; const [h, m] = timeStr.split(':').map(Number);
return h * 60 + m;`. With a single piece `m` is `undefined` and the sum is `NaN`. -/
def timeToMinutes (timeStr : String) : Num :=
  if timeStr.data = [] then Num.int 0
  else
    match (splitColon timeStr.data).map toNumber with
    | h :: m :: _ => Num.add (Num.mul h (Num.int 60)) m
    | _ => Num.nan

/-- Source: `s.padStart(2, '0')`. -/
def padStart2 (s : String) : String :=
  String.mk (List.replicate (2 - s.length) '0') ++ s

/-- The position of the leading binary digit: `floor(log2 n)` for `n > 0`, by halving. -/
def log2Fuel : Nat → Nat → Nat
  | 0, _ => 0
  | fuel + 1, n => if n < 2 then 0 else log2Fuel fuel (n / 2) + 1

/-- The value `floor(log2 n)` for `n > 0`. -/
def floorLog2 (n : Nat) : Nat :=
  log2Fuel n n

/-- The integer nearest to `p / q`, a tie going to the even neighbour. -/
def roundNearestEven (p q : Nat) : Nat :=
  if 2 * (p % q) < q then p / q
  else if q < 2 * (p % q) then p / q + 1
  else if (p / q) % 2 = 0 then p / q
  else p / q + 1

/-- The test `2 ^ k ≤ a / b` for an integer exponent `k`. -/
def quotientAtLeast (a b : Nat) (k : Int) : Bool :=
  if 0 ≤ k then decide (b * 2 ^ k.toNat ≤ a) else decide (b ≤ a * 2 ^ (-k).toNat)

/-- The binary exponent of the quotient: `floor(log2 (a / b))` for positive `a` and `b`. -/
def quotientExponent (a b : Nat) : Int :=
  if quotientAtLeast a b ((floorLog2 a : Int) - (floorLog2 b : Int)) then
    (floorLog2 a : Int) - (floorLog2 b : Int)
  else (floorLog2 a : Int) - (floorLog2 b : Int) - 1

/-- The value `Math.floor(a / b)` for integers `a ≥ 0`, `b > 0` held as doubles: the quotient is
first rounded to the nearest double (53 significant binary digits, ties to even), then
floored. With `e = floor(log2 (a / b)) - 52` the double is `M * 2 ^ e`, where `M` is `a / b / 2 ^ e`
rounded to an integer. -/
def floorQuotientDouble (a b : Nat) : Nat :=
  if a = 0 then 0
  else if 0 ≤ quotientExponent a b - 52 then
    roundNearestEven a (b * 2 ^ (quotientExponent a b - 52).toNat)
      * 2 ^ (quotientExponent a b - 52).toNat
  else
    roundNearestEven (a * 2 ^ (52 - quotientExponent a b).toNat) b
      / 2 ^ (52 - quotientExponent a b).toNat

/-- The value `Math.ceil(a / b)` for integers `a ≥ 0`, `b > 0` held as doubles, the quotient
being rounded to the nearest double first. -/
def ceilQuotientDouble (a b : Nat) : Nat :=
  if a = 0 then 0
  else if 0 ≤ quotientExponent a b - 52 then
    roundNearestEven a (b * 2 ^ (quotientExponent a b - 52).toNat)
      * 2 ^ (quotientExponent a b - 52).toNat
  else
    (roundNearestEven (a * 2 ^ (52 - quotientExponent a b).toNat) b
        + 2 ^ (52 - quotientExponent a b).toNat - 1)
      / 2 ^ (52 - quotientExponent a b).toNat

/-- The value `Math.floor(v / b)` as the source computes it in double arithmetic, for an
integer `v` and `b > 0`; the rounding of a negative quotient mirrors that of its opposite. -/
def floorDivDouble (v : Int) (b : Nat) : Int :=
  if 0 ≤ v then (floorQuotientDouble v.toNat b : Int)
  else -(ceilQuotientDouble (-v).toNat b : Int)

/-- Source: `minutesToTime(mins)`: `h = Math.floor(mins / 60) % 24`, `m = Math.floor(mins % 60)`,
`ampm = h >= 12 ? 'PM' : 'AM'`, `h12 = h % 12 || 12`, rendered as `h12:mm ampm`.
The quotient `mins / 60` is the one step whose result is rounded (`floorDivDouble`); `%` is
the truncating remainder, which is exact. On `NaN` both `h` and `m` are `NaN`, the test
`h >= 12` is false and `NaN || 12` is `12`. -/
def minutesToTime (mins : Num) : String :=
  match mins with
  | Num.nan => "12:NaN AM"
  | Num.int v =>
    let h := Int.tmod (floorDivDouble v 60) 24
    let m := Int.tmod v 60
    let ampm := if 12 ≤ h then "PM" else "AM"
    let h12 := if Int.tmod h 12 = 0 then 12 else Int.tmod h 12
    toString h12 ++ ":" ++ padStart2 (toString m) ++ " " ++ ampm

/-! ## Data model -/

/-- The values the program stores in `token.status`. -/
inductive Status where
  | pending
  | allocated
  | waiting
  | completed
  | noShow
deriving DecidableEq, Repr

/-- A booking record in `doc.patients`. Fields that the source leaves `undefined`
until a later step are `none`. -/
structure Token where
  id : Nat
  name : String
  doctorId : Nat
  doctorName : String
  status : Status
  bookingTime : Nat
  estimatedSlot : Option String
  arrivalValue : Option Num
  completedAt : Option Nat
  cancelledAt : Option Nat
deriving DecidableEq, Repr

/-- The record `doc.stats`. -/
structure Stats where
  completed : Nat
  noShow : Nat
deriving DecidableEq, Repr

/-- A doctor record of `state.doctors`. -/
structure Doctor where
  id : Nat
  name : String
  sessionName : String
  mode : String
  maxPatients : Int
  startTime : String
  endTime : String
  avgTime : Int
  bufferTime : Int
  active : Bool
  patients : List Token
  stats : Stats
deriving DecidableEq, Repr

/-- The part of `QueueSense.state` the consultation queue uses. -/
structure State where
  doctors : List Doctor
deriving DecidableEq, Repr

/-- The argument of `addDoctor`. `limit`, `avgTime` and `bufferTime` hold what `parseInt`
returns on the raw field, `none` standing for `NaN`; an empty string stands for a missing
or empty text field. -/
structure DoctorData where
  name : String
  sessionName : String
  mode : String
  limit : Option Int
  startTime : String
  endTime : String
  avgTime : Option Int
  bufferTime : Option Int
deriving DecidableEq, Repr

/-- Source: `x || dflt` for a `parseInt` result: `NaN` and `0` are falsy. -/
def orDefault (x : Option Int) (dflt : Int) : Int :=
  match x with
  | some v => if v = 0 then dflt else v
  | none => dflt

/-- The state of a freshly loaded page: `doctors: []`. -/
def initState : State := { doctors := [] }

/-! ## Generic helpers for `find` followed by mutation of the found object -/

/-- Applies `f` to the first element satisfying `pred`, as `xs.find(pred)` followed by
an in-place update of the object found. -/
def modifyFirst {α : Type} (pred : α → Bool) (f : α → α) : List α → List α
  | [] => []
  | x :: xs => if pred x then f x :: xs else x :: modifyFirst pred f xs

/-- Source: `state.doctors.find(d => d.id == doctorId)`. -/
def findDoctor (s : State) (doctorId : Nat) : Option Doctor :=
  s.doctors.find? (fun d => d.id == doctorId)

/-- Source: `doc.patients.find(t => t.id === tokenId)`. -/
def findToken (doc : Doctor) (tokenId : Nat) : Option Token :=
  doc.patients.find? (fun t => t.id == tokenId)

/-! ## Doctor management -/

/-- The `maxPatients` computed by `addDoctor`. In `time` mode with `avgTime + bufferTime = 0`
the quotient is `Infinity`, which `saveState` writes as `null`; every later use
(`completed >= maxPatients`, `maxPatients - completedCount`) reads `null` as `0`,
so the stored capacity is `0`. -/
def addDoctor.maxPatients (doctorData : DoctorData) : Int :=
  let avgTime := orDefault doctorData.avgTime 10
  let bufferTime := orDefault doctorData.bufferTime 0
  let totalStep := avgTime + bufferTime
  if doctorData.mode = "count" then orDefault doctorData.limit 0
  else if doctorData.mode = "time" then
    if doctorData.startTime ≠ "" ∧ doctorData.endTime ≠ "" then
      match Num.sub (timeToMinutes doctorData.endTime) (timeToMinutes doctorData.startTime) with
      | Num.int duration =>
        if 0 < duration then (if totalStep = 0 then 0 else Int.fdiv duration totalStep) else 0
      | Num.nan => 0
    else 0
  else 0

/-- The record `newDoctor` built by `addDoctor`. -/
def addDoctor.newDoctor (doctorData : DoctorData) (now : Nat) : Doctor :=
  { id := now
    name := doctorData.name
    sessionName := doctorData.sessionName
    mode := doctorData.mode
    maxPatients := addDoctor.maxPatients doctorData
    startTime := if doctorData.startTime = "" then "09:00" else doctorData.startTime
    endTime := if doctorData.endTime = "" then "17:00" else doctorData.endTime
    avgTime := orDefault doctorData.avgTime 10
    bufferTime := orDefault doctorData.bufferTime 0
    active := true
    patients := []
    stats := { completed := 0, noShow := 0 } }

/-- Source: `addDoctor(doctorData)`: pushes the new record and returns it. -/
def addDoctor (s : State) (doctorData : DoctorData) (now : Nat) : Doctor × State :=
  (addDoctor.newDoctor doctorData now,
   { doctors := s.doctors ++ [addDoctor.newDoctor doctorData now] })

/-- Source: `deleteDoctor(id)`. -/
def deleteDoctor (s : State) (id : Nat) : State :=
  { doctors := s.doctors.filter (fun d => d.id != id) }

/-! ## The allocation engine -/

/-- A token that `recalculateDoctorQueue` keeps in `activePatients`:
`p.status !== 'completed' && p.status !== 'no-show'`. -/
def isActive (p : Token) : Bool :=
  p.status != Status.completed && p.status != Status.noShow

/-- Source: `doc.patients.filter(p => p.status === st).length`. -/
def countStatus (st : Status) (ps : List Token) : Nat :=
  (ps.filter (fun p => p.status == st)).length

/-- The `if` branch of the walk: the token becomes `allocated` at slot
`startTimeMins + (currentAllocatedCount + completedCount) * totalStep`. -/
def allocateToken (startTimeMins : Num) (totalStep : Int) (completedCount : Nat)
    (currentAllocatedCount : Nat) (p : Token) : Token :=
  let arrivalMins :=
    Num.add startTimeMins
      (Num.int (((currentAllocatedCount : Int) + (completedCount : Int)) * totalStep))
  { p with
    status := Status.allocated
    estimatedSlot := some (minutesToTime arrivalMins)
    arrivalValue := some arrivalMins }

/-- The `else` branch of the walk. -/
def waitToken (p : Token) : Token :=
  { p with
    status := Status.waiting
    estimatedSlot := some "Waiting List"
    arrivalValue := some (Num.int 999999) }

/-- The loop `activePatients.forEach(...)`, with the running `currentAllocatedCount`
as an argument. `activePatients` holds the same objects as `doc.patients`, so the
loop rewrites the active tokens where they stand and skips the others. -/
def walk (startTimeMins : Num) (totalStep : Int) (completedCount : Nat)
    (allowedAllocated : Int) : Nat → List Token → List Token
  | _, [] => []
  | currentAllocatedCount, p :: ps =>
    if isActive p then
      if (currentAllocatedCount : Int) < allowedAllocated then
        allocateToken startTimeMins totalStep completedCount currentAllocatedCount p
          :: walk startTimeMins totalStep completedCount allowedAllocated
               (currentAllocatedCount + 1) ps
      else
        waitToken p
          :: walk startTimeMins totalStep completedCount allowedAllocated
               currentAllocatedCount ps
    else
      p :: walk startTimeMins totalStep completedCount allowedAllocated
             currentAllocatedCount ps

/-- The step `totalStep = (doc.avgTime || 10) + (doc.bufferTime || 0)`. -/
def totalStepOf (doc : Doctor) : Int :=
  (if doc.avgTime = 0 then 10 else doc.avgTime) + doc.bufferTime

/-- The body of `recalculateDoctorQueue` once `doc` has been found. -/
def recalculateDoctor (doc : Doctor) : Doctor :=
  let completedCount := countStatus Status.completed doc.patients
  let allowedAllocated := doc.maxPatients - (completedCount : Int)
  { doc with
    stats := { completed := completedCount, noShow := countStatus Status.noShow doc.patients }
    patients :=
      walk (timeToMinutes doc.startTime) (totalStepOf doc) completedCount allowedAllocated
        0 doc.patients }

/-- Source: `recalculateDoctorQueue(doctorId)`: nothing happens when no doctor has that id. -/
def recalculateDoctorQueue (s : State) (doctorId : Nat) : State :=
  { doctors := modifyFirst (fun d => d.id == doctorId) recalculateDoctor s.doctors }

/-! ## Booking -/

/-- The object `newToken` as `bookToken` creates it. -/
def bookToken.newToken (doc : Doctor) (name : String) (doctorId : Nat) (now : Nat) : Token :=
  { id := doc.patients.length + 1
    name := name
    doctorId := doctorId
    doctorName := doc.name
    status := Status.pending
    bookingTime := now
    estimatedSlot := none
    arrivalValue := none
    completedAt := none
    cancelledAt := none }

/-- The doctor id `bookToken` works with: a falsy argument (`null`, `0`) is replaced by
the id of the first active doctor, when there is one. -/
def bookToken.resolve (s : State) (doctorId : Option Nat) : Option Nat :=
  match doctorId with
  | some (n + 1) => some (n + 1)
  | _ =>
    match s.doctors.filter (fun d => d.active) with
    | d :: _ => some d.id
    | [] => none

/-- What `bookToken` does to the doctor it found, after both gates passed:
push the pending token and recompute. -/
def bookToken.accept (doc : Doctor) (name : String) (doctorId : Nat) (now : Nat) : Doctor :=
  recalculateDoctor
    { doc with patients := doc.patients ++ [bookToken.newToken doc name doctorId now] }

/-- Source: `bookToken(name, 'consultation', doctorId)`. The result is the error message of the
`error` object, or the created token (read after the recompute, which rewrote it in
place) with the new state. -/
def bookToken (s : State) (name : String) (doctorId : Option Nat) (now : Nat) :
    Except String (Token × State) :=
  match bookToken.resolve s doctorId with
  | none => Except.error "No active doctors available."
  | some 0 => Except.error "No active doctors available."
  | some (n + 1) =>
    match findDoctor s (n + 1) with
    | none => Except.error "Doctor not found"
    | some doc =>
      if doc.maxPatients ≤ (doc.stats.completed : Int) then
        Except.error "Session completed. Sorry, book next time."
      else if 10 ≤ countStatus Status.waiting doc.patients then
        Except.error "Waiting list is full. Sorry, book next time."
      else
        let doc2 := bookToken.accept doc name (n + 1) now
        Except.ok
          (doc2.patients.getLastD (bookToken.newToken doc name (n + 1) now),
           { doctors :=
               modifyFirst (fun d => d.id == n + 1)
                 (fun d => bookToken.accept d name (n + 1) now) s.doctors })

/-! ## Status transitions -/

/-- The update `p.status = 'completed'; p.completedAt = Date.now()`. -/
def stampCompleted (now : Nat) (p : Token) : Token :=
  { p with status := Status.completed, completedAt := some now }

/-- The update `p.status = 'no-show'; p.cancelledAt = Date.now()`. -/
def stampNoShow (now : Nat) (p : Token) : Token :=
  { p with status := Status.noShow, cancelledAt := some now }

/-- The body of `markDoctorPatientCompleted` once `doc` has been found. -/
def completeInDoctor (tokenId : Nat) (now : Nat) (doc : Doctor) : Doctor :=
  match findToken doc tokenId with
  | none => doc
  | some _ =>
    recalculateDoctor
      { doc with
        patients := modifyFirst (fun t => t.id == tokenId) (stampCompleted now) doc.patients }

/-- The body of `markDoctorPatientNoShow` once `doc` has been found. -/
def noShowInDoctor (tokenId : Nat) (now : Nat) (doc : Doctor) : Doctor :=
  match findToken doc tokenId with
  | none => doc
  | some _ =>
    recalculateDoctor
      { doc with
        patients := modifyFirst (fun t => t.id == tokenId) (stampNoShow now) doc.patients }

/-- Source: `markDoctorPatientCompleted(doctorId, tokenId)`. -/
def markDoctorPatientCompleted (s : State) (doctorId tokenId now : Nat) : State :=
  { doctors := modifyFirst (fun d => d.id == doctorId) (completeInDoctor tokenId now) s.doctors }

/-- Source: `markDoctorPatientNoShow(doctorId, tokenId)`. -/
def markDoctorPatientNoShow (s : State) (doctorId tokenId now : Nat) : State :=
  { doctors := modifyFirst (fun d => d.id == doctorId) (noShowInDoctor tokenId now) s.doctors }

/-- Source: `cancelDoctorPatient(doctorId, tokenId)`. -/
def cancelDoctorPatient (s : State) (doctorId tokenId now : Nat) : State :=
  markDoctorPatientNoShow s doctorId tokenId now

/-- Source: `leaveQueue(doctorId, tokenId)`; the user-session entry it clears is not part of the state. -/
def leaveQueue (s : State) (doctorId tokenId now : Nat) : State :=
  markDoctorPatientNoShow s doctorId tokenId now

/-! ## Runs of operations -/

/-- One call of a public operation of `QueueSense`. -/
inductive Op where
  | addDoctor (doctorData : DoctorData) (now : Nat)
  | deleteDoctor (id : Nat)
  | bookToken (name : String) (doctorId : Option Nat) (now : Nat)
  | recalculateDoctorQueue (doctorId : Nat)
  | markDoctorPatientCompleted (doctorId tokenId now : Nat)
  | markDoctorPatientNoShow (doctorId tokenId now : Nat)
  | cancelDoctorPatient (doctorId tokenId now : Nat)
  | leaveQueue (doctorId tokenId now : Nat)
deriving DecidableEq, Repr

/-- The state after one call; a rejected booking leaves the state as it was. -/
def step (s : State) : Op → State
  | Op.addDoctor doctorData now => (addDoctor s doctorData now).2
  | Op.deleteDoctor id => deleteDoctor s id
  | Op.bookToken name doctorId now =>
    match bookToken s name doctorId now with
    | Except.ok (_, s2) => s2
    | Except.error _ => s
  | Op.recalculateDoctorQueue doctorId => recalculateDoctorQueue s doctorId
  | Op.markDoctorPatientCompleted doctorId tokenId now =>
    markDoctorPatientCompleted s doctorId tokenId now
  | Op.markDoctorPatientNoShow doctorId tokenId now =>
    markDoctorPatientNoShow s doctorId tokenId now
  | Op.cancelDoctorPatient doctorId tokenId now => cancelDoctorPatient s doctorId tokenId now
  | Op.leaveQueue doctorId tokenId now => leaveQueue s doctorId tokenId now

/-- The state after a sequence of calls. -/
def run (s : State) (ops : List Op) : State :=
  ops.foldl step s

/-! ## Auxiliary definitions for the verification -/

/-- The number of tokens of `ps` that the recompute treats as active. -/
def numActive (ps : List Token) : Nat :=
  (ps.filter isActive).length

/-- What the walk does to a token that has `k` active tokens before it. -/
def relabel (startTimeMins : Num) (totalStep : Int) (completedCount : Nat)
    (allowedAllocated : Int) (k : Nat) (p : Token) : Token :=
  if isActive p then
    if (k : Int) < allowedAllocated then
      allocateToken startTimeMins totalStep completedCount k p
    else waitToken p
  else p

/-- The walk with the counter running over the active tokens seen so far
(rather than over the tokens allocated so far). -/
def walkIdx (startTimeMins : Num) (totalStep : Int) (completedCount : Nat)
    (allowedAllocated : Int) : Nat → List Token → List Token
  | _, [] => []
  | k, p :: ps =>
    relabel startTimeMins totalStep completedCount allowedAllocated k p
      :: walkIdx startTimeMins totalStep completedCount allowedAllocated
           (if isActive p then k + 1 else k) ps

/-- The number of active tokens standing before position `i`. -/
def activeBefore (ps : List Token) (i : Nat) : Nat :=
  numActive (ps.take i)

/-- The allowance `maxLimit - completedCount` the recompute works with. -/
def allowedOf (doc : Doctor) : Int :=
  doc.maxPatients - (countStatus Status.completed doc.patients : Int)

/-- A doctor whose queue is up to date: the recompute would change nothing. Every
public operation leaves the doctor it touched in such a state. -/
def Settled (doc : Doctor) : Prop :=
  recalculateDoctor doc = doc

/-- Token ids are the positions in the list, counted from one. -/
def IdsOk (ps : List Token) : Prop :=
  ps.map (fun p => p.id) = List.range' 1 ps.length

/-- The status of the token a transition on `(doctorId, tokenId)` would find. -/
def targetStatus (s : State) (doctorId tokenId : Nat) : Option Status :=
  match findDoctor s doctorId with
  | none => none
  | some doc =>
    match findToken doc tokenId with
    | none => none
    | some p => some p.status

/-- JavaScript `<=` on two `arrivalValue` fields; an `undefined` field compares false. -/
def arrivalLe : Option Num → Option Num → Bool
  | some a, some b => Num.le a b
  | _, _ => false

/-- A run in which every call satisfies `guard` in the state it is made in. -/
def guardedRun (guard : State → Op → Bool) : State → List Op → Bool
  | _, [] => true
  | s, op :: ops => guard s op && guardedRun guard (step s op) ops

/-- Every `markDoctorPatientCompleted` call finds a token whose status satisfies `allowed`
(or finds nothing). -/
def completionTargets (allowed : Status → Bool) (s : State) : Op → Bool
  | Op.markDoctorPatientCompleted doctorId tokenId _ =>
    match targetStatus s doctorId tokenId with
    | some st => allowed st
    | none => true
  | _ => true

/-- Doctors are created with a capacity that is not negative. -/
def nonNegativeCapacity : Op → Bool
  | Op.addDoctor doctorData _ => decide (0 ≤ addDoctor.maxPatients doctorData)
  | _ => true

/-- The status is `allocated` or `completed`. -/
def Status.isServed : Status → Bool
  | Status.allocated => true
  | Status.completed => true
  | _ => false

/-- The updates that the queue operations apply to the doctor they found. -/
inductive DoctorAct : (Doctor → Doctor) → Prop where
  | recalc : DoctorAct recalculateDoctor
  | accept (name : String) (doctorId now : Nat) :
      DoctorAct (fun d => bookToken.accept d name doctorId now)
  | complete (tokenId now : Nat) : DoctorAct (completeInDoctor tokenId now)
  | noShow (tokenId now : Nat) : DoctorAct (noShowInDoctor tokenId now)

/-- The guard of the capacity invariant: doctors are created with a non-negative capacity, and
completions find a token that is allocated (or already completed). -/
def capacityGuard (s : State) (op : Op) : Bool :=
  completionTargets Status.isServed s op && nonNegativeCapacity op

/-- The guard of the waiting-list cap: completions never find a no-show token. -/
def waitingGuard (s : State) (op : Op) : Bool :=
  completionTargets (fun st => st != Status.noShow) s op

/-- The counts `(allocated, waiting, completed, noShow)` of a doctor's list, with its capacity. -/
def tally (d : Doctor) : Nat × Nat × Nat × Nat × Int :=
  (countStatus Status.allocated d.patients, countStatus Status.waiting d.patients,
   countStatus Status.completed d.patients, countStatus Status.noShow d.patients, d.maxPatients)

/-- The doctor with the first token of id `tokenId` rewritten by `stamp`, before the recompute. -/
def stampIn (tokenId : Nat) (stamp : Token → Token) (d : Doctor) : Doctor :=
  { d with patients := modifyFirst (fun t => t.id == tokenId) stamp d.patients }

/-- What the claims about a token's display read off it. -/
def Token.view (p : Token) : Nat × Status × Option String × Option Num :=
  (p.id, p.status, p.estimatedSlot, p.arrivalValue)

/-! ## Concrete sessions used as worked examples -/

/-- A booking as `bookToken` creates it, for doctor 1. -/
def Demo.pending (id : Nat) (name : String) : Token :=
  { id := id, name := name, doctorId := 1, doctorName := "Dr", status := Status.pending,
    bookingTime := 0, estimatedSlot := none, arrivalValue := none, completedAt := none,
    cancelledAt := none }

/-- A doctor with `maxPatients = 2`, `avgTime = 10`, `bufferTime = 0`, start "09:00" and
three fresh bookings A, B, C. -/
def Demo.doctor : Doctor :=
  { id := 1, name := "Dr", sessionName := "", mode := "count", maxPatients := 2,
    startTime := "09:00", endTime := "17:00", avgTime := 10, bufferTime := 0, active := true,
    patients := [Demo.pending 1 "A", Demo.pending 2 "B", Demo.pending 3 "C"],
    stats := { completed := 0, noShow := 0 } }

/-- Booking B of `Demo.doctor` after the recompute: allocated at 9:10. -/
def Demo.allocatedB : Token :=
  { Demo.pending 2 "B" with
    status := Status.allocated, estimatedSlot := some "9:10 AM",
    arrivalValue := some (Num.int 550) }

/-- The doctor of `Demo.doctor` with A already completed and B, C freshly booked. -/
def Demo.mixedDoctor : Doctor :=
  { Demo.doctor with
    patients :=
      [{ Demo.pending 1 "A" with status := Status.completed }, Demo.pending 2 "B",
        Demo.pending 3 "C"] }

/-- A state whose only doctor is `Demo.mixedDoctor`. -/
def Demo.mixedState : State :=
  { doctors := [Demo.mixedDoctor] }

/-- Booking C of `Demo.mixedDoctor` after the recompute: on the waiting list. -/
def Demo.waitingC : Token :=
  { Demo.pending 3 "C" with
    status := Status.waiting, estimatedSlot := some "Waiting List",
    arrivalValue := some (Num.int 999999) }

/-- The same doctor with a start time that has no colon, so that `timeToMinutes` is `NaN`. -/
def Demo.doctorNoColon : Doctor :=
  { Demo.doctor with startTime := "0900" }

/-- The form data of a count-mode doctor with the given limit. -/
def Demo.countData (limit : Int) : DoctorData :=
  { name := "Dr", sessionName := "", mode := "count", limit := some limit,
    startTime := "09:00", endTime := "", avgTime := some 10, bufferTime := none }

/-- A consultation booking for doctor 1. -/
def Demo.book (name : String) : Op :=
  Op.bookToken name (some 1) 0

/-- Doctor 1 created with the given limit, followed by bookings under the given names. -/
def Demo.session (limit : Int) (names : List String) : State :=
  run initState (Op.addDoctor (Demo.countData limit) 1 :: names.map Demo.book)

/-- Capacity 1; A and B are booked; A is completed, then the waiting B is completed. -/
def Demo.overCompleted : List Op :=
  [Op.addDoctor (Demo.countData 1) 1, Demo.book "A", Demo.book "B",
   Op.markDoctorPatientCompleted 1 1 5, Op.markDoctorPatientCompleted 1 2 6]

/-- Capacity 2; A and B are booked and A is completed. -/
def Demo.servedA : List Op :=
  [Op.addDoctor (Demo.countData 2) 1, Demo.book "A", Demo.book "B",
   Op.markDoctorPatientCompleted 1 1 5]

/-- Capacity 2; T1 and T2 are booked, T1 is marked no-show, T3 to T13 are booked (T4 to T13
wait), and then the no-show T1 is marked completed. -/
def Demo.overWaiting : List Op :=
  [Op.addDoctor (Demo.countData 2) 1, Demo.book "T1", Demo.book "T2",
   Op.markDoctorPatientNoShow 1 1 5,
   Demo.book "T3", Demo.book "T4", Demo.book "T5", Demo.book "T6", Demo.book "T7",
   Demo.book "T8", Demo.book "T9", Demo.book "T10", Demo.book "T11", Demo.book "T12",
   Demo.book "T13",
   Op.markDoctorPatientCompleted 1 1 6]

/-- Two doctors: doctor 1 with capacity 2 and booking A, doctor 2 with capacity 1 and
booking B. -/
def Demo.twoDoctors : List Op :=
  [Op.addDoctor (Demo.countData 2) 1, Op.addDoctor (Demo.countData 1) 2,
   Op.bookToken "A" (some 1) 0, Op.bookToken "B" (some 2) 0]

/-- The token that the booking of C for doctor 2 returns after `Demo.twoDoctors`. -/
def Demo.bookedC : Token :=
  { id := 2, name := "C", doctorId := 2, doctorName := "Dr", status := Status.waiting,
    bookingTime := 7, estimatedSlot := some "Waiting List",
    arrivalValue := some (Num.int 999999), completedAt := none, cancelledAt := none }

/-- Capacity 2; A, B and C are booked: A at 9:00, B at 9:10, C waits. -/
def Demo.threeBooked : List Op :=
  [Op.addDoctor (Demo.countData 2) 1, Demo.book "A", Demo.book "B", Demo.book "C"]

/-- The first doctor of a state (the example doctor when there is none). -/
def Demo.firstDoctor (s : State) : Doctor :=
  s.doctors.headD Demo.doctor

/-- The token at a place of the first doctor's list (a blank booking when there is none). -/
def Demo.tokenAt (s : State) (i : Nat) : Token :=
  (Demo.firstDoctor s).patients.getD i (Demo.pending 0 "")

/-- A state as it could be loaded from storage with a queue that is not up to date: A is
completed, B is still pending and the stored statistics are stale. -/
def Demo.staleState : State :=
  { doctors :=
      [{ Demo.doctor with
         patients := [{ Demo.pending 1 "A" with status := Status.completed }, Demo.pending 2 "B"]
         stats := { completed := 5, noShow := 5 } }] }

/-- The statuses of the first doctor's tokens, with the stored statistics. -/
def Demo.board (s : State) : List Status × Stats :=
  ((Demo.firstDoctor s).patients.map (fun p => p.status), (Demo.firstDoctor s).stats)

/-! ## Statistics, clock strings and further auxiliary definitions -/

/-- The object returned by `getDoctorStats`. -/
structure DoctorStats where
  name : String
  sessionName : String
  maxPatients : Int
  completed : Nat
  noShow : Nat
  allocatedCount : Nat
  waitingCount : Nat
  list : List Token
  mode : String
  startTime : String
  avgTime : Int
  bufferTime : Int
deriving DecidableEq, Repr

/-- Source: `getDoctorStats(doctorId)`; `none` is the `null` returned for an unknown id. -/
def getDoctorStats (s : State) (doctorId : Nat) : Option DoctorStats :=
  match findDoctor s doctorId with
  | none => none
  | some doc =>
    some
      { name := doc.name
        sessionName := doc.sessionName
        maxPatients := doc.maxPatients
        completed := doc.stats.completed
        noShow := doc.stats.noShow
        allocatedCount := countStatus Status.allocated doc.patients
        waitingCount := countStatus Status.waiting doc.patients
        list := doc.patients
        mode := doc.mode
        startTime := doc.startTime
        avgTime := doc.avgTime
        bufferTime := doc.bufferTime }

/-- The error message of a booking, `none` when the booking is accepted. -/
def bookError (s : State) (name : String) (doctorId : Option Nat) (now : Nat) : Option String :=
  match bookToken s name doctorId now with
  | Except.error msg => some msg
  | Except.ok _ => none

/-- The error messages of a series of bookings for doctor 1 made one after the other, `none`
marking an accepted booking. -/
def bookErrors : State → List String → List (Option String)
  | _, [] => []
  | s, name :: names =>
    bookError s name (some 1) 0 :: bookErrors (step s (Op.bookToken name (some 1) 0)) names

/-- The two decimal digits of a number below 100. -/
def twoDigits (n : Nat) : List Char :=
  [Char.ofNat (48 + n / 10), Char.ofNat (48 + n % 10)]

/-- The clock string "HH:MM". -/
def clock (hh mm : Nat) : String :=
  String.mk (twoDigits hh ++ ':' :: twoDigits mm)

/-- The 12-hour rendering of the clock time `hh:mm`: hour 12 for 0 and 12, minutes padded to
two digits, PM from noon on. -/
def render12 (hh mm : Nat) : String :=
  toString (if hh % 12 = 0 then 12 else hh % 12) ++ ":"
    ++ (if mm < 10 then "0" ++ toString mm else toString mm) ++ " "
    ++ (if 12 ≤ hh then "PM" else "AM")

/-- The reference of `minutesToTime` in the words of the specification: with
`H = floor(m / 60) mod 24`, the 12-hour rendering of `H` hours and `m mod 60` minutes. -/
def minutesToTimeRef (m : Nat) : String :=
  render12 ((m / 60) % 24) (m % 60)

/-- JavaScript `<` on two `arrivalValue` fields; an `undefined` field compares false. -/
def arrivalLt : Option Num → Option Num → Bool
  | some a, some b => Num.lt a b
  | _, _ => false

/-- The doctor record is the one `addDoctor` builds from `doctorData`, up to its patients and
statistics (the only fields that change afterwards). -/
def CreatedFrom (doctorData : DoctorData) (d : Doctor) : Prop :=
  ∃ now, { d with patients := [], stats := { completed := 0, noShow := 0 } }
    = addDoctor.newDoctor doctorData now

/-- The id and name of a token. -/
def Token.key (p : Token) : Nat × String :=
  (p.id, p.name)

/-- The call is a consultation booking. -/
def Op.isBooking : Op → Bool
  | Op.bookToken _ _ _ => true
  | _ => false

/-- Form data of a time-mode doctor. -/
def Demo.timeData (startTime endTime : String) (avgTime bufferTime : Int) : DoctorData :=
  { name := "Dr", sessionName := "", mode := "time", limit := none,
    startTime := startTime, endTime := endTime, avgTime := some avgTime,
    bufferTime := some bufferTime }

/-- Capacity 2; A and B are booked and both completed. -/
def Demo.sessionDone : List Op :=
  [Op.addDoctor (Demo.countData 2) 1, Demo.book "A", Demo.book "B",
   Op.markDoctorPatientCompleted 1 1 5, Op.markDoctorPatientCompleted 1 2 6]

/-- The names P1, P2, ... of a series of patients. -/
def Demo.names (n : Nat) : List String :=
  (List.range' 1 n).map (fun i => "P" ++ toString i)

/-- The statistics `getDoctorStats` returns for doctor 1 (those of an empty doctor when there
is none). -/
def Demo.stats (s : State) : DoctorStats :=
  (getDoctorStats s 1).getD
    { name := "", sessionName := "", maxPatients := 0, completed := 0, noShow := 0,
      allocatedCount := 0, waitingCount := 0, list := [], mode := "", startTime := "",
      avgTime := 0, bufferTime := 0 }

/-- Capacity 2 in count mode with `avgTime = 999999`; A, B and C are booked. -/
def Demo.longStep : List Op :=
  [Op.addDoctor { Demo.countData 2 with avgTime := some 999999 } 1,
   Demo.book "A", Demo.book "B", Demo.book "C"]

/-- Capacity 1 in count mode with the start time "0900" (no colon); A and B are booked. -/
def Demo.noColonStart : List Op :=
  [Op.addDoctor { Demo.countData 1 with startTime := "0900" } 1, Demo.book "A", Demo.book "B"]

/-- The pairs `(status, arrivalValue)` of the first doctor's tokens. -/
def Demo.arrivals (s : State) : List (Status × Option Num) :=
  (Demo.firstDoctor s).patients.map (fun p => (p.status, p.arrivalValue))

/-- A time-mode session from "09:00" to "09:30" with `avgTime = 10` and `bufferTime = 2`
(capacity 2); A, B and C are booked. -/
def Demo.halfHour : List Op :=
  [Op.addDoctor (Demo.timeData "09:00" "09:30" 10 2) 1,
   Demo.book "A", Demo.book "B", Demo.book "C"]

/-! ## The walk, position by position -/

section walk

variable (st : Num) (step : Int) (cc : Nat) (L : Int)

theorem isActive_allocateToken (k : Nat) (p : Token) :
    isActive (allocateToken st step cc k p) = true := by
  simp [isActive, allocateToken]

theorem isActive_waitToken (p : Token) : isActive (waitToken p) = true := by
  simp [isActive, waitToken]

theorem isActive_relabel (k : Nat) (p : Token) :
    isActive (relabel st step cc L k p) = isActive p := by
  unfold relabel
  by_cases h : isActive p = true
  · by_cases h2 : (k : Int) < L
    · simp [h, h2, isActive_allocateToken]
    · simp [h, h2, isActive_waitToken]
  · simp [h]

theorem relabel_id (k : Nat) (p : Token) : (relabel st step cc L k p).id = p.id := by
  unfold relabel
  split_ifs <;> simp [allocateToken, waitToken]

theorem relabel_of_not_active (k : Nat) (p : Token) (h : isActive p = false) :
    relabel st step cc L k p = p := by
  simp [relabel, h]

theorem relabel_of_lt (k : Nat) (p : Token) (h : isActive p = true) (hk : (k : Int) < L) :
    relabel st step cc L k p = allocateToken st step cc k p := by
  simp [relabel, h, hk]

theorem relabel_of_not_lt (k : Nat) (p : Token) (h : isActive p = true) (hk : ¬ (k : Int) < L) :
    relabel st step cc L k p = waitToken p := by
  simp [relabel, h, hk]

theorem relabel_relabel (k j : Nat) (p : Token) :
    relabel st step cc L k (relabel st step cc L j p) = relabel st step cc L k p := by
  by_cases h : isActive p = true
  · by_cases hj : (j : Int) < L
    · rw [relabel_of_lt st step cc L j p h hj]
      by_cases hk : (k : Int) < L
      · rw [relabel_of_lt st step cc L k _ (isActive_allocateToken st step cc j p) hk,
          relabel_of_lt st step cc L k p h hk]
        rfl
      · rw [relabel_of_not_lt st step cc L k _ (isActive_allocateToken st step cc j p) hk,
          relabel_of_not_lt st step cc L k p h hk]
        rfl
    · rw [relabel_of_not_lt st step cc L j p h hj]
      by_cases hk : (k : Int) < L
      · rw [relabel_of_lt st step cc L k _ (isActive_waitToken p) hk,
          relabel_of_lt st step cc L k p h hk]
        rfl
      · rw [relabel_of_not_lt st step cc L k _ (isActive_waitToken p) hk,
          relabel_of_not_lt st step cc L k p h hk]
        rfl
  · have h3 : isActive p = false := by simpa using h
    simp [relabel_of_not_active, h3]

/-- Once the counter has reached the allowance, its exact value no longer matters. -/
theorem walkIdx_saturated (ps : List Token) :
    ∀ k j : Nat, L ≤ (k : Int) → L ≤ (j : Int) →
      walkIdx st step cc L k ps = walkIdx st step cc L j ps := by
  induction ps with
  | nil => intro k j _ _; rfl
  | cons p ps ih =>
    intro k j hk hj
    have e1 : relabel st step cc L k p = relabel st step cc L j p := by
      unfold relabel
      have h1 : ¬ ((k : Int) < L) := by omega
      have h2 : ¬ ((j : Int) < L) := by omega
      simp [h1, h2]
    simp only [walkIdx, e1]
    congr 1
    apply ih
    · split_ifs <;> push_cast <;> omega
    · split_ifs <;> push_cast <;> omega

/-- The source's loop and the walk by active position produce the same list. -/
theorem walk_eq_walkIdx (ps : List Token) :
    ∀ k : Nat, walk st step cc L k ps = walkIdx st step cc L k ps := by
  induction ps with
  | nil => intro k; rfl
  | cons p ps ih =>
    intro k
    by_cases h : isActive p = true
    · by_cases h2 : (k : Int) < L
      · simp [walk, walkIdx, relabel, h, h2, ih]
      · simp only [walk, walkIdx, relabel, h, h2, if_true, if_false, ih]
        congr 1
        apply walkIdx_saturated
        · omega
        · push_cast; omega
    · simp [walk, walkIdx, relabel, h, ih]

theorem walkIdx_length (ps : List Token) :
    ∀ k : Nat, (walkIdx st step cc L k ps).length = ps.length := by
  induction ps with
  | nil => intro k; rfl
  | cons p ps ih => intro k; simp [walkIdx, ih]

theorem numActive_cons (p : Token) (ps : List Token) :
    numActive (p :: ps) = (if isActive p then 1 else 0) + numActive ps := by
  unfold numActive
  by_cases h : isActive p = true
  · simp [List.filter_cons, h]; omega
  · simp [List.filter_cons, h]

theorem numActive_append (xs ys : List Token) :
    numActive (xs ++ ys) = numActive xs + numActive ys := by
  simp [numActive]

theorem walkIdx_append (xs ys : List Token) :
    ∀ k : Nat, walkIdx st step cc L k (xs ++ ys)
      = walkIdx st step cc L k xs ++ walkIdx st step cc L (k + numActive xs) ys := by
  induction xs with
  | nil => intro k; simp [walkIdx, numActive]
  | cons p xs ih =>
    intro k
    by_cases h : isActive p = true
    · have e : k + 1 + numActive xs = k + numActive (p :: xs) := by
        rw [numActive_cons]; simp [h]; omega
      rw [← e, List.cons_append]
      simp only [walkIdx, h, if_true, ih, List.cons_append]
    · have e : k + numActive xs = k + numActive (p :: xs) := by
        rw [numActive_cons]; simp [h]
      rw [← e, List.cons_append]
      simp only [walkIdx, h, ih, List.cons_append]
      simp

/-- Tokens that are all terminal are left as they are. -/
theorem walkIdx_of_no_active (xs : List Token) (h : ∀ q ∈ xs, isActive q = false) :
    ∀ k : Nat, walkIdx st step cc L k xs = xs := by
  induction xs with
  | nil => intro k; rfl
  | cons p xs ih =>
    intro k
    have hp : isActive p = false := h p (List.mem_cons_self _ _)
    have hx : ∀ q ∈ xs, isActive q = false := fun q hq => h q (List.mem_cons_of_mem _ hq)
    simp [walkIdx, relabel_of_not_active, hp, ih hx]

/-- One more completion moves the window by one: the capacity left shrinks by one and
every slot index grows by one. -/
theorem walkIdx_shift (ps : List Token) :
    ∀ k : Nat, walkIdx st step (cc + 1) (L - 1) k ps = walkIdx st step cc L (k + 1) ps := by
  induction ps with
  | nil => intro k; rfl
  | cons p ps ih =>
    intro k
    have e1 : relabel st step (cc + 1) (L - 1) k p = relabel st step cc L (k + 1) p := by
      by_cases h : isActive p = true
      · by_cases h2 : (k : Int) < L - 1
        · have h3 : ((k + 1 : Nat) : Int) < L := by push_cast; omega
          have h4 : ((k : Int) + ((cc + 1 : Nat) : Int)) = (((k + 1 : Nat) : Int) + (cc : Int)) := by
            push_cast; ring
          rw [relabel_of_lt st step (cc + 1) (L - 1) k p h h2,
            relabel_of_lt st step cc L (k + 1) p h h3]
          simp only [allocateToken, h4]
        · have h3 : ¬ (((k + 1 : Nat) : Int) < L) := by push_cast; omega
          rw [relabel_of_not_lt st step (cc + 1) (L - 1) k p h h2,
            relabel_of_not_lt st step cc L (k + 1) p h h3]
      · have h3 : isActive p = false := by simpa using h
        rw [relabel_of_not_active _ _ _ _ _ _ h3, relabel_of_not_active _ _ _ _ _ _ h3]
    simp only [walkIdx, e1, ih]
    by_cases h : isActive p = true <;> simp [h]

theorem walkIdx_idem (ps : List Token) :
    ∀ k : Nat, walkIdx st step cc L k (walkIdx st step cc L k ps) = walkIdx st step cc L k ps := by
  induction ps with
  | nil => intro k; rfl
  | cons p ps ih =>
    intro k
    simp only [walkIdx, relabel_relabel, isActive_relabel, ih]

theorem relabel_shift (k : Nat) (p : Token) :
    relabel st step (cc + 1) (L - 1) k p = relabel st step cc L (k + 1) p := by
  have h := walkIdx_shift st step cc L [p] k
  simpa [walkIdx] using h

theorem relabel_status (k : Nat) (p : Token) :
    (relabel st step cc L k p).status
      = if isActive p then (if (k : Int) < L then Status.allocated else Status.waiting)
        else p.status := by
  unfold relabel
  split_ifs <;> simp [allocateToken, waitToken]

theorem activeBefore_zero (ps : List Token) : activeBefore ps 0 = 0 := by
  simp [activeBefore, numActive]

theorem activeBefore_cons_succ (p : Token) (ps : List Token) (i : Nat) :
    activeBefore (p :: ps) (i + 1) = (if isActive p then 1 else 0) + activeBefore ps i := by
  simp [activeBefore, numActive_cons]

/-- The walk, read at one position: the token there is relabelled with the number of
active tokens before it. -/
theorem walkIdx_getElem? (ps : List Token) :
    ∀ (k i : Nat), (walkIdx st step cc L k ps)[i]?
      = (ps[i]?).map (relabel st step cc L (k + activeBefore ps i)) := by
  induction ps with
  | nil => intro k i; simp [walkIdx]
  | cons p ps ih =>
    intro k i
    cases i with
    | zero => simp [walkIdx, activeBefore_zero]
    | succ i =>
      simp only [walkIdx, List.getElem?_cons_succ, ih, activeBefore_cons_succ]
      by_cases h : isActive p = true
      · simp only [h, if_true]
        have e : k + 1 + activeBefore ps i = k + (1 + activeBefore ps i) := by omega
        rw [e]
      · simp [h]

end walk

theorem activeBefore_append (xs ys : List Token) (i : Nat) :
    activeBefore (xs ++ ys) i = activeBefore xs i + activeBefore ys (i - xs.length) := by
  simp [activeBefore, List.take_append_eq_append_take, numActive_append]

theorem activeBefore_of_length_le (xs : List Token) (i : Nat) (h : xs.length ≤ i) :
    activeBefore xs i = numActive xs := by
  simp [activeBefore, List.take_of_length_le h]

theorem activeBefore_le_numActive (xs : List Token) (i : Nat) :
    activeBefore xs i ≤ numActive xs := by
  unfold activeBefore numActive
  exact ((List.take_sublist i xs).filter isActive).length_le

/-- Replacing the token at position `front.length` changes the count of active
predecessors only for later positions, and only by the activity of that token. -/
theorem activeBefore_replace (front back : List Token) (p q : Token) (i : Nat) :
    activeBefore (front ++ q :: back) i
        + (if front.length < i ∧ isActive p = true then 1 else 0)
      = activeBefore (front ++ p :: back) i
        + (if front.length < i ∧ isActive q = true then 1 else 0) := by
  rw [activeBefore_append, activeBefore_append]
  by_cases h : front.length < i
  · obtain ⟨j, hj⟩ : ∃ j, i - front.length = j + 1 := ⟨i - front.length - 1, by omega⟩
    rw [hj, activeBefore_cons_succ, activeBefore_cons_succ]
    by_cases hp : isActive p = true <;> by_cases hq : isActive q = true <;>
      simp [h, hp, hq] <;> omega
  · have e : i - front.length = 0 := by omega
    rw [e, activeBefore_zero, activeBefore_zero]
    simp [h]

/-- An active token at position `i` is counted among the predecessors of every later position. -/
theorem activeBefore_lt_of_active (xs : List Token) :
    ∀ (i j : Nat) (q : Token), xs[i]? = some q → isActive q = true → i < j →
      activeBefore xs i + 1 ≤ activeBefore xs j := by
  induction xs with
  | nil => intro i j q h; simp at h
  | cons p ps ih =>
    intro i j q h hq hij
    obtain ⟨j, rfl⟩ : ∃ j2, j = j2 + 1 := ⟨j - 1, by omega⟩
    cases i with
    | zero =>
      simp at h
      subst h
      rw [activeBefore_zero, activeBefore_cons_succ]
      simp [hq]
    | succ i =>
      rw [activeBefore_cons_succ, activeBefore_cons_succ]
      have := ih i j q (by simpa using h) hq (by omega)
      omega

theorem activeBefore_mono (xs : List Token) (i j : Nat) (hij : i ≤ j) :
    activeBefore xs i ≤ activeBefore xs j := by
  unfold activeBefore numActive
  have h : (xs.take i).Sublist (xs.take j) := by
    have e : xs.take i = (xs.take j).take i := by
      rw [List.take_take]; congr 1; omega
    rw [e]; exact List.take_sublist _ _
  exact (h.filter isActive).length_le

/-! ## Counting statuses -/

theorem countStatus_cons (s0 : Status) (p : Token) (ps : List Token) :
    countStatus s0 (p :: ps) = (if p.status = s0 then 1 else 0) + countStatus s0 ps := by
  unfold countStatus
  by_cases h : p.status = s0
  · simp [List.filter_cons, h]; omega
  · simp [List.filter_cons, h]

theorem countStatus_append (s0 : Status) (xs ys : List Token) :
    countStatus s0 (xs ++ ys) = countStatus s0 xs + countStatus s0 ys := by
  simp [countStatus]

theorem isActive_iff (p : Token) :
    isActive p = true ↔ p.status ≠ Status.completed ∧ p.status ≠ Status.noShow := by
  simp [isActive]

theorem isActive_eq_false_iff (p : Token) :
    isActive p = false ↔ p.status = Status.completed ∨ p.status = Status.noShow := by
  cases h : p.status <;> simp [isActive, h]

section counts

variable (st : Num) (step : Int) (cc : Nat) (L : Int)

theorem numActive_walkIdx (ps : List Token) :
    ∀ k : Nat, numActive (walkIdx st step cc L k ps) = numActive ps := by
  induction ps with
  | nil => intro k; rfl
  | cons p ps ih =>
    intro k
    simp only [walkIdx, numActive_cons, isActive_relabel, ih]

theorem countStatus_completed_walkIdx (ps : List Token) :
    ∀ k : Nat, countStatus Status.completed (walkIdx st step cc L k ps)
      = countStatus Status.completed ps := by
  induction ps with
  | nil => intro k; rfl
  | cons p ps ih =>
    intro k
    simp only [walkIdx, countStatus_cons, relabel_status, ih]
    by_cases h : isActive p = true
    · have h2 := (isActive_iff p).1 h
      by_cases h3 : (k : Int) < L <;> simp [h, h3, h2.1]
    · simp [h]

theorem countStatus_noShow_walkIdx (ps : List Token) :
    ∀ k : Nat, countStatus Status.noShow (walkIdx st step cc L k ps)
      = countStatus Status.noShow ps := by
  induction ps with
  | nil => intro k; rfl
  | cons p ps ih =>
    intro k
    simp only [walkIdx, countStatus_cons, relabel_status, ih]
    by_cases h : isActive p = true
    · have h2 := (isActive_iff p).1 h
      by_cases h3 : (k : Int) < L <;> simp [h, h3, h2.2]
    · simp [h]

/-- After the walk the allocated tokens are the first active ones, as many as the allowance accepts. -/
theorem countStatus_allocated_walkIdx (ps : List Token) :
    ∀ k : Nat, countStatus Status.allocated (walkIdx st step cc L k ps)
      = min (numActive ps) (L - (k : Int)).toNat := by
  induction ps with
  | nil => intro k; simp [walkIdx, countStatus, numActive]
  | cons p ps ih =>
    intro k
    simp only [walkIdx, countStatus_cons, relabel_status, ih, numActive_cons]
    by_cases h : isActive p = true
    · by_cases h3 : (k : Int) < L
      · simp only [h, h3, if_true]
        push_cast
        omega
      · simp only [h, h3, if_true, if_false]
        push_cast
        simp
        omega
    · have h2 := (isActive_eq_false_iff p).1 (by simpa using h)
      have h4 : p.status ≠ Status.allocated := by
        rcases h2 with h2 | h2 <;> simp [h2]
      simp [h, h4]

theorem countStatus_waiting_walkIdx (ps : List Token) :
    ∀ k : Nat, countStatus Status.waiting (walkIdx st step cc L k ps)
      = numActive ps - min (numActive ps) (L - (k : Int)).toNat := by
  induction ps with
  | nil => intro k; simp [walkIdx, countStatus, numActive]
  | cons p ps ih =>
    intro k
    simp only [walkIdx, countStatus_cons, relabel_status, ih, numActive_cons]
    by_cases h : isActive p = true
    · by_cases h3 : (k : Int) < L
      · simp only [h, h3, if_true]
        push_cast
        simp
        omega
      · simp only [h, h3, if_true, if_false]
        push_cast
        simp
        omega
    · have h2 := (isActive_eq_false_iff p).1 (by simpa using h)
      have h4 : p.status ≠ Status.waiting := by
        rcases h2 with h2 | h2 <;> simp [h2]
      simp [h, h4]

end counts

/-! ## The recompute on one doctor -/

theorem recalculateDoctor_patients (doc : Doctor) :
    (recalculateDoctor doc).patients
      = walkIdx (timeToMinutes doc.startTime) (totalStepOf doc)
          (countStatus Status.completed doc.patients) (allowedOf doc) 0 doc.patients := by
  simp [recalculateDoctor, walk_eq_walkIdx, allowedOf]

theorem recalculateDoctor_stats (doc : Doctor) :
    (recalculateDoctor doc).stats
      = { completed := countStatus Status.completed doc.patients
          noShow := countStatus Status.noShow doc.patients } := rfl

theorem recalculateDoctor_id (doc : Doctor) : (recalculateDoctor doc).id = doc.id := rfl

theorem recalculateDoctor_maxPatients (doc : Doctor) :
    (recalculateDoctor doc).maxPatients = doc.maxPatients := rfl

theorem countStatus_completed_recalculateDoctor (doc : Doctor) :
    countStatus Status.completed (recalculateDoctor doc).patients
      = countStatus Status.completed doc.patients := by
  rw [recalculateDoctor_patients, countStatus_completed_walkIdx]

theorem countStatus_noShow_recalculateDoctor (doc : Doctor) :
    countStatus Status.noShow (recalculateDoctor doc).patients
      = countStatus Status.noShow doc.patients := by
  rw [recalculateDoctor_patients, countStatus_noShow_walkIdx]

theorem numActive_recalculateDoctor (doc : Doctor) :
    numActive (recalculateDoctor doc).patients = numActive doc.patients := by
  rw [recalculateDoctor_patients, numActive_walkIdx]

theorem countStatus_allocated_recalculateDoctor (doc : Doctor) :
    countStatus Status.allocated (recalculateDoctor doc).patients
      = min (numActive doc.patients) (allowedOf doc).toNat := by
  rw [recalculateDoctor_patients, countStatus_allocated_walkIdx]
  simp

theorem countStatus_waiting_recalculateDoctor (doc : Doctor) :
    countStatus Status.waiting (recalculateDoctor doc).patients
      = numActive doc.patients - min (numActive doc.patients) (allowedOf doc).toNat := by
  rw [recalculateDoctor_patients, countStatus_waiting_walkIdx]
  simp

/-- Running the recompute on its own result changes nothing. -/
theorem recalculateDoctor_idem (doc : Doctor) :
    recalculateDoctor (recalculateDoctor doc) = recalculateDoctor doc := by
  have hc := countStatus_completed_recalculateDoctor doc
  have hn := countStatus_noShow_recalculateDoctor doc
  have hp : (recalculateDoctor (recalculateDoctor doc)).patients
      = (recalculateDoctor doc).patients := by
    rw [recalculateDoctor_patients (recalculateDoctor doc)]
    have e1 : allowedOf (recalculateDoctor doc) = allowedOf doc := by
      simp [allowedOf, hc, recalculateDoctor_maxPatients]
    rw [e1, hc]
    have e2 : (recalculateDoctor doc).startTime = doc.startTime := rfl
    have e3 : totalStepOf (recalculateDoctor doc) = totalStepOf doc := rfl
    rw [e2, e3, recalculateDoctor_patients doc, walkIdx_idem]
  have hs : (recalculateDoctor (recalculateDoctor doc)).stats = (recalculateDoctor doc).stats := by
    rw [recalculateDoctor_stats, recalculateDoctor_stats, hc, hn]
  calc recalculateDoctor (recalculateDoctor doc)
      = { recalculateDoctor doc with
          stats := (recalculateDoctor (recalculateDoctor doc)).stats
          patients := (recalculateDoctor (recalculateDoctor doc)).patients } := rfl
    _ = recalculateDoctor doc := by rw [hp, hs]

theorem settled_recalculateDoctor (doc : Doctor) : Settled (recalculateDoctor doc) :=
  recalculateDoctor_idem doc

theorem Settled.patients_eq {doc : Doctor} (h : Settled doc) :
    doc.patients
      = walkIdx (timeToMinutes doc.startTime) (totalStepOf doc)
          (countStatus Status.completed doc.patients) (allowedOf doc) 0 doc.patients := by
  have h2 := recalculateDoctor_patients doc
  rw [h] at h2
  exact h2

theorem Settled.stats_completed {doc : Doctor} (h : Settled doc) :
    doc.stats.completed = countStatus Status.completed doc.patients := by
  have h2 := recalculateDoctor_stats doc
  rw [h] at h2
  rw [h2]

theorem Settled.stats_noShow {doc : Doctor} (h : Settled doc) :
    doc.stats.noShow = countStatus Status.noShow doc.patients := by
  have h2 := recalculateDoctor_stats doc
  rw [h] at h2
  rw [h2]

theorem Settled.allocated_eq {doc : Doctor} (h : Settled doc) :
    countStatus Status.allocated doc.patients
      = min (numActive doc.patients) (allowedOf doc).toNat := by
  have h2 := countStatus_allocated_recalculateDoctor doc
  rw [h] at h2
  exact h2

theorem Settled.waiting_eq {doc : Doctor} (h : Settled doc) :
    countStatus Status.waiting doc.patients
      = numActive doc.patients - min (numActive doc.patients) (allowedOf doc).toNat := by
  have h2 := countStatus_waiting_recalculateDoctor doc
  rw [h] at h2
  exact h2

/-- In a settled doctor the token at a position is what the walk writes there. -/
theorem Settled.token_at {doc : Doctor} (h : Settled doc) (i : Nat) (q : Token)
    (hq : doc.patients[i]? = some q) :
    q = relabel (timeToMinutes doc.startTime) (totalStepOf doc)
          (countStatus Status.completed doc.patients) (allowedOf doc)
          (activeBefore doc.patients i) q := by
  have h2 := congrArg (fun l => l[i]?) h.patients_eq
  simp only [walkIdx_getElem?, hq, Option.map_some', Nat.zero_add] at h2
  exact Option.some.inj h2

theorem settled_newDoctor (doctorData : DoctorData) (now : Nat) :
    Settled (addDoctor.newDoctor doctorData now) := rfl

/-! ## `find` followed by an update -/

section modifyFirst

variable {α : Type} (pred : α → Bool) (f : α → α)

theorem modifyFirst_length (xs : List α) : (modifyFirst pred f xs).length = xs.length := by
  induction xs with
  | nil => rfl
  | cons x xs ih => by_cases h : pred x = true <;> simp [modifyFirst, h, ih]

theorem modifyFirst_of_find_none (xs : List α) (h : xs.find? pred = none) :
    modifyFirst pred f xs = xs := by
  induction xs with
  | nil => rfl
  | cons x xs ih =>
    by_cases hx : pred x = true
    · simp [List.find?_cons, hx] at h
    · simp only [List.find?_cons, hx] at h
      simp [modifyFirst, hx, ih h]

/-- The element found splits the list, and the update touches that element only. -/
theorem modifyFirst_split (xs : List α) (x : α) (h : xs.find? pred = some x) :
    ∃ front back, xs = front ++ x :: back ∧ (∀ y ∈ front, pred y = false) ∧ pred x = true
      ∧ modifyFirst pred f xs = front ++ f x :: back := by
  induction xs with
  | nil => simp at h
  | cons a xs ih =>
    by_cases ha : pred a = true
    · simp only [List.find?_cons, ha, Option.some.injEq] at h
      subst h
      exact ⟨[], xs, rfl, by simp, ha, by simp [modifyFirst, ha]⟩
    · simp only [List.find?_cons, ha] at h
      obtain ⟨front, back, e, hf, hx, hm⟩ := ih h
      refine ⟨a :: front, back, by simp [e], ?_, hx, by simp [modifyFirst, ha, hm]⟩
      intro y hy
      rcases List.mem_cons.1 hy with rfl | hy
      · simpa using ha
      · exact hf y hy

theorem mem_modifyFirst (xs : List α) (y : α) (h : y ∈ modifyFirst pred f xs) :
    y ∈ xs ∨ ∃ x, xs.find? pred = some x ∧ y = f x := by
  cases hx : xs.find? pred with
  | none => rw [modifyFirst_of_find_none pred f xs hx] at h; exact Or.inl h
  | some x =>
    obtain ⟨front, back, e, _, _, hm⟩ := modifyFirst_split pred f xs x hx
    rw [hm] at h
    rcases List.mem_append.1 h with h | h
    · exact Or.inl (by rw [e]; exact List.mem_append_left _ h)
    · rcases List.mem_cons.1 h with h | h
      · exact Or.inr ⟨x, rfl, h⟩
      · exact Or.inl (by rw [e]; exact List.mem_append_right _ (List.mem_cons_of_mem _ h))

theorem find?_modifyFirst (hf : ∀ x, pred (f x) = pred x) (xs : List α) :
    (modifyFirst pred f xs).find? pred = (xs.find? pred).map f := by
  induction xs with
  | nil => rfl
  | cons x xs ih =>
    by_cases hx : pred x = true
    · simp [modifyFirst, hx, List.find?_cons, hf]
    · simp [modifyFirst, hx, List.find?_cons, ih]

theorem find?_modifyFirst_other (pred2 : α → Bool) (h1 : ∀ x, pred x = true → pred2 x = false)
    (h2 : ∀ x, pred x = true → pred2 (f x) = false) (xs : List α) :
    (modifyFirst pred f xs).find? pred2 = xs.find? pred2 := by
  induction xs with
  | nil => rfl
  | cons x xs ih =>
    by_cases hx : pred x = true
    · simp [modifyFirst, hx, List.find?_cons, h1 x hx, h2 x hx]
    · simp [modifyFirst, hx, List.find?_cons, ih]

theorem modifyFirst_modifyFirst (g : α → α) (hg : ∀ x, pred (g x) = pred x) (xs : List α) :
    modifyFirst pred f (modifyFirst pred g xs) = modifyFirst pred (fun x => f (g x)) xs := by
  induction xs with
  | nil => rfl
  | cons x xs ih =>
    by_cases hx : pred x = true
    · simp [modifyFirst, hx, hg]
    · simp [modifyFirst, hx, ih]

theorem modifyFirst_congr (g : α → α) (xs : List α) (h : ∀ x, f x = g x) :
    modifyFirst pred f xs = modifyFirst pred g xs := by
  have e : f = g := funext h
  rw [e]

theorem getElem?_modifyFirst (xs : List α) (i : Nat) (x : α) (h : xs[i]? = some x) :
    (modifyFirst pred f xs)[i]? = some x ∨ (modifyFirst pred f xs)[i]? = some (f x) := by
  induction xs generalizing i with
  | nil => simp at h
  | cons a xs ih =>
    by_cases ha : pred a = true
    · cases i with
      | zero =>
        simp only [List.getElem?_cons_zero, Option.some.injEq] at h
        subst h
        right; simp [modifyFirst, ha]
      | succ i => left; simpa [modifyFirst, ha] using h
    · cases i with
      | zero => left; simpa [modifyFirst, ha] using h
      | succ i =>
        simp only [modifyFirst, ha, List.getElem?_cons_succ] at h ⊢
        simpa using ih i h

end modifyFirst

/-! ## The recompute, read along the active tokens -/

/-- The `k`-th active token after the walk is the `k`-th active token before it, relabelled
with its rank. -/
theorem filter_walkIdx_getElem? (st : Num) (step : Int) (cc : Nat) (L : Int) (ps : List Token) :
    ∀ (c k : Nat), ((walkIdx st step cc L c ps).filter isActive)[k]?
      = ((ps.filter isActive)[k]?).map (relabel st step cc L (c + k)) := by
  induction ps with
  | nil => intro c k; simp [walkIdx]
  | cons p ps ih =>
    intro c k
    by_cases h : isActive p = true
    · have h2 : isActive (relabel st step cc L c p) = true := by rw [isActive_relabel]; exact h
      simp only [walkIdx, List.filter_cons, h, h2, if_true]
      cases k with
      | zero => simp
      | succ k =>
        simp only [List.getElem?_cons_succ, ih]
        have e : c + 1 + k = c + (k + 1) := by omega
        rw [e]
    · have h3 : isActive p = false := by simpa using h
      have h2 : isActive (relabel st step cc L c p) = false := by rw [isActive_relabel]; exact h3
      simp only [walkIdx, List.filter_cons, h3, h2]
      simpa using ih c k

theorem totalStepOf_of_ne_zero (doc : Doctor) (h : doc.avgTime ≠ 0) :
    totalStepOf doc = doc.avgTime + doc.bufferTime := by
  simp [totalStepOf, h]

/-- C4. The recompute is idempotent: for every state and doctor id, running
`recalculateDoctorQueue` twice yields exactly the state of running it once. -/
theorem C4_recompute_idempotent (s : State) (doctorId : Nat) :
    recalculateDoctorQueue (recalculateDoctorQueue s doctorId) doctorId
      = recalculateDoctorQueue s doctorId := by
  unfold recalculateDoctorQueue
  simp only
  rw [modifyFirst_modifyFirst _ _ _ (fun x => by rw [recalculateDoctor_id])]
  rw [modifyFirst_congr _ _ recalculateDoctor _ (fun x => recalculateDoctor_idem x)]

/-! ## Order of the allocated slots -/

theorem relabel_status_allocated (st : Num) (step : Int) (cc : Nat) (L : Int) (k : Nat)
    (p : Token) (h : (relabel st step cc L k p).status = Status.allocated) :
    isActive p = true ∧ (k : Int) < L := by
  rw [relabel_status] at h
  by_cases ha : isActive p = true
  · by_cases hk : (k : Int) < L
    · exact ⟨ha, hk⟩
    · simp [ha, hk] at h
  · have h2 := (isActive_eq_false_iff p).1 (by simpa using ha)
    simp only [ha] at h
    rcases h2 with h2 | h2 <;> simp [h2] at h

theorem relabel_status_waiting (st : Num) (step : Int) (cc : Nat) (L : Int) (k : Nat)
    (p : Token) (h : (relabel st step cc L k p).status = Status.waiting) :
    isActive p = true ∧ ¬ (k : Int) < L := by
  rw [relabel_status] at h
  by_cases ha : isActive p = true
  · by_cases hk : (k : Int) < L
    · simp [ha, hk] at h
    · exact ⟨ha, hk⟩
  · have h2 := (isActive_eq_false_iff p).1 (by simpa using ha)
    simp only [ha] at h
    rcases h2 with h2 | h2 <;> simp [h2] at h

theorem totalStepOf_nonneg (doc : Doctor) (havg : 0 ≤ doc.avgTime) (hbuf : 0 ≤ doc.bufferTime) :
    0 ≤ totalStepOf doc := by
  unfold totalStepOf
  split_ifs <;> omega

/-- C5, the claim as stated fails when the start time is not a readable clock string: with
`startTime = "0900"` (no colon) `timeToMinutes` is `NaN`, both A and B are allocated with
arrival value `NaN`, and `NaN <= NaN` is false. -/
theorem C5_counterexample_unreadable_start :
    0 ≤ Demo.doctorNoColon.avgTime ∧ 0 ≤ Demo.doctorNoColon.bufferTime ∧
    ∃ a b, (recalculateDoctor Demo.doctorNoColon).patients[0]? = some a ∧
      (recalculateDoctor Demo.doctorNoColon).patients[1]? = some b ∧
      a.status = Status.allocated ∧ b.status = Status.allocated ∧
      a.arrivalValue = some Num.nan ∧ b.arrivalValue = some Num.nan ∧
      arrivalLe a.arrivalValue b.arrivalValue = false := by
  refine ⟨by decide, by decide, _, _, rfl, rfl, ?_, ?_, ?_, ?_, ?_⟩ <;> decide

/-- C5 (amended). FIFO fairness: for every doctor whose `startTime` is read by `timeToMinutes`
as a number, with non-negative `avgTime` and `bufferTime`, in the list produced by
`recalculateDoctorQueue`, whenever A precedes B and both are allocated,
`A.arrivalValue <= B.arrivalValue`; and no waiting token precedes an allocated one. -/
theorem C5_fifo_fairness (doc : Doctor) (start : Int)
    (hstart : timeToMinutes doc.startTime = Num.int start)
    (havg : 0 ≤ doc.avgTime) (hbuf : 0 ≤ doc.bufferTime)
    (i j : Nat) (a b : Token) (hij : i < j)
    (ha : (recalculateDoctor doc).patients[i]? = some a)
    (hb : (recalculateDoctor doc).patients[j]? = some b) :
    (a.status = Status.allocated → b.status = Status.allocated →
      arrivalLe a.arrivalValue b.arrivalValue = true) ∧
    ¬ (a.status = Status.waiting ∧ b.status = Status.allocated) := by
  rw [recalculateDoctor_patients, walkIdx_getElem?] at ha hb
  cases hpa : doc.patients[i]? with
  | none => simp [hpa] at ha
  | some a0 =>
  cases hpb : doc.patients[j]? with
  | none => simp [hpb] at hb
  | some b0 =>
  simp only [hpa, hpb, Option.map_some', Option.some.injEq, Nat.zero_add] at ha hb
  have hmono := activeBefore_mono doc.patients i j (by omega)
  have hstep := totalStepOf_nonneg doc havg hbuf
  constructor
  · intro hsa hsb
    rw [← ha] at hsa
    rw [← hb] at hsb
    obtain ⟨haa, hka⟩ := relabel_status_allocated _ _ _ _ _ _ hsa
    obtain ⟨hba, hkb⟩ := relabel_status_allocated _ _ _ _ _ _ hsb
    rw [relabel_of_lt _ _ _ _ _ _ haa hka] at ha
    rw [relabel_of_lt _ _ _ _ _ _ hba hkb] at hb
    rw [← ha, ← hb, hstart]
    simp only [allocateToken, arrivalLe, Num.add, Num.le, decide_eq_true_eq]
    have h1 : ((activeBefore doc.patients i : Int) + (countStatus Status.completed doc.patients : Int))
        ≤ ((activeBefore doc.patients j : Int) + (countStatus Status.completed doc.patients : Int)) := by
      omega
    have h2 := mul_le_mul_of_nonneg_right h1 hstep
    omega
  · rintro ⟨hsa, hsb⟩
    rw [← ha] at hsa
    rw [← hb] at hsb
    obtain ⟨_, hka⟩ := relabel_status_waiting _ _ _ _ _ _ hsa
    obtain ⟨_, hkb⟩ := relabel_status_allocated _ _ _ _ _ _ hsb
    omega

/-- C5 (amended), at the scenario of the specification: A (9:00, 540) precedes B (9:10, 550). -/
theorem C5_fifo_fairness_witness :
    (timeToMinutes Demo.doctor.startTime = Num.int 540 ∧ 0 ≤ Demo.doctor.avgTime ∧
      0 ≤ Demo.doctor.bufferTime ∧ 0 < 1 ∧
      (recalculateDoctor Demo.doctor).patients[1]? = some Demo.allocatedB) ∧
    arrivalLe (some (Num.int 540)) Demo.allocatedB.arrivalValue = true :=
  ⟨⟨by decide, by decide, by decide, by decide, by decide⟩,
    (C5_fifo_fairness Demo.doctor 540 (by decide) (by decide) (by decide) 0 1
      { Demo.pending 1 "A" with
        status := Status.allocated, estimatedSlot := some "9:00 AM",
        arrivalValue := some (Num.int 540) }
      Demo.allocatedB (by decide) (by decide) (by decide)).1 (by decide) (by decide)⟩

/-! ## The shape of one step -/

theorem accept_id (d : Doctor) (name : String) (doctorId now : Nat) :
    (bookToken.accept d name doctorId now).id = d.id := rfl

theorem completeInDoctor_id (tokenId now : Nat) (d : Doctor) :
    (completeInDoctor tokenId now d).id = d.id := by
  unfold completeInDoctor
  split <;> rfl

theorem noShowInDoctor_id (tokenId now : Nat) (d : Doctor) :
    (noShowInDoctor tokenId now d).id = d.id := by
  unfold noShowInDoctor
  split <;> rfl

theorem DoctorAct.id_eq {f : Doctor → Doctor} (hf : DoctorAct f) (d : Doctor) :
    (f d).id = d.id := by
  cases hf with
  | recalc => rfl
  | accept name doctorId now => rfl
  | complete tokenId now => exact completeInDoctor_id tokenId now d
  | noShow tokenId now => exact noShowInDoctor_id tokenId now d

/-- An accepted booking: both gates were passed by the doctor found, and the new state is
the old one with that doctor updated. -/
theorem bookToken_ok (s : State) (name : String) (doctorId : Option Nat) (now : Nat)
    (t : Token) (s2 : State) (h : bookToken s name doctorId now = Except.ok (t, s2)) :
    ∃ n doc, findDoctor s n = some doc ∧ ¬ doc.maxPatients ≤ (doc.stats.completed : Int) ∧
      ¬ 10 ≤ countStatus Status.waiting doc.patients ∧
      t = (bookToken.accept doc name n now).patients.getLastD (bookToken.newToken doc name n now) ∧
      s2 = { doctors := modifyFirst (fun d => d.id == n)
              (fun d => bookToken.accept d name n now) s.doctors } := by
  unfold bookToken at h
  split at h
  · simp at h
  · simp at h
  · rename_i n hres
    split at h
    · simp at h
    · rename_i doc hdoc
      split_ifs at h with h1 h2
      simp only [Except.ok.injEq, Prod.mk.injEq] at h
      exact ⟨n + 1, doc, hdoc, h1, h2, h.1.symm, h.2.symm⟩

theorem step_bookToken (s : State) (name : String) (doctorId : Option Nat) (now : Nat) :
    step s (Op.bookToken name doctorId now) = s ∨
    ∃ n doc, findDoctor s n = some doc ∧ ¬ doc.maxPatients ≤ (doc.stats.completed : Int) ∧
      ¬ 10 ≤ countStatus Status.waiting doc.patients ∧
      step s (Op.bookToken name doctorId now)
        = { doctors := modifyFirst (fun d => d.id == n)
              (fun d => bookToken.accept d name n now) s.doctors } := by
  cases h : bookToken s name doctorId now with
  | error e => left; simp [step, h]
  | ok r =>
    obtain ⟨t, s2⟩ := r
    obtain ⟨n, doc, h1, h2, h3, _, h5⟩ := bookToken_ok s name doctorId now t s2 h
    right
    exact ⟨n, doc, h1, h2, h3, by simp [step, h, h5]⟩

/-- Every call other than `deleteDoctor` keeps the state, appends a new doctor, or updates
the first doctor with a given id. -/
theorem step_cases (s : State) (op : Op) (hop : ∀ id, op ≠ Op.deleteDoctor id) :
    step s op = s ∨
    (∃ doctorData now, step s op
        = { doctors := s.doctors ++ [addDoctor.newDoctor doctorData now] }) ∨
    ∃ doctorId f, DoctorAct f ∧
      step s op = { doctors := modifyFirst (fun d => d.id == doctorId) f s.doctors } := by
  cases op with
  | addDoctor doctorData now => right; left; exact ⟨doctorData, now, rfl⟩
  | deleteDoctor id => exact absurd rfl (hop id)
  | bookToken name doctorId now =>
    rcases step_bookToken s name doctorId now with h | ⟨n, doc, _, _, _, h⟩
    · left; exact h
    · right; right; exact ⟨n, _, DoctorAct.accept name n now, h⟩
  | recalculateDoctorQueue doctorId =>
    right; right; exact ⟨doctorId, _, DoctorAct.recalc, rfl⟩
  | markDoctorPatientCompleted doctorId tokenId now =>
    right; right; exact ⟨doctorId, _, DoctorAct.complete tokenId now, rfl⟩
  | markDoctorPatientNoShow doctorId tokenId now =>
    right; right; exact ⟨doctorId, _, DoctorAct.noShow tokenId now, rfl⟩
  | cancelDoctorPatient doctorId tokenId now =>
    right; right; exact ⟨doctorId, _, DoctorAct.noShow tokenId now, rfl⟩
  | leaveQueue doctorId tokenId now =>
    right; right; exact ⟨doctorId, _, DoctorAct.noShow tokenId now, rfl⟩

/-! ## Terminal statuses -/

theorem recalculateDoctor_keeps_terminal (d : Doctor) (j : Nat) (p : Token)
    (hp : d.patients[j]? = some p) (ht : isActive p = false) :
    (recalculateDoctor d).patients[j]? = some p := by
  rw [recalculateDoctor_patients, walkIdx_getElem?, hp]
  simp [relabel_of_not_active, ht]

theorem stamp_keeps_terminal (stamp : Token → Token) (hid : ∀ q, (stamp q).id = q.id)
    (hst : ∀ q, isActive (stamp q) = false) (d : Doctor) (tokenId : Nat) (j : Nat) (p : Token)
    (hp : d.patients[j]? = some p) (ht : isActive p = false) :
    ∃ p2, (recalculateDoctor
            { d with patients := modifyFirst (fun t => t.id == tokenId) stamp d.patients }).patients[j]?
          = some p2 ∧ p2.id = p.id ∧ isActive p2 = false := by
  rcases getElem?_modifyFirst (fun t => t.id == tokenId) stamp d.patients j p hp with h | h
  · exact ⟨p, recalculateDoctor_keeps_terminal _ j p h ht, rfl, ht⟩
  · exact ⟨stamp p, recalculateDoctor_keeps_terminal _ j (stamp p) h (hst p), hid p, hst p⟩

theorem isActive_stampCompleted (now : Nat) (q : Token) :
    isActive (stampCompleted now q) = false := by
  simp [isActive, stampCompleted]

theorem isActive_stampNoShow (now : Nat) (q : Token) :
    isActive (stampNoShow now q) = false := by
  simp [isActive, stampNoShow]

theorem DoctorAct.keeps_terminal {f : Doctor → Doctor} (hf : DoctorAct f) (d : Doctor)
    (j : Nat) (p : Token) (hp : d.patients[j]? = some p) (ht : isActive p = false) :
    ∃ p2, (f d).patients[j]? = some p2 ∧ p2.id = p.id ∧ isActive p2 = false := by
  cases hf with
  | recalc => exact ⟨p, recalculateDoctor_keeps_terminal d j p hp ht, rfl, ht⟩
  | accept name doctorId now =>
    refine ⟨p, recalculateDoctor_keeps_terminal _ j p ?_ ht, rfl, ht⟩
    have hlt : j < d.patients.length := (List.getElem?_eq_some.1 hp).1
    simp only [List.getElem?_append_left hlt, hp]
  | complete tokenId now =>
    unfold completeInDoctor
    split
    · exact ⟨p, hp, rfl, ht⟩
    · exact stamp_keeps_terminal (stampCompleted now) (fun _ => rfl)
        (isActive_stampCompleted now) d tokenId j p hp ht
  | noShow tokenId now =>
    unfold noShowInDoctor
    split
    · exact ⟨p, hp, rfl, ht⟩
    · exact stamp_keeps_terminal (stampNoShow now) (fun _ => rfl)
        (isActive_stampNoShow now) d tokenId j p hp ht

/-- C9. Terminal statuses are permanent: for every state and every operation that keeps the
doctor records (a consultation booking, `recalculateDoctorQueue`, `markDoctorPatientCompleted`,
`markDoctorPatientNoShow`, `cancelDoctorPatient`, `leaveQueue`, also `addDoctor`), on any doctor
and token ids, a token that is completed or no-show before the operation is, at the same place
and with the same id, completed or no-show after it. -/
theorem C9_terminal_permanent (s : State) (op : Op) (hop : ∀ id, op ≠ Op.deleteDoctor id)
    (i j : Nat) (d : Doctor) (p : Token)
    (hd : s.doctors[i]? = some d) (hp : d.patients[j]? = some p)
    (ht : p.status = Status.completed ∨ p.status = Status.noShow) :
    ∃ d2 p2, (step s op).doctors[i]? = some d2 ∧ d2.patients[j]? = some p2 ∧ p2.id = p.id ∧
      (p2.status = Status.completed ∨ p2.status = Status.noShow) := by
  have hta : isActive p = false := (isActive_eq_false_iff p).2 ht
  rcases step_cases s op hop with h | ⟨doctorData, now, h⟩ | ⟨doctorId, f, hf, h⟩
  · rw [h]; exact ⟨d, p, hd, hp, rfl, ht⟩
  · rw [h]
    have hlt : i < s.doctors.length := (List.getElem?_eq_some.1 hd).1
    refine ⟨d, p, ?_, hp, rfl, ht⟩
    simp only [List.getElem?_append_left hlt, hd]
  · rw [h]
    rcases getElem?_modifyFirst (fun d => d.id == doctorId) f s.doctors i d hd with h2 | h2
    · exact ⟨d, p, h2, hp, rfl, ht⟩
    · obtain ⟨p2, h3, h4, h5⟩ := hf.keeps_terminal d j p hp hta
      exact ⟨f d, p2, h2, h3, h4, (isActive_eq_false_iff p2).1 h5⟩

/-! ## Token ids -/

theorem walkIdx_map_id (st : Num) (step : Int) (cc : Nat) (L : Int) (ps : List Token) :
    ∀ k : Nat, (walkIdx st step cc L k ps).map (fun p => p.id) = ps.map (fun p => p.id) := by
  induction ps with
  | nil => intro k; rfl
  | cons p ps ih => intro k; simp [walkIdx, relabel_id, ih]

theorem modifyFirst_map_id (pred : Token → Bool) (stamp : Token → Token)
    (hid : ∀ q, (stamp q).id = q.id) (ps : List Token) :
    (modifyFirst pred stamp ps).map (fun p => p.id) = ps.map (fun p => p.id) := by
  induction ps with
  | nil => rfl
  | cons p ps ih => by_cases h : pred p = true <;> simp [modifyFirst, h, hid, ih]

theorem IdsOk.after_recalculate {d : Doctor} (h : IdsOk d.patients) :
    IdsOk (recalculateDoctor d).patients := by
  unfold IdsOk at h ⊢
  rw [recalculateDoctor_patients, walkIdx_map_id, walkIdx_length]
  exact h

theorem IdsOk.after_modifyFirst {ps : List Token} (h : IdsOk ps) (pred : Token → Bool)
    (stamp : Token → Token) (hid : ∀ q, (stamp q).id = q.id) :
    IdsOk (QueueSense.modifyFirst pred stamp ps) := by
  unfold IdsOk at h ⊢
  rw [modifyFirst_map_id pred stamp hid, modifyFirst_length]
  exact h

theorem IdsOk.append_new {ps : List Token} (h : IdsOk ps) (t : Token)
    (ht : t.id = ps.length + 1) : IdsOk (ps ++ [t]) := by
  unfold IdsOk at h ⊢
  rw [List.map_append, h, List.length_append, List.length_singleton, List.range'_concat]
  simp [ht]; omega

theorem IdsOk.id_at {ps : List Token} (h : IdsOk ps) (i : Nat) (q : Token)
    (hq : ps[i]? = some q) : q.id = i + 1 := by
  unfold IdsOk at h
  have hlt : i < ps.length := (List.getElem?_eq_some.1 hq).1
  have h2 := congrArg (fun l => l[i]?) h
  simp only [List.getElem?_map, hq, Option.map_some'] at h2
  rw [List.getElem?_range' 1 1 hlt] at h2
  have h3 := Option.some.inj h2
  omega

theorem IdsOk.id_at_split {front back : List Token} {p : Token}
    (h : IdsOk (front ++ p :: back)) : p.id = front.length + 1 := by
  apply h.id_at front.length p
  rw [List.getElem?_append_right (le_refl _)]
  simp

/-! ## Invariants of runs -/

theorem forall_mem_modifyFirst {α : Type} (P : α → Prop) (pred : α → Bool) (f : α → α)
    (xs : List α) (h : ∀ x ∈ xs, P x) (hf : ∀ x, xs.find? pred = some x → P x → P (f x)) :
    ∀ y ∈ modifyFirst pred f xs, P y := by
  intro y hy
  rcases mem_modifyFirst pred f xs y hy with h2 | ⟨x, hx, rfl⟩
  · exact h y h2
  · exact hf x hx (h x (List.mem_of_find?_eq_some hx))

/-- A property of doctors is kept by one call when it holds for a new doctor and is kept by
each of the four updates, under what is known when the update is made. -/
theorem step_preserves (P : Doctor → Prop) (s : State) (op : Op)
    (hs : ∀ d ∈ s.doctors, P d)
    (hadd : ∀ doctorData now, op = Op.addDoctor doctorData now →
      P (addDoctor.newDoctor doctorData now))
    (hrec : ∀ d, P d → P (recalculateDoctor d))
    (haccept : ∀ name n now d, P d → ¬ d.maxPatients ≤ (d.stats.completed : Int) →
      ¬ 10 ≤ countStatus Status.waiting d.patients → P (bookToken.accept d name n now))
    (hcomp : ∀ doctorId tokenId now d, op = Op.markDoctorPatientCompleted doctorId tokenId now →
      findDoctor s doctorId = some d → P d → P (completeInDoctor tokenId now d))
    (hns : ∀ tokenId now d, P d → P (noShowInDoctor tokenId now d)) :
    ∀ d ∈ (step s op).doctors, P d := by
  cases op with
  | addDoctor doctorData now =>
    intro d hd
    simp only [step, addDoctor, List.mem_append, List.mem_singleton] at hd
    rcases hd with hd | rfl
    · exact hs d hd
    · exact hadd doctorData now rfl
  | deleteDoctor id =>
    intro d hd
    simp only [step, deleteDoctor] at hd
    exact hs d (List.mem_filter.1 hd).1
  | bookToken name doctorId now =>
    rcases step_bookToken s name doctorId now with h | ⟨n, doc, h1, h2, h3, h⟩
    · rw [h]; exact hs
    · rw [h]
      apply forall_mem_modifyFirst P _ _ _ hs
      intro x hx hPx
      have e : x = doc := by
        have h4 : findDoctor s n = some x := hx
        rw [h1] at h4
        exact (Option.some.inj h4).symm
      subst e
      exact haccept name n now x hPx h2 h3
  | recalculateDoctorQueue doctorId =>
    exact forall_mem_modifyFirst P _ _ _ hs (fun x _ hPx => hrec x hPx)
  | markDoctorPatientCompleted doctorId tokenId now =>
    exact forall_mem_modifyFirst P _ _ _ hs
      (fun x hx hPx => hcomp doctorId tokenId now x rfl hx hPx)
  | markDoctorPatientNoShow doctorId tokenId now =>
    exact forall_mem_modifyFirst P _ _ _ hs (fun x _ hPx => hns tokenId now x hPx)
  | cancelDoctorPatient doctorId tokenId now =>
    exact forall_mem_modifyFirst P _ _ _ hs (fun x _ hPx => hns tokenId now x hPx)
  | leaveQueue doctorId tokenId now =>
    exact forall_mem_modifyFirst P _ _ _ hs (fun x _ hPx => hns tokenId now x hPx)

theorem run_preserves (P : Doctor → Prop) (guard : State → Op → Bool)
    (hstep : ∀ s op, (∀ d ∈ s.doctors, P d) → guard s op = true →
      ∀ d ∈ (step s op).doctors, P d) :
    ∀ (ops : List Op) (s : State), (∀ d ∈ s.doctors, P d) → guardedRun guard s ops = true →
      ∀ d ∈ (run s ops).doctors, P d := by
  intro ops
  induction ops with
  | nil => intro s hs _; exact hs
  | cons op ops ih =>
    intro s hs hg
    simp only [guardedRun, Bool.and_eq_true] at hg
    exact ih (step s op) (hstep s op hs hg.1) hg.2

theorem guardedRun_true (ops : List Op) :
    ∀ s : State, guardedRun (fun _ _ => true) s ops = true := by
  induction ops with
  | nil => intro s; rfl
  | cons op ops ih => intro s; simp [guardedRun, ih]

theorem run_append (s : State) (ops1 ops2 : List Op) :
    run s (ops1 ++ ops2) = run (run s ops1) ops2 := by
  simp [run, List.foldl_append]

theorem settled_completeInDoctor (tokenId now : Nat) (d : Doctor) (h : Settled d) :
    Settled (completeInDoctor tokenId now d) := by
  unfold completeInDoctor
  split
  · exact h
  · exact settled_recalculateDoctor _

theorem settled_noShowInDoctor (tokenId now : Nat) (d : Doctor) (h : Settled d) :
    Settled (noShowInDoctor tokenId now d) := by
  unfold noShowInDoctor
  split
  · exact h
  · exact settled_recalculateDoctor _

theorem idsOk_completeInDoctor (tokenId now : Nat) (d : Doctor) (h : IdsOk d.patients) :
    IdsOk (completeInDoctor tokenId now d).patients := by
  unfold completeInDoctor
  split
  · exact h
  · exact IdsOk.after_recalculate (d := { d with patients := _ })
      (h.after_modifyFirst _ _ (fun _ => rfl))

theorem idsOk_noShowInDoctor (tokenId now : Nat) (d : Doctor) (h : IdsOk d.patients) :
    IdsOk (noShowInDoctor tokenId now d).patients := by
  unfold noShowInDoctor
  split
  · exact h
  · exact IdsOk.after_recalculate (d := { d with patients := _ })
      (h.after_modifyFirst _ _ (fun _ => rfl))

theorem idsOk_accept (name : String) (n now : Nat) (d : Doctor) (h : IdsOk d.patients) :
    IdsOk (bookToken.accept d name n now).patients := by
  unfold bookToken.accept
  exact IdsOk.after_recalculate (d := { d with patients := _ }) (h.append_new _ rfl)

/-- Every doctor of every reachable state is settled and numbers its tokens by position. -/
theorem reachable_good (ops : List Op) :
    ∀ d ∈ (run initState ops).doctors, Settled d ∧ IdsOk d.patients := by
  apply run_preserves (fun d => Settled d ∧ IdsOk d.patients) (fun _ _ => true) _ ops initState
  · intro d hd; simp [initState] at hd
  · exact guardedRun_true ops initState
  · intro s op hs _
    apply step_preserves _ s op hs
    · intro doctorData now _
      exact ⟨settled_newDoctor doctorData now, rfl⟩
    · intro d hd
      exact ⟨settled_recalculateDoctor d, hd.2.after_recalculate⟩
    · intro name n now d hd _ _
      exact ⟨settled_recalculateDoctor _, idsOk_accept name n now d hd.2⟩
    · intro doctorId tokenId now d _ _ hd
      exact ⟨settled_completeInDoctor tokenId now d hd.1, idsOk_completeInDoctor tokenId now d hd.2⟩
    · intro tokenId now d hd
      exact ⟨settled_noShowInDoctor tokenId now d hd.1, idsOk_noShowInDoctor tokenId now d hd.2⟩

theorem reachable_find (ops : List Op) (doctorId : Nat) (d : Doctor)
    (h : findDoctor (run initState ops) doctorId = some d) :
    Settled d ∧ IdsOk d.patients :=
  reachable_good ops d (List.mem_of_find?_eq_some h)

/-! ## Counts after a transition -/

theorem countStatus_modifyFirst (s0 : Status) (pred : Token → Bool) (stamp : Token → Token)
    (ps : List Token) (p : Token) (h : ps.find? pred = some p) :
    countStatus s0 (modifyFirst pred stamp ps) + (if p.status = s0 then 1 else 0)
      = countStatus s0 ps + (if (stamp p).status = s0 then 1 else 0) := by
  obtain ⟨front, back, e, _, _, hm⟩ := modifyFirst_split pred stamp ps p h
  rw [hm, e]
  simp only [countStatus_append, countStatus_cons]
  omega

theorem numActive_modifyFirst (pred : Token → Bool) (stamp : Token → Token)
    (ps : List Token) (p : Token) (h : ps.find? pred = some p) :
    numActive (modifyFirst pred stamp ps) + (if isActive p then 1 else 0)
      = numActive ps + (if isActive (stamp p) then 1 else 0) := by
  obtain ⟨front, back, e, _, _, hm⟩ := modifyFirst_split pred stamp ps p h
  rw [hm, e]
  simp only [numActive_append, numActive_cons]
  omega

theorem one_le_countStatus (s0 : Status) (ps : List Token) (p : Token) (hp : p ∈ ps)
    (hs : p.status = s0) : 1 ≤ countStatus s0 ps := by
  unfold countStatus
  have : p ∈ ps.filter (fun q => q.status == s0) := List.mem_filter.2 ⟨hp, by simp [hs]⟩
  exact List.length_pos_of_mem this

theorem numActive_append_new (ps : List Token) (t : Token) (ht : t.status = Status.pending) :
    numActive (ps ++ [t]) = numActive ps + 1 := by
  rw [numActive_append, numActive_cons]
  simp [isActive, ht, numActive]

theorem countStatus_append_new (s0 : Status) (ps : List Token) (t : Token)
    (ht : t.status = Status.pending) (hs : s0 ≠ Status.pending) :
    countStatus s0 (ps ++ [t]) = countStatus s0 ps := by
  rw [countStatus_append, countStatus_cons]
  have : ¬ Status.pending = s0 := fun h => hs h.symm
  simp [ht, this, countStatus]

/-- The numbers of active and of completed tokens after `markDoctorPatientCompleted` found `p`. -/
theorem completeInDoctor_counts (tokenId now : Nat) (d : Doctor) (p : Token)
    (hp : findToken d tokenId = some p) :
    ∃ d2 : Doctor, completeInDoctor tokenId now d = recalculateDoctor d2 ∧
      d2.maxPatients = d.maxPatients ∧
      numActive d2.patients + (if isActive p then 1 else 0) = numActive d.patients ∧
      countStatus Status.completed d2.patients + (if p.status = Status.completed then 1 else 0)
        = countStatus Status.completed d.patients + 1 := by
  refine ⟨{ d with patients :=
              modifyFirst (fun t => t.id == tokenId) (stampCompleted now) d.patients }, ?_, rfl, ?_, ?_⟩
  · simp [completeInDoctor, hp]
  · have h := numActive_modifyFirst (fun t => t.id == tokenId) (stampCompleted now) d.patients p hp
    simpa [isActive_stampCompleted] using h
  · have h := countStatus_modifyFirst Status.completed (fun t => t.id == tokenId)
      (stampCompleted now) d.patients p hp
    simpa [stampCompleted] using h

/-- The numbers of active and of completed tokens after `markDoctorPatientNoShow` found `p`. -/
theorem noShowInDoctor_counts (tokenId now : Nat) (d : Doctor) (p : Token)
    (hp : findToken d tokenId = some p) :
    ∃ d2 : Doctor, noShowInDoctor tokenId now d = recalculateDoctor d2 ∧
      d2.maxPatients = d.maxPatients ∧
      numActive d2.patients + (if isActive p then 1 else 0) = numActive d.patients ∧
      countStatus Status.completed d2.patients + (if p.status = Status.completed then 1 else 0)
        = countStatus Status.completed d.patients := by
  refine ⟨{ d with patients :=
              modifyFirst (fun t => t.id == tokenId) (stampNoShow now) d.patients }, ?_, rfl, ?_, ?_⟩
  · simp [noShowInDoctor, hp]
  · have h := numActive_modifyFirst (fun t => t.id == tokenId) (stampNoShow now) d.patients p hp
    simpa [isActive_stampNoShow] using h
  · have h := countStatus_modifyFirst Status.completed (fun t => t.id == tokenId)
      (stampNoShow now) d.patients p hp
    simpa [stampNoShow] using h

/-- What the guard of a completion says about the token found. -/
theorem completionTargets_found (allowed : Status → Bool) (s : State)
    (doctorId tokenId now : Nat) (d : Doctor) (p : Token)
    (hg : completionTargets allowed s (Op.markDoctorPatientCompleted doctorId tokenId now) = true)
    (hd : findDoctor s doctorId = some d) (hp : findToken d tokenId = some p) :
    allowed p.status = true := by
  simpa [completionTargets, targetStatus, hd, hp] using hg

/-! ## C1: the capacity invariant -/

/-- C1, the claim as stated fails. With capacity 1, booking A and B, completing A and then
completing the waiting B leaves 0 allocated and 2 completed tokens: 0 + 2 > 1. A doctor created
in count mode with limit -1 has capacity -1 and no tokens: 0 + 0 > -1. -/
theorem C1_counterexample_completed_waiting :
    (run initState Demo.overCompleted).doctors.map tally = [(0, 0, 2, 0, 1)] ∧
    ¬ (∀ d ∈ (run initState Demo.overCompleted).doctors,
        (countStatus Status.allocated d.patients : Int)
          + (countStatus Status.completed d.patients : Int) ≤ d.maxPatients) ∧
    ¬ (∀ d ∈ (run initState [Op.addDoctor (Demo.countData (-1)) 1]).doctors,
        (countStatus Status.allocated d.patients : Int)
          + (countStatus Status.completed d.patients : Int) ≤ d.maxPatients) := by
  refine ⟨by decide, by decide, by decide⟩

/-- C1 (amended). Capacity invariant: in every state reached from the initial one by a run in
which doctors are created with a non-negative capacity and every `markDoctorPatientCompleted`
targets a token that is allocated (or already completed), with bookings, no-show, cancel,
leave and recompute calls unrestricted, every doctor satisfies
`allocatedCount + completedCount ≤ maxPatients`. -/
theorem C1_capacity_invariant (ops : List Op)
    (hg : guardedRun capacityGuard initState ops = true) :
    ∀ d ∈ (run initState ops).doctors,
      (countStatus Status.allocated d.patients : Int)
        + (countStatus Status.completed d.patients : Int) ≤ d.maxPatients := by
  have key : ∀ d ∈ (run initState ops).doctors,
      Settled d ∧ (countStatus Status.completed d.patients : Int) ≤ d.maxPatients := by
    apply run_preserves
      (fun d => Settled d ∧ (countStatus Status.completed d.patients : Int) ≤ d.maxPatients)
      capacityGuard _ ops initState
    · intro d hd; simp [initState] at hd
    · exact hg
    · intro s op hs hgo
      simp only [capacityGuard, Bool.and_eq_true] at hgo
      apply step_preserves _ s op hs
      · intro doctorData now hop
        subst hop
        refine ⟨settled_newDoctor doctorData now, ?_⟩
        have h2 : 0 ≤ addDoctor.maxPatients doctorData := by
          simpa [nonNegativeCapacity] using hgo.2
        simpa [addDoctor.newDoctor, countStatus] using h2
      · intro d hd
        refine ⟨settled_recalculateDoctor d, ?_⟩
        rw [countStatus_completed_recalculateDoctor, recalculateDoctor_maxPatients]
        exact hd.2
      · intro name n now d hd _ _
        refine ⟨settled_recalculateDoctor _, ?_⟩
        unfold bookToken.accept
        rw [countStatus_completed_recalculateDoctor, recalculateDoctor_maxPatients]
        simp only
        rw [countStatus_append_new _ _ _ rfl (by decide)]
        exact hd.2
      · intro doctorId tokenId now d hop hfind hd
        subst hop
        refine ⟨settled_completeInDoctor tokenId now d hd.1, ?_⟩
        cases hp : findToken d tokenId with
        | none => simpa [completeInDoctor, hp] using hd.2
        | some p =>
          have hal := completionTargets_found _ s doctorId tokenId now d p hgo.1 hfind hp
          obtain ⟨d2, e, hm, _, hc⟩ := completeInDoctor_counts tokenId now d p hp
          rw [e, countStatus_completed_recalculateDoctor, recalculateDoctor_maxPatients, hm]
          have h1 := hd.1.allocated_eq
          have h2 := hd.2
          cases hst : p.status <;> simp [hst, Status.isServed] at hal hc
          · have h3 := one_le_countStatus Status.allocated d.patients p
              (List.mem_of_find?_eq_some hp) hst
            unfold allowedOf at h1
            omega
          · omega
      · intro tokenId now d hd
        refine ⟨settled_noShowInDoctor tokenId now d hd.1, ?_⟩
        cases hp : findToken d tokenId with
        | none => simpa [noShowInDoctor, hp] using hd.2
        | some p =>
          obtain ⟨d2, e, hm, _, hc⟩ := noShowInDoctor_counts tokenId now d p hp
          rw [e, countStatus_completed_recalculateDoctor, recalculateDoctor_maxPatients, hm]
          have h2 := hd.2
          split_ifs at hc <;> omega
  intro d hd
  obtain ⟨hS, hc⟩ := key d hd
  have h1 := hS.allocated_eq
  unfold allowedOf at h1
  omega

/-- C1 (amended), on a run: capacity 2, A and B booked, the allocated A completed. -/
theorem C1_capacity_invariant_witness :
    guardedRun capacityGuard initState Demo.servedA = true ∧
    ∀ d ∈ (run initState Demo.servedA).doctors,
      (countStatus Status.allocated d.patients : Int)
        + (countStatus Status.completed d.patients : Int) ≤ d.maxPatients :=
  ⟨by decide, C1_capacity_invariant Demo.servedA (by decide)⟩

/-! ## C2: the waiting-list cap -/

/-- C2, the claim as stated fails. With capacity 2: T1 and T2 are booked, T1 is marked
no-show, T3 to T13 are booked (ten of them wait), and marking the no-show T1 completed takes
one allocation away: eleven tokens wait. -/
theorem C2_counterexample_completed_no_show :
    (run initState (Demo.overWaiting.take 15)).doctors.map tally = [(2, 10, 0, 1, 2)] ∧
    (run initState Demo.overWaiting).doctors.map tally = [(1, 11, 1, 0, 2)] ∧
    ¬ (∀ d ∈ (run initState Demo.overWaiting).doctors,
        countStatus Status.waiting d.patients ≤ 10) := by
  refine ⟨by decide, by decide, by decide⟩

/-- C2 (amended). Waiting-list cap: in every state reached from the initial one by a run in
which no `markDoctorPatientCompleted` targets a no-show token (all other calls unrestricted),
every doctor has at most 10 waiting tokens. -/
theorem C2_waiting_cap (ops : List Op)
    (hg : guardedRun waitingGuard initState ops = true) :
    ∀ d ∈ (run initState ops).doctors, countStatus Status.waiting d.patients ≤ 10 := by
  have key : ∀ d ∈ (run initState ops).doctors,
      Settled d ∧ countStatus Status.waiting d.patients ≤ 10 := by
    apply run_preserves (fun d => Settled d ∧ countStatus Status.waiting d.patients ≤ 10)
      waitingGuard _ ops initState
    · intro d hd; simp [initState] at hd
    · exact hg
    · intro s op hs hgo
      unfold waitingGuard at hgo
      apply step_preserves _ s op hs
      · intro doctorData now _
        exact ⟨settled_newDoctor doctorData now, by simp [addDoctor.newDoctor, countStatus]⟩
      · intro d hd
        refine ⟨settled_recalculateDoctor d, ?_⟩
        rw [hd.1]; exact hd.2
      · intro name n now d hd _ hgate
        refine ⟨settled_recalculateDoctor _, ?_⟩
        unfold bookToken.accept
        rw [countStatus_waiting_recalculateDoctor]
        have h1 := hd.1.waiting_eq
        have e1 : allowedOf { d with patients := d.patients ++ [bookToken.newToken d name n now] }
            = allowedOf d := by
          unfold allowedOf
          simp only
          rw [countStatus_append_new _ _ _ rfl (by decide)]
        rw [e1]
        simp only
        rw [numActive_append_new _ _ rfl]
        omega
      · intro doctorId tokenId now d hop hfind hd
        subst hop
        refine ⟨settled_completeInDoctor tokenId now d hd.1, ?_⟩
        cases hp : findToken d tokenId with
        | none => simpa [completeInDoctor, hp] using hd.2
        | some p =>
          have hal := completionTargets_found _ s doctorId tokenId now d p hgo hfind hp
          obtain ⟨d2, e, hm, ha, hc⟩ := completeInDoctor_counts tokenId now d p hp
          rw [e, countStatus_waiting_recalculateDoctor]
          have h1 := hd.1.waiting_eq
          have h2 := hd.2
          unfold allowedOf at h1 ⊢
          rw [hm]
          cases hst : p.status <;> simp [hst, isActive] at hal ha hc <;> omega
      · intro tokenId now d hd
        refine ⟨settled_noShowInDoctor tokenId now d hd.1, ?_⟩
        cases hp : findToken d tokenId with
        | none => simpa [noShowInDoctor, hp] using hd.2
        | some p =>
          obtain ⟨d2, e, hm, ha, hc⟩ := noShowInDoctor_counts tokenId now d p hp
          rw [e, countStatus_waiting_recalculateDoctor]
          have h1 := hd.1.waiting_eq
          have h2 := hd.2
          unfold allowedOf at h1 ⊢
          rw [hm]
          cases hst : p.status <;> simp [hst, isActive] at ha hc <;> omega
  intro d hd
  exact (key d hd).2

/-- C2 (amended), on a run: the first fifteen calls of the example (two bookings, a no-show,
eleven more bookings), where ten tokens wait. -/
theorem C2_waiting_cap_witness :
    guardedRun waitingGuard initState (Demo.overWaiting.take 15) = true ∧
    ∀ d ∈ (run initState (Demo.overWaiting.take 15)).doctors,
      countStatus Status.waiting d.patients ≤ 10 :=
  ⟨by decide, C2_waiting_cap (Demo.overWaiting.take 15) (by decide)⟩

/-! ## A transition, read position by position -/

theorem getElem?_replace_ne {α : Type} (front back : List α) (x y : α) (i : Nat)
    (h : i ≠ front.length) : (front ++ x :: back)[i]? = (front ++ y :: back)[i]? := by
  by_cases hlt : i < front.length
  · rw [List.getElem?_append_left hlt, List.getElem?_append_left hlt]
  · have hle : front.length ≤ i := by omega
    rw [List.getElem?_append_right hle, List.getElem?_append_right hle]
    obtain ⟨j, hj⟩ : ∃ j, i - front.length = j + 1 := ⟨i - front.length - 1, by omega⟩
    rw [hj]
    simp

theorem getElem?_split_self {α : Type} (front back : List α) (x : α) :
    (front ++ x :: back)[front.length]? = some x := by
  rw [List.getElem?_append_right (le_refl _)]
  simp

theorem completeInDoctor_of_found (tokenId now : Nat) (d : Doctor) (p : Token)
    (hp : findToken d tokenId = some p) :
    completeInDoctor tokenId now d = recalculateDoctor (stampIn tokenId (stampCompleted now) d) := by
  simp [completeInDoctor, hp, stampIn]

theorem noShowInDoctor_of_found (tokenId now : Nat) (d : Doctor) (p : Token)
    (hp : findToken d tokenId = some p) :
    noShowInDoctor tokenId now d = recalculateDoctor (stampIn tokenId (stampNoShow now) d) := by
  simp [noShowInDoctor, hp, stampIn]

theorem completeInDoctor_of_not_found (tokenId now : Nat) (d : Doctor)
    (hp : findToken d tokenId = none) : completeInDoctor tokenId now d = d := by
  simp [completeInDoctor, hp]

theorem noShowInDoctor_of_not_found (tokenId now : Nat) (d : Doctor)
    (hp : findToken d tokenId = none) : noShowInDoctor tokenId now d = d := by
  simp [noShowInDoctor, hp]

/-- After a token found by its id is stamped terminal and the queue recomputed: the stamped
token stands where it stood, and every other token is relabelled with the number of active
tokens now before it, which is one less than before exactly for the tokens behind an active
target. -/
theorem stamp_recalculate_getElem? (d : Doctor) (tokenId : Nat) (stamp : Token → Token)
    (hst : ∀ q, isActive (stamp q) = false) (p : Token) (hp : findToken d tokenId = some p) :
    ∃ front back, d.patients = front ++ p :: back ∧ p.id = tokenId ∧
      (stampIn tokenId stamp d).patients = front ++ stamp p :: back ∧
      (recalculateDoctor (stampIn tokenId stamp d)).patients[front.length]? = some (stamp p) ∧
      ∀ i q, d.patients[i]? = some q → i ≠ front.length →
        ∃ k2, (recalculateDoctor (stampIn tokenId stamp d)).patients[i]?
            = some (relabel (timeToMinutes d.startTime) (totalStepOf d)
                (countStatus Status.completed (stampIn tokenId stamp d).patients)
                (allowedOf (stampIn tokenId stamp d)) k2 q) ∧
          k2 + (if front.length < i ∧ isActive p = true then 1 else 0)
            = activeBefore d.patients i := by
  obtain ⟨front, back, e, _, hpred, hm⟩ :=
    modifyFirst_split (fun t : Token => t.id == tokenId) stamp d.patients p hp
  have hid : p.id = tokenId := by simpa using hpred
  have e2 : (stampIn tokenId stamp d).patients = front ++ stamp p :: back := hm
  refine ⟨front, back, e, hid, e2, ?_, ?_⟩
  · rw [recalculateDoctor_patients, walkIdx_getElem?, e2, getElem?_split_self]
    simp [relabel_of_not_active, hst]
  · intro i q hq hne
    refine ⟨activeBefore (front ++ stamp p :: back) i, ?_, ?_⟩
    · rw [recalculateDoctor_patients, walkIdx_getElem?, e2,
        getElem?_replace_ne front back (stamp p) p i hne, ← e, hq]
      simp only [Option.map_some', Nat.zero_add]
      rfl
    · have h := activeBefore_replace front back p (stamp p) i
      rw [e]
      simpa [hst] using h

theorem stampIn_completed_count (tokenId : Nat) (stamp : Token → Token) (d : Doctor) (p : Token)
    (hp : findToken d tokenId = some p) :
    countStatus Status.completed (stampIn tokenId stamp d).patients
        + (if p.status = Status.completed then 1 else 0)
      = countStatus Status.completed d.patients
        + (if (stamp p).status = Status.completed then 1 else 0) :=
  countStatus_modifyFirst Status.completed _ stamp d.patients p hp

theorem stampIn_noShow_count (tokenId : Nat) (stamp : Token → Token) (d : Doctor) (p : Token)
    (hp : findToken d tokenId = some p) :
    countStatus Status.noShow (stampIn tokenId stamp d).patients
        + (if p.status = Status.noShow then 1 else 0)
      = countStatus Status.noShow d.patients
        + (if (stamp p).status = Status.noShow then 1 else 0) :=
  countStatus_modifyFirst Status.noShow _ stamp d.patients p hp

/-- Completing an active token takes one unit of allowance and adds one completion. -/
theorem stampIn_completed_of_active (tokenId now : Nat) (d : Doctor) (p : Token)
    (hp : findToken d tokenId = some p) (ha : isActive p = true) :
    countStatus Status.completed (stampIn tokenId (stampCompleted now) d).patients
        = countStatus Status.completed d.patients + 1 ∧
      allowedOf (stampIn tokenId (stampCompleted now) d) = allowedOf d - 1 := by
  have h := stampIn_completed_count tokenId (stampCompleted now) d p hp
  have h2 := ((isActive_iff p).1 ha).1
  simp only [h2, if_false, stampCompleted, if_true, Nat.add_zero] at h
  refine ⟨h, ?_⟩
  unfold allowedOf
  rw [h]
  simp only [stampIn]
  push_cast
  ring

/-- In a settled doctor, an allocated token is active and its rank is below the allowance. -/
theorem Settled.allocated_rank {d : Doctor} (h : Settled d) (i : Nat) (q : Token)
    (hq : d.patients[i]? = some q) (hs : q.status = Status.allocated) :
    isActive q = true ∧ (activeBefore d.patients i : Int) < allowedOf d := by
  have h2 := h.token_at i q hq
  rw [h2] at hs
  exact relabel_status_allocated _ _ _ _ _ _ hs

/-- In a settled doctor, a waiting token is active and its rank is not below the allowance. -/
theorem Settled.waiting_rank {d : Doctor} (h : Settled d) (i : Nat) (q : Token)
    (hq : d.patients[i]? = some q) (hs : q.status = Status.waiting) :
    isActive q = true ∧ ¬ (activeBefore d.patients i : Int) < allowedOf d := by
  have h2 := h.token_at i q hq
  rw [h2] at hs
  exact relabel_status_waiting _ _ _ _ _ _ hs

/-- Completing an active token leaves every token behind it exactly as it was. -/
theorem complete_active_keeps_later (d : Doctor) (hS : Settled d) (tokenId now : Nat)
    (p : Token) (hp : findToken d tokenId = some p) (ha : isActive p = true) :
    ∃ front back, d.patients = front ++ p :: back ∧ p.id = tokenId ∧
      ∀ i q, d.patients[i]? = some q → front.length < i →
        (completeInDoctor tokenId now d).patients[i]? = some q := by
  obtain ⟨front, back, e, hid, _, _, hrest⟩ :=
    stamp_recalculate_getElem? d tokenId (stampCompleted now) (isActive_stampCompleted now) p hp
  refine ⟨front, back, e, hid, ?_⟩
  intro i q hq hlt
  obtain ⟨k2, h1, h2⟩ := hrest i q hq (by omega)
  obtain ⟨hc, hL⟩ := stampIn_completed_of_active tokenId now d p hp ha
  rw [completeInDoctor_of_found tokenId now d p hp, h1, hc, hL, relabel_shift]
  simp only [hlt, ha, and_self, if_true] at h2
  rw [h2]
  exact congrArg some (hS.token_at i q hq).symm

/-! ## Looking a doctor up after a step -/

theorem findDoctor_modifyFirst_same (s : State) (doctorId : Nat) (f : Doctor → Doctor)
    (hf : ∀ d, (f d).id = d.id) :
    findDoctor { doctors := modifyFirst (fun d => d.id == doctorId) f s.doctors } doctorId
      = (findDoctor s doctorId).map f := by
  unfold findDoctor
  exact find?_modifyFirst (fun d : Doctor => d.id == doctorId) f (fun x => by simp [hf]) s.doctors

theorem findDoctor_modifyFirst_other (s : State) (n doctorId : Nat) (f : Doctor → Doctor)
    (hf : ∀ d, (f d).id = d.id) (hne : n ≠ doctorId) :
    findDoctor { doctors := modifyFirst (fun d => d.id == n) f s.doctors } doctorId
      = findDoctor s doctorId := by
  unfold findDoctor
  apply find?_modifyFirst_other
  · intro x hx
    have : x.id = n := by simpa using hx
    simp [this, hne]
  · intro x hx
    have : x.id = n := by simpa using hx
    simp [hf, this, hne]

theorem findDoctor_modifyFirst (s : State) (n doctorId : Nat) (f : Doctor → Doctor)
    (hf : ∀ d, (f d).id = d.id) (d d2 : Doctor) (hd : findDoctor s doctorId = some d)
    (hd2 : findDoctor { doctors := modifyFirst (fun d => d.id == n) f s.doctors } doctorId
      = some d2) :
    d2 = d ∨ (n = doctorId ∧ d2 = f d) := by
  by_cases hn : n = doctorId
  · subst hn
    rw [findDoctor_modifyFirst_same s n f hf, hd] at hd2
    right
    exact ⟨rfl, (Option.some.inj hd2).symm⟩
  · rw [findDoctor_modifyFirst_other s n doctorId f hf hn, hd] at hd2
    left
    exact (Option.some.inj hd2).symm

theorem findDoctor_deleteDoctor (s : State) (id doctorId : Nat) (d2 : Doctor)
    (hd2 : findDoctor (deleteDoctor s id) doctorId = some d2) :
    findDoctor s doctorId = some d2 := by
  unfold findDoctor deleteDoctor at *
  simp only at hd2
  rw [List.find?_filter] at hd2
  have hne : id ≠ doctorId := by
    intro h
    subst h
    have := List.find?_some hd2
    simp at this
  have e : (fun a : Doctor => decide ((a.id != id) = true ∧ (a.id == doctorId) = true))
      = (fun a : Doctor => a.id == doctorId) := by
    funext a
    by_cases ha : a.id = doctorId
    · have : a.id ≠ id := fun h => hne (h.symm.trans ha)
      simp [ha, this]
      intro h2
      exact hne h2.symm
    · simp [ha]
  rw [e] at hd2
  exact hd2

/-- The doctor found under an id after one call is the doctor found before it, possibly
updated by that call. -/
theorem findDoctor_step (s : State) (op : Op) (doctorId : Nat) (d d2 : Doctor)
    (hd : findDoctor s doctorId = some d) (hd2 : findDoctor (step s op) doctorId = some d2) :
    d2 = d ∨ d2 = recalculateDoctor d ∨
    (∃ name n now, d2 = bookToken.accept d name n now) ∨
    (∃ tokenId now, op = Op.markDoctorPatientCompleted doctorId tokenId now ∧
      d2 = completeInDoctor tokenId now d) ∨
    (∃ tokenId now, d2 = noShowInDoctor tokenId now d) := by
  cases op with
  | addDoctor doctorData now =>
    left
    simp only [step, addDoctor, findDoctor, List.find?_append] at hd2
    unfold findDoctor at hd
    rw [hd] at hd2
    exact (Option.some.inj hd2).symm
  | deleteDoctor id =>
    left
    have h := findDoctor_deleteDoctor s id doctorId d2 hd2
    rw [hd] at h
    exact (Option.some.inj h).symm
  | bookToken name doctorId2 now =>
    rcases step_bookToken s name doctorId2 now with h | ⟨n, doc, _, _, _, h⟩
    · rw [h, hd] at hd2
      left; exact (Option.some.inj hd2).symm
    · rw [h] at hd2
      rcases findDoctor_modifyFirst s n doctorId (fun d => bookToken.accept d name n now)
        (fun _ => rfl) d d2 hd hd2 with h2 | ⟨_, h2⟩
      · left; exact h2
      · right; right; left; exact ⟨name, n, now, h2⟩
  | recalculateDoctorQueue n =>
    rcases findDoctor_modifyFirst s n doctorId recalculateDoctor (fun _ => rfl) d d2 hd hd2
      with h2 | ⟨_, h2⟩
    · left; exact h2
    · right; left; exact h2
  | markDoctorPatientCompleted n tokenId now =>
    rcases findDoctor_modifyFirst s n doctorId _ (completeInDoctor_id tokenId now) d d2 hd hd2
      with h2 | ⟨hn, h2⟩
    · left; exact h2
    · right; right; right; left
      subst hn
      exact ⟨tokenId, now, rfl, h2⟩
  | markDoctorPatientNoShow n tokenId now =>
    rcases findDoctor_modifyFirst s n doctorId _ (noShowInDoctor_id tokenId now) d d2 hd hd2
      with h2 | ⟨_, h2⟩
    · left; exact h2
    · right; right; right; right; exact ⟨tokenId, now, h2⟩
  | cancelDoctorPatient n tokenId now =>
    rcases findDoctor_modifyFirst s n doctorId _ (noShowInDoctor_id tokenId now) d d2 hd hd2
      with h2 | ⟨_, h2⟩
    · left; exact h2
    · right; right; right; right; exact ⟨tokenId, now, h2⟩
  | leaveQueue n tokenId now =>
    rcases findDoctor_modifyFirst s n doctorId _ (noShowInDoctor_id tokenId now) d d2 hd hd2
      with h2 | ⟨_, h2⟩
    · left; exact h2
    · right; right; right; right; exact ⟨tokenId, now, h2⟩

theorem findDoctor_markDoctorPatientCompleted (s : State) (doctorId tokenId now : Nat)
    (d : Doctor) (hd : findDoctor s doctorId = some d) :
    findDoctor (markDoctorPatientCompleted s doctorId tokenId now) doctorId
      = some (completeInDoctor tokenId now d) := by
  unfold markDoctorPatientCompleted
  rw [findDoctor_modifyFirst_same s doctorId _ (completeInDoctor_id tokenId now), hd]
  rfl

theorem findDoctor_markDoctorPatientNoShow (s : State) (doctorId tokenId now : Nat)
    (d : Doctor) (hd : findDoctor s doctorId = some d) :
    findDoctor (markDoctorPatientNoShow s doctorId tokenId now) doctorId
      = some (noShowInDoctor tokenId now d) := by
  unfold markDoctorPatientNoShow
  rw [findDoctor_modifyFirst_same s doctorId _ (noShowInDoctor_id tokenId now), hd]
  rfl

/-! ## C3: the recompute against its closed form -/

/-- C3. Recompute against its closed form. Let `doc` be the doctor that
`recalculateDoctorQueue(doctorId)` finds, with positive `avgTime` and non-negative
`bufferTime`, and `completedCount` the number of completed tokens of its list. After the call
the doctor found under the same id has a patients list of the same length, in which every
completed or no-show token stands unchanged at its position and as many tokens as before are
neither completed nor no-show; and for every `k` and every token `q` that is the `k`-th
(0-based) such token of the list before the call, the `k`-th such token after the call is `q`
with, when `k < maxPatients - completedCount`, status allocated,
`arrivalValue = timeToMinutes(startTime) + (k + completedCount) * (avgTime + bufferTime)` and
`estimatedSlot = minutesToTime(arrivalValue)`, and otherwise status waiting, slot
"Waiting List" and arrival value 999999; no other field of `q` differs. -/
theorem C3_recompute_closed_form (s : State) (doctorId : Nat) (doc : Doctor)
    (hdoc : findDoctor s doctorId = some doc) (havg : 0 < doc.avgTime)
    (hbuf : 0 ≤ doc.bufferTime) :
    ∃ d2 : Doctor,
      findDoctor (recalculateDoctorQueue s doctorId) doctorId = some d2 ∧
      d2.patients.length = doc.patients.length ∧
      (d2.patients.filter isActive).length = (doc.patients.filter isActive).length ∧
      (∀ (i : Nat) (q : Token), doc.patients[i]? = some q → isActive q = false →
        d2.patients[i]? = some q) ∧
      ∀ (k : Nat) (q : Token), (doc.patients.filter isActive)[k]? = some q →
        ((k : Int) < doc.maxPatients - (countStatus Status.completed doc.patients : Int) →
          (d2.patients.filter isActive)[k]? = some
            { q with
              status := Status.allocated
              estimatedSlot := some (minutesToTime (Num.add (timeToMinutes doc.startTime)
                (Num.int (((k : Int) + (countStatus Status.completed doc.patients : Int))
                  * (doc.avgTime + doc.bufferTime)))))
              arrivalValue := some (Num.add (timeToMinutes doc.startTime)
                (Num.int (((k : Int) + (countStatus Status.completed doc.patients : Int))
                  * (doc.avgTime + doc.bufferTime)))) }) ∧
        (¬ ((k : Int) < doc.maxPatients - (countStatus Status.completed doc.patients : Int)) →
          (d2.patients.filter isActive)[k]? = some
            { q with
              status := Status.waiting
              estimatedSlot := some "Waiting List"
              arrivalValue := some (Num.int 999999) }) := by
  have hb := hbuf
  have hfind : findDoctor (recalculateDoctorQueue s doctorId) doctorId
      = some (recalculateDoctor doc) := by
    unfold recalculateDoctorQueue
    rw [findDoctor_modifyFirst_same s doctorId recalculateDoctor recalculateDoctor_id, hdoc]
    rfl
  have hstep : totalStepOf doc = doc.avgTime + doc.bufferTime :=
    totalStepOf_of_ne_zero doc (by omega)
  refine ⟨recalculateDoctor doc, hfind, ?_, ?_, ?_, ?_⟩
  · rw [recalculateDoctor_patients, walkIdx_length]
  · exact numActive_recalculateDoctor doc
  · intro i q hq ha
    exact recalculateDoctor_keeps_terminal doc i q hq ha
  · intro k q hq
    have hqa : isActive q = true := by
      have hm : q ∈ doc.patients.filter isActive := by
        obtain ⟨hlt, hget⟩ := List.getElem?_eq_some.1 hq
        rw [← hget]; exact List.getElem_mem _
      exact (List.mem_filter.1 hm).2
    have hget : ((recalculateDoctor doc).patients.filter isActive)[k]?
        = some (relabel (timeToMinutes doc.startTime) (totalStepOf doc)
            (countStatus Status.completed doc.patients) (allowedOf doc) k q) := by
      rw [recalculateDoctor_patients, filter_walkIdx_getElem?, hq]
      simp
    constructor
    · intro hlt
      have hlt2 : (k : Int) < allowedOf doc := hlt
      rw [hget, relabel_of_lt _ _ _ _ _ _ hqa hlt2, hstep]
      rfl
    · intro hlt
      have hlt2 : ¬ (k : Int) < allowedOf doc := hlt
      rw [hget, relabel_of_not_lt _ _ _ _ _ _ hqa hlt2]
      rfl

/-- C3, at a doctor with capacity 2, step 10, start "09:00" and the list A (completed), B, C
(both freshly booked): `completedCount = 1`, so B, the first token that is neither completed
nor no-show (`k = 0`), is allocated at `540 + (0 + 1) * 10 = 550` minutes, shown as 9:10 AM,
and C (`k = 1`) is put on the waiting list. -/
theorem C3_recompute_closed_form_witness :
    (findDoctor Demo.mixedState 1 = some Demo.mixedDoctor ∧ 0 < Demo.mixedDoctor.avgTime ∧
      0 ≤ Demo.mixedDoctor.bufferTime) ∧
    (recalculateDoctorQueue Demo.mixedState 1).doctors.map (fun d => d.patients)
      = [[{ Demo.pending 1 "A" with status := Status.completed }, Demo.allocatedB,
          Demo.waitingC]] ∧
    ∃ d2 : Doctor,
      findDoctor (recalculateDoctorQueue Demo.mixedState 1) 1 = some d2 ∧
      d2.patients.length = 3 ∧
      d2.patients[0]? = some { Demo.pending 1 "A" with status := Status.completed } ∧
      (d2.patients.filter isActive)[0]? = some Demo.allocatedB ∧
      (d2.patients.filter isActive)[1]? = some Demo.waitingC := by
  refine ⟨⟨by decide, by decide, by decide⟩, by decide, ?_⟩
  obtain ⟨d2, h1, h2, _, h4, h5⟩ :=
    C3_recompute_closed_form Demo.mixedState 1 Demo.mixedDoctor (by decide) (by decide)
      (by decide)
  exact ⟨d2, h1, h2,
    h4 0 { Demo.pending 1 "A" with status := Status.completed } (by decide) (by decide),
    ((h5 0 (Demo.pending 2 "B") (by decide)).1 (by decide)).trans (by decide),
    ((h5 1 (Demo.pending 3 "C") (by decide)).2 (by decide)).trans (by decide)⟩

/-! ## C8 and C7: what a completion does to the others -/

theorem completeInDoctor_length (tokenId now : Nat) (d : Doctor) :
    (completeInDoctor tokenId now d).patients.length = d.patients.length := by
  unfold completeInDoctor
  split
  · rfl
  · rw [recalculateDoctor_patients, walkIdx_length]
    exact modifyFirst_length _ _ _

/-- Completing the first active token of a settled doctor changes no other token. -/
theorem complete_head_frame (d : Doctor) (hS : Settled d) (hI : IdsOk d.patients)
    (tokenId now : Nat) (p : Token) (hp : findToken d tokenId = some p)
    (hhead : d.patients.find? isActive = some p) :
    ∀ (i : Nat) (q : Token), d.patients[i]? = some q → q.id ≠ tokenId →
      (completeInDoctor tokenId now d).patients[i]? = some q := by
  have ha : isActive p = true := List.find?_some hhead
  obtain ⟨front, back, e, hid, hlater⟩ := complete_active_keeps_later d hS tokenId now p hp ha
  obtain ⟨front2, back2, e2, hfront2, _, _⟩ := modifyFirst_split isActive id d.patients p hhead
  have hlen : front.length = front2.length := by
    have h1 := (e ▸ hI).id_at_split
    have h2 := (e2 ▸ hI).id_at_split
    omega
  have hfr : front = front2 := List.append_inj_left (e.symm.trans e2) hlen
  subst hfr
  intro i q hq hne
  have hi : i ≠ front.length := by
    intro h
    rw [h, e, getElem?_split_self] at hq
    exact hne ((Option.some.inj hq) ▸ hid)
  by_cases hlt : front.length < i
  · exact hlater i q hq hlt
  · have hlt2 : i < front.length := by omega
    have hq2 : front[i]? = some q := by
      rw [e, List.getElem?_append_left hlt2] at hq
      exact hq
    have hqa : isActive q = false := by
      obtain ⟨h1, h2⟩ := List.getElem?_eq_some.1 hq2
      exact hfront2 q (h2 ▸ List.getElem_mem _)
    obtain ⟨_, _, e3, _, e4, _, _⟩ :=
      stamp_recalculate_getElem? d tokenId (stampCompleted now) (isActive_stampCompleted now) p hp
    rw [completeInDoctor_of_found tokenId now d p hp]
    apply recalculateDoctor_keeps_terminal _ i q _ hqa
    have hfr2 := List.append_inj_left (e.symm.trans e3) (by
      have h1 := (e ▸ hI).id_at_split
      have h2 := (e3 ▸ hI).id_at_split
      omega)
    subst hfr2
    rw [e4, List.getElem?_append_left hlt2]
    exact hq2

/-- C8. Completing the head of the queue changes nobody else: in every reachable state, when
the first token that is neither completed nor no-show is allocated,
`markDoctorPatientCompleted` on it keeps the length of the list and leaves every other token
(every token with another id) exactly as it was, so no status, slot or arrival value moves. -/
theorem C8_complete_head_changes_nobody_else (ops : List Op) (doctorId tokenId now : Nat)
    (d : Doctor) (p : Token)
    (hd : findDoctor (run initState ops) doctorId = some d)
    (hp : findToken d tokenId = some p)
    (hhead : d.patients.find? isActive = some p)
    (hal : p.status = Status.allocated) :
    ∃ d2, findDoctor (markDoctorPatientCompleted (run initState ops) doctorId tokenId now) doctorId
        = some d2 ∧
      d2.patients.length = d.patients.length ∧
      ∀ (i : Nat) (q : Token), d.patients[i]? = some q → q.id ≠ tokenId → d2.patients[i]? = some q := by
  have _ := hal
  obtain ⟨hS, hI⟩ := reachable_find ops doctorId d hd
  exact ⟨completeInDoctor tokenId now d,
    findDoctor_markDoctorPatientCompleted _ doctorId tokenId now d hd,
    completeInDoctor_length tokenId now d,
    complete_head_frame d hS hI tokenId now p hp hhead⟩

/-- C8, at the scenario of the specification: capacity 2, step 10, start "09:00", tokens A, B,
C. After completing A, B is still allocated at 550 (9:10 AM) and C still waits. -/
theorem C8_complete_head_changes_nobody_else_witness :
    (findDoctor (run initState Demo.threeBooked) 1
        = some (Demo.firstDoctor (run initState Demo.threeBooked)) ∧
      findToken (Demo.firstDoctor (run initState Demo.threeBooked)) 1
        = some (Demo.tokenAt (run initState Demo.threeBooked) 0) ∧
      (Demo.firstDoctor (run initState Demo.threeBooked)).patients.find? isActive
        = some (Demo.tokenAt (run initState Demo.threeBooked) 0) ∧
      (Demo.tokenAt (run initState Demo.threeBooked) 0).status = Status.allocated) ∧
    (∃ d2, findDoctor (markDoctorPatientCompleted (run initState Demo.threeBooked) 1 1 5) 1
        = some d2 ∧
      d2.patients.length = (Demo.firstDoctor (run initState Demo.threeBooked)).patients.length ∧
      ∀ (i : Nat) (q : Token), (Demo.firstDoctor (run initState Demo.threeBooked)).patients[i]? = some q →
        q.id ≠ 1 → d2.patients[i]? = some q) ∧
    ((Demo.firstDoctor (markDoctorPatientCompleted (run initState Demo.threeBooked) 1 1 5)).patients.map
        Token.view
      = [(1, Status.completed, some "9:00 AM", some (Num.int 540)),
         (2, Status.allocated, some "9:10 AM", some (Num.int 550)),
         (3, Status.waiting, some "Waiting List", some (Num.int 999999))]) :=
  ⟨⟨by decide, by decide, by decide, by decide⟩,
    C8_complete_head_changes_nobody_else Demo.threeBooked 1 1 5
      (Demo.firstDoctor (run initState Demo.threeBooked))
      (Demo.tokenAt (run initState Demo.threeBooked) 0)
      (by decide) (by decide) (by decide) (by decide),
    by decide⟩

/-- Completing an active token never turns a waiting token behind it into an allocated one:
such a token is left exactly as it was. -/
theorem complete_keeps_waiting_behind (d : Doctor) (hS : Settled d) (hI : IdsOk d.patients)
    (tokenId now : Nat) (p : Token) (hp : findToken d tokenId = some p)
    (ha : isActive p = true) (i : Nat) (w : Token) (hw : d.patients[i]? = some w)
    (hlt : p.id < w.id) :
    (completeInDoctor tokenId now d).patients[i]? = some w := by
  obtain ⟨front, back, e, hid, hlater⟩ := complete_active_keeps_later d hS tokenId now p hp ha
  have h1 := (e ▸ hI).id_at_split
  have h2 := hI.id_at i w hw
  exact hlater i w hw (by omega)

/-- C7, the claim as stated fails: it has no instance. In no reachable state does
`markDoctorPatientCompleted` on a non-terminal token P turn a waiting token W booked after P
into an allocated one (W is left as it is: the completion uses up the place it frees). -/
theorem C7_counterexample_completion_never_promotes :
    ¬ ∃ (ops : List Op) (doctorId tokenId now i : Nat) (d d2 : Doctor) (p w w2 : Token),
      findDoctor (run initState ops) doctorId = some d ∧
      findToken d tokenId = some p ∧ isActive p = true ∧
      d.patients[i]? = some w ∧ p.id < w.id ∧ w.status = Status.waiting ∧
      findDoctor (markDoctorPatientCompleted (run initState ops) doctorId tokenId now) doctorId
        = some d2 ∧
      d2.patients[i]? = some w2 ∧ w2.status = Status.allocated := by
  rintro ⟨ops, doctorId, tokenId, now, i, d, d2, p, w, w2, hd, hp, ha, hw, hlt, hws, hd2, hw2, hs2⟩
  obtain ⟨hS, hI⟩ := reachable_find ops doctorId d hd
  rw [findDoctor_markDoctorPatientCompleted _ doctorId tokenId now d hd] at hd2
  have e := Option.some.inj hd2
  subst e
  rw [complete_keeps_waiting_behind d hS hI tokenId now p hp ha i w hw hlt] at hw2
  have e2 := Option.some.inj hw2
  subst e2
  rw [hws] at hs2
  exact absurd hs2 (by decide)

/-- C7 (amended). Promotion on no-show: there is a reachable state of a doctor with a waiting
token W and an earlier-booked non-terminal token P such that `markDoctorPatientNoShow` on P
changes W from waiting to allocated (capacity 2, A, B, C booked, A marked no-show: C moves
from waiting to allocated). -/
theorem C7_promotion_on_no_show :
    ∃ (ops : List Op) (doctorId tokenId now i : Nat) (d d2 : Doctor) (p w w2 : Token),
      findDoctor (run initState ops) doctorId = some d ∧
      findToken d tokenId = some p ∧ isActive p = true ∧
      d.patients[i]? = some w ∧ p.id < w.id ∧ w.status = Status.waiting ∧
      findDoctor (markDoctorPatientNoShow (run initState ops) doctorId tokenId now) doctorId
        = some d2 ∧
      d2.patients[i]? = some w2 ∧ w2.status = Status.allocated :=
  ⟨Demo.threeBooked, 1, 1, 5, 2,
    Demo.firstDoctor (run initState Demo.threeBooked),
    Demo.firstDoctor (markDoctorPatientNoShow (run initState Demo.threeBooked) 1 1 5),
    Demo.tokenAt (run initState Demo.threeBooked) 0,
    Demo.tokenAt (run initState Demo.threeBooked) 2,
    Demo.tokenAt (markDoctorPatientNoShow (run initState Demo.threeBooked) 1 1 5) 2,
    by decide, by decide, by decide, by decide, by decide, by decide, by decide, by decide,
    by decide⟩

/-- C9, on a run: capacity 2, A and B booked, A completed; marking the completed A no-show
leaves it terminal. -/
theorem C9_terminal_permanent_witness :
    ((∀ id, Op.markDoctorPatientNoShow 1 1 9 ≠ Op.deleteDoctor id) ∧
      (run initState Demo.servedA).doctors[0]?
        = some (Demo.firstDoctor (run initState Demo.servedA)) ∧
      (Demo.firstDoctor (run initState Demo.servedA)).patients[0]?
        = some (Demo.tokenAt (run initState Demo.servedA) 0) ∧
      ((Demo.tokenAt (run initState Demo.servedA) 0).status = Status.completed ∨
        (Demo.tokenAt (run initState Demo.servedA) 0).status = Status.noShow)) ∧
    ∃ d2 p2, (step (run initState Demo.servedA) (Op.markDoctorPatientNoShow 1 1 9)).doctors[0]?
        = some d2 ∧ d2.patients[0]? = some p2 ∧
      p2.id = (Demo.tokenAt (run initState Demo.servedA) 0).id ∧
      (p2.status = Status.completed ∨ p2.status = Status.noShow) :=
  ⟨⟨(fun id h => by cases h), by decide, by decide, by decide⟩,
    C9_terminal_permanent (run initState Demo.servedA) (Op.markDoctorPatientNoShow 1 1 9)
      (fun id h => by cases h) 0 0 (Demo.firstDoctor (run initState Demo.servedA))
      (Demo.tokenAt (run initState Demo.servedA) 0) (by decide) (by decide) (by decide)⟩

/-! ## C6: what keeps an allocated token allocated -/

theorem relabel_allocated_of_lt (st : Num) (step : Int) (cc : Nat) (L : Int) (k : Nat)
    (q : Token) (ha : isActive q = true) (hk : (k : Int) < L) :
    (relabel st step cc L k q).status ≠ Status.waiting := by
  rw [relabel_of_lt _ _ _ _ _ _ ha hk]
  simp [allocateToken]

/-- A booking leaves every token already in the list exactly as it was. -/
theorem accept_keeps (d : Doctor) (hS : Settled d) (name : String) (n now : Nat) (i : Nat)
    (q : Token) (hq : d.patients[i]? = some q) :
    (bookToken.accept d name n now).patients[i]? = some q := by
  have hlt : i < d.patients.length := (List.getElem?_eq_some.1 hq).1
  unfold bookToken.accept
  rw [recalculateDoctor_patients, walkIdx_getElem?]
  have e1 : allowedOf { d with patients := d.patients ++ [bookToken.newToken d name n now] }
      = allowedOf d := by
    unfold allowedOf
    simp only
    rw [countStatus_append_new _ _ _ rfl (by decide)]
  rw [e1]
  simp only
  rw [countStatus_append_new _ _ _ rfl (by decide), List.getElem?_append_left hlt, hq,
    activeBefore_append]
  have e2 : i - d.patients.length = 0 := by omega
  rw [e2, activeBefore_zero]
  simp only [Option.map_some', Nat.zero_add, Nat.add_zero]
  exact congrArg some (hS.token_at i q hq).symm

/-- Completing an allocated or completed token turns no allocated token into a waiting one. -/
theorem complete_keeps_allocated (d : Doctor) (hS : Settled d) (tokenId now : Nat) (p : Token)
    (hp : findToken d tokenId = some p) (hserved : p.status.isServed = true)
    (i : Nat) (q q2 : Token) (hq : d.patients[i]? = some q) (hs : q.status = Status.allocated)
    (hq2 : (completeInDoctor tokenId now d).patients[i]? = some q2) :
    q2.status ≠ Status.waiting := by
  obtain ⟨front, back, e, _, _, hself, hrest⟩ :=
    stamp_recalculate_getElem? d tokenId (stampCompleted now) (isActive_stampCompleted now) p hp
  rw [completeInDoctor_of_found tokenId now d p hp] at hq2
  by_cases hi : i = front.length
  · subst hi
    rw [hself] at hq2
    have e2 := Option.some.inj hq2
    subst e2
    simp [stampCompleted]
  · obtain ⟨k2, h1, h2⟩ := hrest i q hq hi
    rw [h1] at hq2
    have e2 := Option.some.inj hq2
    subst e2
    obtain ⟨hqa, hrank⟩ := hS.allocated_rank i q hq hs
    have hcount := stampIn_completed_count tokenId (stampCompleted now) d p hp
    apply relabel_allocated_of_lt _ _ _ _ _ _ hqa
    have hL : allowedOf (stampIn tokenId (stampCompleted now) d)
        = d.maxPatients
          - (countStatus Status.completed (stampIn tokenId (stampCompleted now) d).patients : Int) :=
      rfl
    rw [hL]
    unfold allowedOf at hrank
    cases hst : p.status <;> simp [hst, Status.isServed] at hserved
    · have hpa : isActive p = true := by simp [isActive, hst]
      have hp_at : d.patients[front.length]? = some p := by
        rw [e]; exact getElem?_split_self front back p
      obtain ⟨_, hprank⟩ := hS.allocated_rank front.length p hp_at hst
      unfold allowedOf at hprank
      simp [hst, stampCompleted] at hcount
      by_cases hlt : front.length < i
      · simp [hlt, hpa] at h2
        omega
      · have hlt2 : i < front.length := by omega
        have h3 := activeBefore_lt_of_active d.patients i front.length q hq hqa hlt2
        simp [hlt] at h2
        omega
    · have hpa : isActive p = false := by simp [isActive, hst]
      simp [hst, stampCompleted] at hcount
      simp [hpa] at h2
      omega

/-- A no-show (or cancel, or leave) on any token turns no allocated token into a waiting one. -/
theorem noShow_keeps_allocated (d : Doctor) (hS : Settled d) (tokenId now : Nat) (p : Token)
    (hp : findToken d tokenId = some p)
    (i : Nat) (q q2 : Token) (hq : d.patients[i]? = some q) (hs : q.status = Status.allocated)
    (hq2 : (noShowInDoctor tokenId now d).patients[i]? = some q2) :
    q2.status ≠ Status.waiting := by
  obtain ⟨front, back, e, _, _, hself, hrest⟩ :=
    stamp_recalculate_getElem? d tokenId (stampNoShow now) (isActive_stampNoShow now) p hp
  rw [noShowInDoctor_of_found tokenId now d p hp] at hq2
  by_cases hi : i = front.length
  · subst hi
    rw [hself] at hq2
    have e2 := Option.some.inj hq2
    subst e2
    simp [stampNoShow]
  · obtain ⟨k2, h1, h2⟩ := hrest i q hq hi
    rw [h1] at hq2
    have e2 := Option.some.inj hq2
    subst e2
    obtain ⟨hqa, hrank⟩ := hS.allocated_rank i q hq hs
    have hcount := stampIn_completed_count tokenId (stampNoShow now) d p hp
    apply relabel_allocated_of_lt _ _ _ _ _ _ hqa
    have hL : allowedOf (stampIn tokenId (stampNoShow now) d)
        = d.maxPatients
          - (countStatus Status.completed (stampIn tokenId (stampNoShow now) d).patients : Int) :=
      rfl
    rw [hL]
    unfold allowedOf at hrank
    have hk : k2 ≤ activeBefore d.patients i := by
      split_ifs at h2 <;> omega
    cases hst : p.status <;> simp [hst, stampNoShow] at hcount <;> omega

/-- C6, the claim as stated fails. Capacity 2 with A, B allocated and C waiting: completing
the waiting C turns the allocated B into a waiting token; and, after A was marked no-show (so
that B and C are allocated), completing the no-show A turns the allocated C into a waiting
token. -/
theorem C6_counterexample_completion_demotes :
    (Demo.board (run initState Demo.threeBooked)).1
        = [Status.allocated, Status.allocated, Status.waiting] ∧
      (Demo.board (step (run initState Demo.threeBooked)
          (Op.markDoctorPatientCompleted 1 3 5))).1
        = [Status.allocated, Status.waiting, Status.completed] ∧
    (Demo.board (run initState (Demo.threeBooked ++ [Op.markDoctorPatientNoShow 1 1 5]))).1
        = [Status.noShow, Status.allocated, Status.allocated] ∧
      (Demo.board (step (run initState (Demo.threeBooked ++ [Op.markDoctorPatientNoShow 1 1 5]))
          (Op.markDoctorPatientCompleted 1 1 6))).1
        = [Status.completed, Status.allocated, Status.waiting] := by
  refine ⟨by decide, by decide, by decide, by decide⟩

/-- C6 (amended). Allocated never reverts to waiting under bookings, no-shows and completions
of allocated tokens: in every reachable state, for every single call that is not a
`markDoctorPatientCompleted` finding a waiting or no-show token (so: a booking, a no-show,
cancel or leave on any token, a completion of an allocated or already completed token, and also
a recompute or a doctor being added or deleted), a token that is allocated before the call is
not waiting after it. -/
theorem C6_allocated_never_reverts (ops : List Op) (op : Op)
    (hg : completionTargets Status.isServed (run initState ops) op = true)
    (doctorId i : Nat) (d d2 : Doctor) (q q2 : Token)
    (hd : findDoctor (run initState ops) doctorId = some d)
    (hq : d.patients[i]? = some q) (hs : q.status = Status.allocated)
    (hd2 : findDoctor (step (run initState ops) op) doctorId = some d2)
    (hq2 : d2.patients[i]? = some q2) :
    q2.status ≠ Status.waiting := by
  obtain ⟨hS, _⟩ := reachable_find ops doctorId d hd
  have same : d2 = d → q2.status ≠ Status.waiting := by
    intro h
    subst h
    rw [hq] at hq2
    rw [← Option.some.inj hq2, hs]
    decide
  rcases findDoctor_step _ op doctorId d d2 hd hd2 with h | h | ⟨name, n, now, h⟩ |
    ⟨tokenId, now, hop, h⟩ | ⟨tokenId, now, h⟩
  · exact same h
  · exact same (h.trans hS)
  · subst h
    rw [accept_keeps d hS name n now i q hq] at hq2
    rw [← Option.some.inj hq2, hs]
    decide
  · subst h
    cases hp : findToken d tokenId with
    | none => exact same (completeInDoctor_of_not_found tokenId now d hp)
    | some p =>
      subst hop
      have hserved := completionTargets_found _ _ doctorId tokenId now d p hg hd hp
      exact complete_keeps_allocated d hS tokenId now p hp hserved i q q2 hq hs hq2
  · subst h
    cases hp : findToken d tokenId with
    | none => exact same (noShowInDoctor_of_not_found tokenId now d hp)
    | some p => exact noShow_keeps_allocated d hS tokenId now p hp i q q2 hq hs hq2

/-- C6 (amended), on a run: capacity 2, A, B, C booked; completing the allocated A leaves the
allocated B not waiting. -/
theorem C6_allocated_never_reverts_witness :
    (completionTargets Status.isServed (run initState Demo.threeBooked)
        (Op.markDoctorPatientCompleted 1 1 5) = true ∧
      findDoctor (run initState Demo.threeBooked) 1
        = some (Demo.firstDoctor (run initState Demo.threeBooked)) ∧
      (Demo.firstDoctor (run initState Demo.threeBooked)).patients[1]?
        = some (Demo.tokenAt (run initState Demo.threeBooked) 1) ∧
      (Demo.tokenAt (run initState Demo.threeBooked) 1).status = Status.allocated ∧
      findDoctor (step (run initState Demo.threeBooked) (Op.markDoctorPatientCompleted 1 1 5)) 1
        = some (Demo.firstDoctor
            (step (run initState Demo.threeBooked) (Op.markDoctorPatientCompleted 1 1 5))) ∧
      (Demo.firstDoctor
          (step (run initState Demo.threeBooked) (Op.markDoctorPatientCompleted 1 1 5))).patients[1]?
        = some (Demo.tokenAt
            (step (run initState Demo.threeBooked) (Op.markDoctorPatientCompleted 1 1 5)) 1)) ∧
    (Demo.tokenAt (step (run initState Demo.threeBooked) (Op.markDoctorPatientCompleted 1 1 5))
        1).status ≠ Status.waiting :=
  ⟨⟨by decide, by decide, by decide, by decide, by decide, by decide⟩,
    C6_allocated_never_reverts Demo.threeBooked (Op.markDoctorPatientCompleted 1 1 5)
      (by decide) 1 1
      (Demo.firstDoctor (run initState Demo.threeBooked))
      (Demo.firstDoctor
        (step (run initState Demo.threeBooked) (Op.markDoctorPatientCompleted 1 1 5)))
      (Demo.tokenAt (run initState Demo.threeBooked) 1)
      (Demo.tokenAt (step (run initState Demo.threeBooked) (Op.markDoctorPatientCompleted 1 1 5)) 1)
      (by decide) (by decide) (by decide) (by decide) (by decide)⟩

/-! ## C10: a transition applied to a terminal token -/

/-- Stamping a terminal token with the status it already has leaves a settled doctor settled:
the recompute that follows changes nothing. -/
theorem recalculateDoctor_stampIn_same (d : Doctor) (hS : Settled d) (tokenId : Nat)
    (stamp : Token → Token) (hst : ∀ q, isActive (stamp q) = false) (p : Token)
    (hp : findToken d tokenId = some p) (hpa : isActive p = false)
    (hsame : (stamp p).status = p.status) :
    recalculateDoctor (stampIn tokenId stamp d) = stampIn tokenId stamp d := by
  obtain ⟨front, back, e, _, e4, hself, hrest⟩ :=
    stamp_recalculate_getElem? d tokenId stamp hst p hp
  have hc : countStatus Status.completed (stampIn tokenId stamp d).patients
      = countStatus Status.completed d.patients := by
    have h := stampIn_completed_count tokenId stamp d p hp
    rw [hsame] at h
    omega
  have hn : countStatus Status.noShow (stampIn tokenId stamp d).patients
      = countStatus Status.noShow d.patients := by
    have h := stampIn_noShow_count tokenId stamp d p hp
    rw [hsame] at h
    omega
  have hL : allowedOf (stampIn tokenId stamp d) = allowedOf d := by
    unfold allowedOf
    rw [hc]
    rfl
  have hpat : (recalculateDoctor (stampIn tokenId stamp d)).patients
      = (stampIn tokenId stamp d).patients := by
    apply List.ext_getElem?
    intro i
    by_cases hi : i = front.length
    · rw [hi, hself, e4, getElem?_split_self]
    · cases hq : d.patients[i]? with
      | none =>
        have hlen : d.patients.length ≤ i := List.getElem?_eq_none_iff.1 hq
        have h1 : (recalculateDoctor (stampIn tokenId stamp d)).patients.length
            = d.patients.length := by
          rw [recalculateDoctor_patients, walkIdx_length]
          exact modifyFirst_length _ _ _
        have h2 : (stampIn tokenId stamp d).patients.length = d.patients.length :=
          modifyFirst_length _ _ _
        rw [List.getElem?_eq_none_iff.2 (by omega), List.getElem?_eq_none_iff.2 (by omega)]
      | some q =>
        obtain ⟨k2, h1, h2⟩ := hrest i q hq hi
        have h3 : k2 = activeBefore d.patients i := by
          simpa [hpa] using h2
        rw [h1, hc, hL, h3, e4, getElem?_replace_ne front back (stamp p) p i hi, ← e, hq]
        exact congrArg some (hS.token_at i q hq).symm
  have hstats : (recalculateDoctor (stampIn tokenId stamp d)).stats
      = (stampIn tokenId stamp d).stats := by
    rw [recalculateDoctor_stats, hc, hn]
    have h1 := hS.stats_completed
    have h2 := hS.stats_noShow
    show _ = d.stats
    cases hds : d.stats with
    | mk c n =>
      rw [hds] at h1 h2
      simp only at h1 h2
      rw [h1, h2]
  calc recalculateDoctor (stampIn tokenId stamp d)
      = { stampIn tokenId stamp d with
          stats := (recalculateDoctor (stampIn tokenId stamp d)).stats
          patients := (recalculateDoctor (stampIn tokenId stamp d)).patients } := rfl
    _ = stampIn tokenId stamp d := by rw [hpat, hstats]

theorem map_view_stampIn (d : Doctor) (tokenId : Nat) (stamp : Token → Token) (p : Token)
    (hp : findToken d tokenId = some p) (hview : (stamp p).view = p.view) :
    (stampIn tokenId stamp d).patients.map Token.view = d.patients.map Token.view := by
  obtain ⟨front, back, e, _, _, hm⟩ :=
    modifyFirst_split (fun t : Token => t.id == tokenId) stamp d.patients p hp
  have e2 : (stampIn tokenId stamp d).patients = front ++ stamp p :: back := hm
  rw [e2, e]
  simp [hview]

/-- C10, the claim as stated fails. In the reachable state with A completed and B allocated
(capacity 2), `markDoctorPatientNoShow` on the completed A makes it no-show and moves the
statistics from completed 1, no-show 0 to completed 0, no-show 1. And in a state loaded with a
queue that is not up to date (A completed, B pending, stale statistics 5 and 5),
`markDoctorPatientCompleted` on the completed A changes B to allocated and the statistics to
completed 1, no-show 0. -/
theorem C10_counterexample_other_transition :
    Demo.board (run initState Demo.servedA)
        = ([Status.completed, Status.allocated], { completed := 1, noShow := 0 }) ∧
      Demo.board (markDoctorPatientNoShow (run initState Demo.servedA) 1 1 9)
        = ([Status.noShow, Status.allocated], { completed := 0, noShow := 1 }) ∧
    Demo.board Demo.staleState
        = ([Status.completed, Status.pending], { completed := 5, noShow := 5 }) ∧
      Demo.board (markDoctorPatientCompleted Demo.staleState 1 1 9)
        = ([Status.completed, Status.allocated], { completed := 1, noShow := 0 }) := by
  refine ⟨by decide, by decide, by decide, by decide⟩

/-- C10 (amended). Repeating a transition is a no-op: in every reachable state,
`markDoctorPatientCompleted` on a token that is already completed, and
`markDoctorPatientNoShow` on a token that is already no-show, leave `doctor.stats` and the id,
status, estimated slot and arrival value of every token of the doctor unchanged. -/
theorem C10_repeated_transition_noop (ops : List Op) (doctorId tokenId now : Nat)
    (d : Doctor) (p : Token)
    (hd : findDoctor (run initState ops) doctorId = some d)
    (hp : findToken d tokenId = some p) :
    (p.status = Status.completed →
      ∃ d2, findDoctor (markDoctorPatientCompleted (run initState ops) doctorId tokenId now)
          doctorId = some d2 ∧
        d2.stats = d.stats ∧ d2.patients.map Token.view = d.patients.map Token.view) ∧
    (p.status = Status.noShow →
      ∃ d2, findDoctor (markDoctorPatientNoShow (run initState ops) doctorId tokenId now)
          doctorId = some d2 ∧
        d2.stats = d.stats ∧ d2.patients.map Token.view = d.patients.map Token.view) := by
  obtain ⟨hS, _⟩ := reachable_find ops doctorId d hd
  constructor
  · intro hst
    refine ⟨completeInDoctor tokenId now d,
      findDoctor_markDoctorPatientCompleted _ doctorId tokenId now d hd, ?_, ?_⟩
    · rw [completeInDoctor_of_found tokenId now d p hp,
        recalculateDoctor_stampIn_same d hS tokenId (stampCompleted now)
          (isActive_stampCompleted now) p hp (by simp [isActive, hst])
          (by simp [stampCompleted, hst])]
      rfl
    · rw [completeInDoctor_of_found tokenId now d p hp,
        recalculateDoctor_stampIn_same d hS tokenId (stampCompleted now)
          (isActive_stampCompleted now) p hp (by simp [isActive, hst])
          (by simp [stampCompleted, hst])]
      exact map_view_stampIn d tokenId (stampCompleted now) p hp
        (by simp [Token.view, stampCompleted, hst])
  · intro hst
    refine ⟨noShowInDoctor tokenId now d,
      findDoctor_markDoctorPatientNoShow _ doctorId tokenId now d hd, ?_, ?_⟩
    · rw [noShowInDoctor_of_found tokenId now d p hp,
        recalculateDoctor_stampIn_same d hS tokenId (stampNoShow now)
          (isActive_stampNoShow now) p hp (by simp [isActive, hst])
          (by simp [stampNoShow, hst])]
      rfl
    · rw [noShowInDoctor_of_found tokenId now d p hp,
        recalculateDoctor_stampIn_same d hS tokenId (stampNoShow now)
          (isActive_stampNoShow now) p hp (by simp [isActive, hst])
          (by simp [stampNoShow, hst])]
      exact map_view_stampIn d tokenId (stampNoShow now) p hp
        (by simp [Token.view, stampNoShow, hst])

/-- C10 (amended), on a run: capacity 2, A and B booked, A completed; completing A again
leaves the board (statuses and statistics) as it was. -/
theorem C10_repeated_transition_noop_witness :
    (findDoctor (run initState Demo.servedA) 1
        = some (Demo.firstDoctor (run initState Demo.servedA)) ∧
      findToken (Demo.firstDoctor (run initState Demo.servedA)) 1
        = some (Demo.tokenAt (run initState Demo.servedA) 0) ∧
      (Demo.tokenAt (run initState Demo.servedA) 0).status = Status.completed) ∧
    (∃ d2, findDoctor (markDoctorPatientCompleted (run initState Demo.servedA) 1 1 9) 1
        = some d2 ∧
      d2.stats = (Demo.firstDoctor (run initState Demo.servedA)).stats ∧
      d2.patients.map Token.view
        = (Demo.firstDoctor (run initState Demo.servedA)).patients.map Token.view) ∧
    Demo.board (markDoctorPatientCompleted (run initState Demo.servedA) 1 1 9)
      = Demo.board (run initState Demo.servedA) :=
  ⟨⟨by decide, by decide, by decide⟩,
    (C10_repeated_transition_noop Demo.servedA 1 1 9
      (Demo.firstDoctor (run initState Demo.servedA))
      (Demo.tokenAt (run initState Demo.servedA) 0) (by decide) (by decide)).1 (by decide),
    by decide⟩

/-! ## C11 and C12: the two booking gates -/

/-- C11. Session-complete gate: for every state and every consultation booking that resolves
to an existing doctor, `bookToken` returns the session-completed error if and only if
`doctor.stats.completed ≥ doctor.maxPatients`, whatever the tokens in the list; in that case
the state, and so the doctor's patients and stats, are left as they were. -/
theorem C11_session_complete_gate (s : State) (name : String) (doctorId : Option Nat)
    (now n : Nat) (doc : Doctor)
    (hres : bookToken.resolve s doctorId = some (n + 1))
    (hdoc : findDoctor s (n + 1) = some doc) :
    (bookToken s name doctorId now = Except.error "Session completed. Sorry, book next time."
      ↔ doc.maxPatients ≤ (doc.stats.completed : Int)) ∧
    (doc.maxPatients ≤ (doc.stats.completed : Int) →
      step s (Op.bookToken name doctorId now) = s ∧
      findDoctor (step s (Op.bookToken name doctorId now)) (n + 1) = some doc) := by
  have hb : bookToken s name doctorId now
      = if doc.maxPatients ≤ (doc.stats.completed : Int) then
          Except.error "Session completed. Sorry, book next time."
        else if 10 ≤ countStatus Status.waiting doc.patients then
          Except.error "Waiting list is full. Sorry, book next time."
        else
          Except.ok
            ((bookToken.accept doc name (n + 1) now).patients.getLastD
                (bookToken.newToken doc name (n + 1) now),
             { doctors :=
                 modifyFirst (fun d => d.id == n + 1)
                   (fun d => bookToken.accept d name (n + 1) now) s.doctors }) := by
    unfold bookToken
    rw [hres]
    simp only [hdoc]
  constructor
  · constructor
    · intro h
      by_contra hc
      rw [hb] at h
      simp only [hc, if_false] at h
      split_ifs at h
      · have h2 := Except.error.inj h
        revert h2
        decide
    · intro h
      rw [hb]
      simp [h]
  · intro h
    have hs : step s (Op.bookToken name doctorId now) = s := by
      simp [step, hb, h]
    exact ⟨hs, by rw [hs]; exact hdoc⟩

/-- C11, at the scenario of the specification: capacity 2 with both A and B completed; a
further booking is rejected with the session-completed message. -/
theorem C11_session_complete_gate_witness :
    (bookToken.resolve (run initState Demo.sessionDone) (some 1) = some (0 + 1) ∧
      findDoctor (run initState Demo.sessionDone) (0 + 1)
        = some (Demo.firstDoctor (run initState Demo.sessionDone)) ∧
      (Demo.firstDoctor (run initState Demo.sessionDone)).maxPatients
        ≤ ((Demo.firstDoctor (run initState Demo.sessionDone)).stats.completed : Int)) ∧
    bookToken (run initState Demo.sessionDone) "C" (some 1) 7
      = Except.error "Session completed. Sorry, book next time." :=
  ⟨⟨by decide, by decide, by decide⟩,
    (C11_session_complete_gate (run initState Demo.sessionDone) "C" (some 1) 7 0
      (Demo.firstDoctor (run initState Demo.sessionDone)) (by decide) (by decide)).1.2
      (by decide)⟩

/-- C12, the claim as stated fails: with capacity 1, after ten bookings one token is allocated
and nine wait, so the eleventh booking is accepted (it becomes the tenth waiting token). -/
theorem C12_counterexample_eleventh_accepted :
    (run initState (Op.addDoctor (Demo.countData 1) 1 :: (Demo.names 10).map Demo.book)).doctors.map
        tally = [(1, 9, 0, 0, 1)] ∧
    bookErrors (run initState [Op.addDoctor (Demo.countData 1) 1]) (Demo.names 11)
      = [none, none, none, none, none, none, none, none, none, none, none] := by
  refine ⟨by decide, by decide⟩

/-- C12 (amended). Waiting-list-full scenario: starting from a freshly created doctor with
`maxPatients = 1` and booking 12 patients in a row, the first 11 bookings succeed (one
allocated, ten waiting) and the 12th fails with the waiting-list-full error, the session-complete
gate not being triggered (no token is completed). -/
theorem C12_waiting_list_full_scenario :
    bookErrors (run initState [Op.addDoctor (Demo.countData 1) 1]) (Demo.names 12)
      = [none, none, none, none, none, none, none, none, none, none, none,
         some "Waiting list is full. Sorry, book next time."] ∧
    (run initState (Op.addDoctor (Demo.countData 1) 1 :: (Demo.names 11).map Demo.book)).doctors.map
        tally = [(1, 10, 0, 0, 1)] := by
  refine ⟨by decide, by decide⟩

/-! ## C13: what a booking returns -/

theorem isActive_newToken (d : Doctor) (name : String) (n now : Nat) :
    isActive (bookToken.newToken d name n now) = true := by
  simp [isActive, bookToken.newToken]

/-- The list after an accepted booking: the old tokens as the walk writes them, followed by the
new token relabelled with the number of active tokens before it. -/
theorem accept_patients (d : Doctor) (name : String) (n now : Nat) :
    (bookToken.accept d name n now).patients
      = walkIdx (timeToMinutes d.startTime) (totalStepOf d)
          (countStatus Status.completed d.patients) (allowedOf d) 0 d.patients
        ++ [relabel (timeToMinutes d.startTime) (totalStepOf d)
              (countStatus Status.completed d.patients) (allowedOf d) (numActive d.patients)
              (bookToken.newToken d name n now)] := by
  unfold bookToken.accept
  rw [recalculateDoctor_patients]
  have e1 : allowedOf { d with patients := d.patients ++ [bookToken.newToken d name n now] }
      = allowedOf d := by
    unfold allowedOf
    simp only
    rw [countStatus_append_new _ _ _ rfl (by decide)]
  rw [e1]
  simp only
  rw [countStatus_append_new _ _ _ rfl (by decide), walkIdx_append]
  simp only [walkIdx, Nat.zero_add, isActive_newToken, if_true]
  rfl

/-- An accepted booking, with the doctor id the call settled on. -/
theorem bookToken_resolved (s : State) (name : String) (doctorId : Option Nat) (now : Nat)
    (t : Token) (s2 : State) (h : bookToken s name doctorId now = Except.ok (t, s2)) :
    ∃ n doc, bookToken.resolve s doctorId = some n ∧ findDoctor s n = some doc ∧
      ¬ doc.maxPatients ≤ (doc.stats.completed : Int) ∧
      t = (bookToken.accept doc name n now).patients.getLastD (bookToken.newToken doc name n now) ∧
      s2 = { doctors := modifyFirst (fun d => d.id == n)
              (fun d => bookToken.accept d name n now) s.doctors } := by
  unfold bookToken at h
  split at h
  · simp at h
  · simp at h
  · rename_i n hres
    split at h
    · simp at h
    · rename_i doc hdoc
      split_ifs at h with h1 h2
      simp only [Except.ok.injEq, Prod.mk.injEq] at h
      exact ⟨n + 1, doc, hres, hdoc, h1, h.1.symm, h.2.symm⟩

/-- The doctor id a booking settles on: the requested id when that is a positive number, and
otherwise the id of the first active doctor. -/
theorem resolve_eq_some (s : State) (doctorId : Option Nat) (n : Nat)
    (h : bookToken.resolve s doctorId = some n) :
    (∀ m : Nat, doctorId = some (m + 1) → n = m + 1) ∧
    ((doctorId = none ∨ doctorId = some 0) →
      ∃ d0, (s.doctors.filter (fun x => x.active)).head? = some d0 ∧ n = d0.id) := by
  have hfirst : bookToken.resolve s none = some n →
      ∃ d0, (s.doctors.filter (fun x => x.active)).head? = some d0 ∧ n = d0.id := by
    intro h0
    unfold bookToken.resolve at h0
    cases hl : s.doctors.filter (fun x => x.active) with
    | nil => simp [hl] at h0
    | cons d0 rest =>
      simp only [hl, Option.some.injEq] at h0
      exact ⟨d0, rfl, h0.symm⟩
  constructor
  · intro m hm
    subst hm
    simpa [bookToken.resolve] using h.symm
  · intro hm
    rcases hm with hm | hm
    · subst hm; exact hfirst h
    · subst hm; exact hfirst h

/-- In a doctor whose queue is up to date, an accepted booking only appends the new token, as
the recompute labels it. -/
theorem accept_eq_append (d : Doctor) (hS : Settled d) (name : String) (n now : Nat) :
    bookToken.accept d name n now
      = { d with
          patients := d.patients
            ++ [relabel (timeToMinutes d.startTime) (totalStepOf d)
                  (countStatus Status.completed d.patients) (allowedOf d) (numActive d.patients)
                  (bookToken.newToken d name n now)] } := by
  have hp := accept_patients d name n now
  rw [← hS.patients_eq] at hp
  have hst : (bookToken.accept d name n now).stats = d.stats := by
    have h1 : (bookToken.accept d name n now).stats
        = { completed := countStatus Status.completed
              (d.patients ++ [bookToken.newToken d name n now])
            noShow := countStatus Status.noShow
              (d.patients ++ [bookToken.newToken d name n now]) } := rfl
    rw [h1, countStatus_append_new _ _ _ rfl (by decide),
      countStatus_append_new _ _ _ rfl (by decide)]
    have h2 := recalculateDoctor_stats d
    rw [hS] at h2
    exact h2.symm
  calc bookToken.accept d name n now
      = { d with
          patients := (bookToken.accept d name n now).patients
          stats := (bookToken.accept d name n now).stats } := rfl
    _ = _ := by rw [hp, hst]

/-- C13. Booking outcome: in every reachable state, when `bookToken(name, 'consultation',
doctorId)` is accepted with token `t`, the doctor served is the requested one (`t.doctorId` is
`doctorId` when that is a positive number, and the id of the first active doctor when it is
absent or 0); that doctor `d` is the first of the state with this id, and the new state is the
old one with `d` replaced by `d` with `t` appended to its patients list, every other doctor
standing as before; `t` is the last token of the new list, has id `length + 1`, the given
name, the doctor's name and the time of the call; its status is allocated if
`allocatedCount + completedCount < maxPatients` held before the booking and waiting otherwise
(so never pending); and every previously booked token is left as it was. -/
theorem C13_booking_outcome (ops : List Op) (name : String) (doctorId : Option Nat) (now : Nat)
    (t : Token) (s2 : State)
    (hok : bookToken (run initState ops) name doctorId now = Except.ok (t, s2)) :
    (∀ m : Nat, doctorId = some (m + 1) → t.doctorId = m + 1) ∧
    ((doctorId = none ∨ doctorId = some 0) →
      ∃ d0, ((run initState ops).doctors.filter (fun x => x.active)).head? = some d0 ∧
        t.doctorId = d0.id) ∧
    (∀ m : Nat, m ≠ t.doctorId → findDoctor s2 m = findDoctor (run initState ops) m) ∧
    ∃ front d back d2,
      (run initState ops).doctors = front ++ d :: back ∧
      (∀ y ∈ front, y.id ≠ t.doctorId) ∧ d.id = t.doctorId ∧
      d2 = { d with patients := d.patients ++ [t] } ∧
      s2.doctors = front ++ d2 :: back ∧
      findDoctor (run initState ops) t.doctorId = some d ∧
      findDoctor s2 t.doctorId = some d2 ∧
      d2.patients.length = d.patients.length + 1 ∧ d2.patients.getLast? = some t ∧
      t.id = d.patients.length + 1 ∧ t.name = name ∧ t.doctorName = d.name ∧
      t.bookingTime = now ∧
      ((countStatus Status.allocated d.patients : Int)
          + (countStatus Status.completed d.patients : Int) < d.maxPatients →
        t.status = Status.allocated) ∧
      (¬ ((countStatus Status.allocated d.patients : Int)
          + (countStatus Status.completed d.patients : Int) < d.maxPatients) →
        t.status = Status.waiting) ∧
      ∀ (i : Nat) (q : Token), d.patients[i]? = some q → d2.patients[i]? = some q := by
  obtain ⟨n, d, hres, hd, hgate, ht, hs2⟩ := bookToken_resolved _ name doctorId now t s2 hok
  obtain ⟨hS, _⟩ := reachable_find ops n d hd
  have hacc := accept_eq_append d hS name n now
  have hact := isActive_newToken d name n now
  have htok : t = relabel (timeToMinutes d.startTime) (totalStepOf d)
      (countStatus Status.completed d.patients) (allowedOf d) (numActive d.patients)
      (bookToken.newToken d name n now) := by
    rw [ht, hacc]
    exact List.getLastD_concat _ _ _
  rw [← htok] at hacc
  have hdid : t.doctorId = n := by
    rw [htok]; unfold relabel; split_ifs <;> rfl
  have hd2 : findDoctor s2 n = some (bookToken.accept d name n now) := by
    rw [hs2, findDoctor_modifyFirst_same _ n (fun d => bookToken.accept d name n now)
      (fun _ => rfl), hd]
    rfl
  have hst := relabel_status (timeToMinutes d.startTime) (totalStepOf d)
    (countStatus Status.completed d.patients) (allowedOf d) (numActive d.patients)
    (bookToken.newToken d name n now)
  rw [← htok] at hst
  simp only [hact, if_true] at hst
  have hal := hS.allocated_eq
  have hcc := hS.stats_completed
  rw [hcc] at hgate
  obtain ⟨hreq, hdefault⟩ := resolve_eq_some _ doctorId n hres
  obtain ⟨front, back, hsplit, hfront, hpred, hmod⟩ :=
    modifyFirst_split (fun x : Doctor => x.id == n)
      (fun x => bookToken.accept x name n now) (run initState ops).doctors d hd
  rw [hdid]
  refine ⟨hreq, hdefault, ?_, front, d, back, _, hsplit, ?_, ?_, rfl, ?_, hd, ?_,
    ?_, ?_, ?_, ?_, ?_, ?_, ?_, ?_, ?_⟩
  · intro m hm
    rw [hs2]
    exact findDoctor_modifyFirst_other _ n m (fun x => bookToken.accept x name n now)
      (fun _ => rfl) (fun h => hm h.symm)
  · intro y hy
    simpa using hfront y hy
  · simpa using hpred
  · rw [hs2]
    simp only
    rw [hmod, hacc]
  · rw [hd2, hacc]
  · simp
  · simp
  · rw [htok, relabel_id]; rfl
  · rw [htok]; unfold relabel; split_ifs <;> rfl
  · rw [htok]; unfold relabel; split_ifs <;> rfl
  · rw [htok]; unfold relabel; split_ifs <;> rfl
  · intro h
    have hlt : (numActive d.patients : Int) < allowedOf d := by
      unfold allowedOf at hal ⊢
      omega
    rw [hst]; simp [hlt]
  · intro h
    have hlt : ¬ (numActive d.patients : Int) < allowedOf d := by
      unfold allowedOf at hal ⊢
      omega
    rw [hst]; simp [hlt]
  · intro i q hq
    rw [List.getElem?_append_left (List.getElem?_eq_some.1 hq).1]
    exact hq

/-- C13, on a run with two doctors: doctor 1 (capacity 2) holds A, doctor 2 (capacity 1) holds
B. The booking of C for doctor 2 is accepted and returns token 2 of doctor 2, with status
waiting; doctor 2 gets C appended and doctor 1 stands as before. -/
theorem C13_booking_outcome_witness :
    bookToken (run initState Demo.twoDoctors) "C" (some 2) 7
        = Except.ok (Demo.bookedC,
            step (run initState Demo.twoDoctors) (Op.bookToken "C" (some 2) 7)) ∧
    (Demo.bookedC.doctorId = 2 ∧ Demo.bookedC.id = 2 ∧ Demo.bookedC.status = Status.waiting) ∧
    (findDoctor (step (run initState Demo.twoDoctors) (Op.bookToken "C" (some 2) 7)) 1
      = findDoctor (run initState Demo.twoDoctors) 1) ∧
    ∃ d d2, findDoctor (run initState Demo.twoDoctors) 2 = some d ∧
      findDoctor (step (run initState Demo.twoDoctors) (Op.bookToken "C" (some 2) 7)) 2
        = some d2 ∧
      d2 = { d with patients := d.patients ++ [Demo.bookedC] } := by
  have h := C13_booking_outcome Demo.twoDoctors "C" (some 2) 7 Demo.bookedC
    (step (run initState Demo.twoDoctors) (Op.bookToken "C" (some 2) 7)) rfl
  obtain ⟨_, _, hother, _, d, _, d2, _, _, _, h4, _, h6, h7, _⟩ := h
  exact ⟨rfl, by decide, hother 1 (by decide), d, d2, h6, h7, h4⟩

/-! ## Clock strings -/

theorem digit_facts : ∀ n, n < 10 →
    (Char.ofNat (48 + n) ≠ ':' ∧ (Char.ofNat (48 + n)).isDigit = true ∧
      (Char.ofNat (48 + n)).toNat - 48 = n) := by
  decide

theorem toNumber_twoDigits (n : Nat) (h : n < 100) :
    toNumber (twoDigits n) = Num.int (n : Int) := by
  obtain ⟨_, a2, a3⟩ := digit_facts (n / 10) (by omega)
  obtain ⟨_, b2, b3⟩ := digit_facts (n % 10) (by omega)
  have e : 10 * (n / 10) + n % 10 = n := by omega
  simp [toNumber, twoDigits, readDigits, a2, a3, b2, b3, e]

theorem splitColon_twoDigits (hh mm : Nat) (h1 : hh < 100) (h2 : mm < 100) :
    splitColon (twoDigits hh ++ ':' :: twoDigits mm) = [twoDigits hh, twoDigits mm] := by
  obtain ⟨a1, _, _⟩ := digit_facts (hh / 10) (by omega)
  obtain ⟨b1, _, _⟩ := digit_facts (hh % 10) (by omega)
  obtain ⟨c1, _, _⟩ := digit_facts (mm / 10) (by omega)
  obtain ⟨d1, _, _⟩ := digit_facts (mm % 10) (by omega)
  simp [twoDigits, splitColon, a1, b1, c1, d1]

/-- On a clock string "HH:MM", `timeToMinutes` is `60 * HH + MM`. -/
theorem timeToMinutes_clock (hh mm : Nat) (h1 : hh < 100) (h2 : mm < 100) :
    timeToMinutes (clock hh mm) = Num.int (60 * (hh : Int) + (mm : Int)) := by
  unfold timeToMinutes clock
  have hne : ¬ (twoDigits hh ++ ':' :: twoDigits mm = []) := by simp [twoDigits]
  simp only [hne, if_false, splitColon_twoDigits hh mm h1 h2, List.map,
    toNumber_twoDigits hh h1, toNumber_twoDigits mm h2, Num.mul, Num.add]
  congr 1
  ring

theorem clock_ne_empty (hh mm : Nat) : clock hh mm ≠ "" := by
  intro h
  have h2 := congrArg String.data h
  simp [clock, twoDigits] at h2

/-! ## C14: the capacity of a time-mode doctor -/

/-- C14. Capacity derivation in time mode: for every `addDoctor` call with mode 'time', start
and end given as "HH:MM" strings, positive `avgTime` and non-negative `bufferTime`,
`timeToMinutes` reads the two strings as `60 * HH + MM`, and the created doctor has
`maxPatients = floor((end - start) / (avgTime + bufferTime))` when the end is after the start
and `maxPatients = 0` otherwise; in both cases `maxPatients` is non-negative. -/
theorem C14_time_mode_capacity (s : State) (doctorData : DoctorData) (now : Nat)
    (hs ms he me : Nat) (a b : Int)
    (hhs : hs < 100) (hms : ms < 100) (hhe : he < 100) (hme : me < 100)
    (hmode : doctorData.mode = "time")
    (hstart : doctorData.startTime = clock hs ms) (hend : doctorData.endTime = clock he me)
    (havg : doctorData.avgTime = some a) (ha : 0 < a)
    (hbuf : doctorData.bufferTime = some b) (hb : 0 ≤ b) :
    timeToMinutes doctorData.startTime = Num.int (60 * (hs : Int) + (ms : Int)) ∧
    timeToMinutes doctorData.endTime = Num.int (60 * (he : Int) + (me : Int)) ∧
    (60 * (hs : Int) + (ms : Int) < 60 * (he : Int) + (me : Int) →
      (addDoctor s doctorData now).1.maxPatients
        = Int.fdiv ((60 * (he : Int) + (me : Int)) - (60 * (hs : Int) + (ms : Int))) (a + b)) ∧
    (¬ (60 * (hs : Int) + (ms : Int) < 60 * (he : Int) + (me : Int)) →
      (addDoctor s doctorData now).1.maxPatients = 0) ∧
    0 ≤ (addDoctor s doctorData now).1.maxPatients := by
  have e1 : timeToMinutes doctorData.startTime = Num.int (60 * (hs : Int) + (ms : Int)) := by
    rw [hstart]; exact timeToMinutes_clock hs ms hhs hms
  have e2 : timeToMinutes doctorData.endTime = Num.int (60 * (he : Int) + (me : Int)) := by
    rw [hend]; exact timeToMinutes_clock he me hhe hme
  have ea : orDefault doctorData.avgTime 10 = a := by
    rw [havg]; simp only [orDefault]; split_ifs <;> omega
  have eb : orDefault doctorData.bufferTime 0 = b := by
    rw [hbuf]; simp only [orDefault]; split_ifs <;> omega
  have hne1 : doctorData.startTime ≠ "" := by rw [hstart]; exact clock_ne_empty hs ms
  have hne2 : doctorData.endTime ≠ "" := by rw [hend]; exact clock_ne_empty he me
  have hmax : (addDoctor s doctorData now).1.maxPatients
      = if 0 < (60 * (he : Int) + (me : Int)) - (60 * (hs : Int) + (ms : Int)) then
          Int.fdiv ((60 * (he : Int) + (me : Int)) - (60 * (hs : Int) + (ms : Int))) (a + b)
        else 0 := by
    have hstep : ¬ (a + b = 0) := by omega
    have hc : ¬ ("time" = "count") := by decide
    simp only [addDoctor, addDoctor.newDoctor, addDoctor.maxPatients, hmode, hc, if_false,
      if_true, hne1, hne2, ne_eq, not_false_eq_true, and_self, e1, e2, Num.sub, ea, eb, hstep]
  refine ⟨e1, e2, ?_, ?_, ?_⟩
  · intro h
    rw [hmax, if_pos (by omega)]
  · intro h
    rw [hmax, if_neg (by omega)]
  · rw [hmax]
    split_ifs
    · rw [Int.fdiv_eq_ediv _ (by omega)]
      exact Int.ediv_nonneg (by omega) (by omega)
    · exact le_refl _

/-- C14, at the example of the specification: start "09:00", end "17:00", `avgTime` 10 and
`bufferTime` 2 give `maxPatients = 40`. -/
theorem C14_time_mode_capacity_witness :
    ((9 : Nat) < 100 ∧ (0 : Nat) < 100 ∧ (17 : Nat) < 100 ∧
      (Demo.timeData "09:00" "17:00" 10 2).mode = "time" ∧
      (Demo.timeData "09:00" "17:00" 10 2).startTime = clock 9 0 ∧
      (Demo.timeData "09:00" "17:00" 10 2).endTime = clock 17 0 ∧
      (Demo.timeData "09:00" "17:00" 10 2).avgTime = some 10 ∧ (0 : Int) < 10 ∧
      (Demo.timeData "09:00" "17:00" 10 2).bufferTime = some 2 ∧ (0 : Int) ≤ 2) ∧
    (addDoctor initState (Demo.timeData "09:00" "17:00" 10 2) 1).1.maxPatients = 40 ∧
    (addDoctor initState (Demo.timeData "09:00" "17:00" 10 2) 1).1.maxPatients
      = Int.fdiv ((60 * ((17 : Nat) : Int) + ((0 : Nat) : Int))
          - (60 * ((9 : Nat) : Int) + ((0 : Nat) : Int))) (10 + 2) :=
  ⟨⟨by decide, by decide, by decide, by decide, by decide, by decide, by decide, by decide,
      by decide, by decide⟩,
    by decide,
    (C14_time_mode_capacity initState (Demo.timeData "09:00" "17:00" 10 2) 1 9 0 17 0 10 2
      (by decide) (by decide) (by decide) (by decide) (by decide) (by decide) (by decide)
      (by decide) (by decide) (by decide) (by decide)).2.2.1 (by decide)⟩

/-! ## C17: the time converter -/

theorem padStart2_minutes : ∀ n, n < 60 →
    padStart2 (toString n) = if n < 10 then "0" ++ toString n else toString n := by
  decide

theorem log2Fuel_le (fuel : Nat) : ∀ (n k : Nat), n < 2 ^ (k + 1) → log2Fuel fuel n ≤ k := by
  induction fuel with
  | zero => intro n k _; simp [log2Fuel]
  | succ fuel ih =>
    intro n k h
    simp only [log2Fuel]
    split_ifs with h2
    · omega
    · cases k with
      | zero => simp at h; omega
      | succ k =>
        have h3 : n / 2 < 2 ^ (k + 1) := by
          rw [pow_succ] at h
          omega
        have h4 := ih (n / 2) k h3
        omega

theorem floorLog2_sixty : floorLog2 60 = 5 := by decide

/-- Below `2 ^ 53` the quotient by 60 is below `2 ^ 48`. -/
theorem quotientExponent_le (a : Nat) (h : a < 2 ^ 53) : quotientExponent a 60 ≤ 47 := by
  have h1 : floorLog2 a ≤ 52 := log2Fuel_le a a 52 h
  unfold quotientExponent
  rw [floorLog2_sixty]
  split_ifs <;> omega

/-- Rounding a quotient by 60 to a multiple of `1 / T` with `T ≥ 32` never reaches the next
integer: the fractional part of the quotient is at most `59 / 60`. -/
theorem roundNearestEven_scaled (a T : Nat) (hT : 32 ≤ T) :
    roundNearestEven (a * T) 60 / T = a / 60 := by
  have hk := Nat.div_add_mod a 60
  have hr : a % 60 ≤ 59 := by omega
  have hY : (a % 60) * T ≤ 59 * T := Nat.mul_le_mul_right T hr
  have e : a * T = 60 * ((a / 60) * T) + (a % 60) * T := by
    conv_lhs => rw [← hk]
    ring
  have e2 : (a / 60 + 1) * T = (a / 60) * T + T := by ring
  rw [e]
  apply Nat.div_eq_of_lt_le
  · generalize (a / 60) * T = X
    generalize (a % 60) * T = Y at hY
    unfold roundNearestEven
    split_ifs <;> omega
  · rw [e2]
    generalize (a / 60) * T = X
    generalize (a % 60) * T = Y at hY
    unfold roundNearestEven
    split_ifs <;> omega

/-- For integers below `2 ^ 53` the double quotient by 60, floored, is the exact floor. -/
theorem floorQuotientDouble_sixty (a : Nat) (h : a < 2 ^ 53) :
    floorQuotientDouble a 60 = a / 60 := by
  unfold floorQuotientDouble
  by_cases h0 : a = 0
  · simp [h0]
  · have hq := quotientExponent_le a h
    have hneg : ¬ (0 ≤ quotientExponent a 60 - 52) := by omega
    simp only [h0, hneg, if_false]
    apply roundNearestEven_scaled
    have h5 : 5 ≤ (52 - quotientExponent a 60).toNat := by omega
    calc 32 = 2 ^ 5 := by norm_num
      _ ≤ 2 ^ (52 - quotientExponent a 60).toNat := Nat.pow_le_pow_right (by norm_num) h5

/-- On a non-negative number of minutes below `2 ^ 53`, `minutesToTime` is the reference
rendering. -/
theorem minutesToTime_natCast (n : Nat) (hn : n < 2 ^ 53) :
    minutesToTime (Num.int (n : Int)) = minutesToTimeRef n := by
  have e1 : floorDivDouble (n : Int) 60 = ((n / 60 : Nat) : Int) := by
    unfold floorDivDouble
    simp only [Int.natCast_nonneg, if_true, Int.toNat_ofNat]
    rw [floorQuotientDouble_sixty n hn]
  have e2 : Int.tmod ((n / 60 : Nat) : Int) 24 = (((n / 60) % 24 : Nat) : Int) :=
    (Int.ofNat_tmod (n / 60) 24).symm
  have e3 : Int.tmod (n : Int) 60 = ((n % 60 : Nat) : Int) := (Int.ofNat_tmod n 60).symm
  have e4 : Int.tmod ((((n / 60) % 24 : Nat) : Nat) : Int) 12
      = ((((n / 60) % 24) % 12 : Nat) : Int) := (Int.ofNat_tmod ((n / 60) % 24) 12).symm
  have e5 : (12 : Int) ≤ (((n / 60) % 24 : Nat) : Int) ↔ 12 ≤ (n / 60) % 24 := by
    norm_cast
  have e6 : ((((n / 60) % 24) % 12 : Nat) : Int) = 0 ↔ ((n / 60) % 24) % 12 = 0 := by
    norm_cast
  have e7 : toString (((n % 60 : Nat)) : Int) = toString (n % 60) := rfl
  have e8 : toString (if ((n / 60) % 24) % 12 = 0 then (12 : Int)
        else ((((n / 60) % 24) % 12 : Nat) : Int))
      = toString (if ((n / 60) % 24) % 12 = 0 then 12 else ((n / 60) % 24) % 12) := by
    split_ifs <;> rfl
  simp only [minutesToTime, minutesToTimeRef, render12, e1, e2, e3, e4, e5, e6, e7, e8,
    padStart2_minutes (n % 60) (Nat.mod_lt n (by norm_num))]

theorem minutesToTimeRef_period (n : Nat) : minutesToTimeRef (n + 1440) = minutesToTimeRef n := by
  have e1 : ((n + 1440) / 60) % 24 = (n / 60) % 24 := by omega
  have e2 : (n + 1440) % 60 = n % 60 := by omega
  simp only [minutesToTimeRef, e1, e2]

/-- C17, the claim as stated fails for large values: the source divides in double arithmetic,
and at `m = 10 ^ 22` (a double, exactly) the rounded quotient `m / 60` is 166666666666666655744,
so `minutesToTime` gives "8:40 AM", while the reference with the exact `floor(m / 60)` gives
"10:40 AM". -/
theorem C17_counterexample_large_minutes :
    floorDivDouble (10 ^ 22) 60 = 166666666666666655744 ∧
    (10 ^ 22 : Int) / 60 = 166666666666666666666 ∧
    minutesToTime (Num.int (10 ^ 22)) = "8:40 AM" ∧
    minutesToTimeRef (10 ^ 22) = "10:40 AM" ∧
    minutesToTime (Num.int (10 ^ 22)) ≠ minutesToTimeRef (10 ^ 22) := by
  refine ⟨by decide, by decide, by decide, by decide, by decide⟩

/-- C17 (amended). The time converter against its reference, on the integers that doubles hold
exactly: for every integer `m` with `0 ≤ m < 2 ^ 53`, `minutesToTime(m)` is the 12-hour
rendering of `H = floor(m / 60) mod 24` hours and `m mod 60` minutes (hour 12 when
`H mod 12 = 0`, minutes padded to two digits, PM exactly when `H ≥ 12`); when also
`m + 1440 < 2 ^ 53`, `minutesToTime(m + 1440) = minutesToTime(m)`; and for every "HH:MM" with
`HH < 24` and `MM < 60`, `timeToMinutes` returns `60 * HH + MM` and `minutesToTime` of that
value is the 12-hour rendering of the same clock time. -/
theorem C17_time_converter (m : Int) (hm : 0 ≤ m) (hsafe : m < 2 ^ 53) (hh mm : Nat)
    (hhh : hh < 24) (hmm : mm < 60) :
    minutesToTime (Num.int m) = minutesToTimeRef m.toNat ∧
    (m + 1440 < 2 ^ 53 → minutesToTime (Num.int (m + 1440)) = minutesToTime (Num.int m)) ∧
    timeToMinutes (clock hh mm) = Num.int (60 * (hh : Int) + (mm : Int)) ∧
    minutesToTime (Num.int (60 * (hh : Int) + (mm : Int))) = render12 hh mm := by
  obtain ⟨n, rfl⟩ := Int.eq_ofNat_of_zero_le hm
  have hn : n < 2 ^ 53 := by exact_mod_cast hsafe
  refine ⟨?_, ?_, timeToMinutes_clock hh mm (by omega) (by omega), ?_⟩
  · rw [minutesToTime_natCast n hn]; simp
  · intro h2
    have hn2 : n + 1440 < 2 ^ 53 := by exact_mod_cast h2
    have e : (n : Int) + 1440 = ((n + 1440 : Nat) : Int) := by push_cast; rfl
    rw [e, minutesToTime_natCast _ hn2, minutesToTime_natCast n hn, minutesToTimeRef_period]
  · have e : 60 * (hh : Int) + (mm : Int) = ((60 * hh + mm : Nat) : Int) := by push_cast; rfl
    have hsmall : 60 * hh + mm < 2 ^ 53 := by
      have : (60 * hh + mm : Nat) < 1500 := by omega
      exact lt_trans this (by norm_num)
    rw [e, minutesToTime_natCast _ hsmall]
    have e1 : ((60 * hh + mm) / 60) % 24 = hh := by omega
    have e2 : (60 * hh + mm) % 60 = mm := by omega
    simp only [minutesToTimeRef, e1, e2]

/-- C17 (amended), at the example of the claim: "09:00" is 540 minutes, rendered "9:00 AM". -/
theorem C17_time_converter_witness :
    ((0 : Int) ≤ 540 ∧ (540 : Int) < 2 ^ 53 ∧ (9 : Nat) < 24 ∧ (0 : Nat) < 60) ∧
    clock 9 0 = "09:00" ∧ timeToMinutes "09:00" = Num.int 540 ∧
    minutesToTime (Num.int 540) = "9:00 AM" ∧ render12 9 0 = "9:00 AM" ∧
    (minutesToTime (Num.int 540) = minutesToTimeRef (540 : Int).toNat ∧
      ((540 : Int) + 1440 < 2 ^ 53 →
        minutesToTime (Num.int (540 + 1440)) = minutesToTime (Num.int 540)) ∧
      timeToMinutes (clock 9 0) = Num.int (60 * ((9 : Nat) : Int) + ((0 : Nat) : Int)) ∧
      minutesToTime (Num.int (60 * ((9 : Nat) : Int) + ((0 : Nat) : Int))) = render12 9 0) :=
  ⟨⟨by decide, by decide, by decide, by decide⟩, by decide, by decide, by decide, by decide,
    C17_time_converter 540 (by decide) (by decide) 9 0 (by decide) (by decide)⟩

/-! ## C18: the statuses partition the list -/

theorem countStatus_total (ps : List Token) :
    ps.length = countStatus Status.pending ps + countStatus Status.allocated ps
      + countStatus Status.waiting ps + countStatus Status.completed ps
      + countStatus Status.noShow ps := by
  induction ps with
  | nil => rfl
  | cons p ps ih =>
    simp only [countStatus_cons, List.length_cons]
    cases h : p.status <;> simp <;> omega

theorem Settled.no_pending {d : Doctor} (h : Settled d) (p : Token) (hp : p ∈ d.patients) :
    p.status ≠ Status.pending := by
  obtain ⟨i, hi⟩ := List.mem_iff_getElem?.1 hp
  intro hs
  have h2 := congrArg Token.status (h.token_at i p hi)
  rw [relabel_status] at h2
  have ha : isActive p = true := by simp [isActive, hs]
  rw [hs] at h2
  simp only [ha, if_true] at h2
  split_ifs at h2

theorem countStatus_eq_zero (s0 : Status) (ps : List Token) (h : ∀ p ∈ ps, p.status ≠ s0) :
    countStatus s0 ps = 0 := by
  unfold countStatus
  rw [List.length_eq_zero, List.filter_eq_nil_iff]
  intro p hp
  simpa using h p hp

/-- C18. Status partition and stats consistency: in every reachable state, in the result of
`getDoctorStats` no token of the list is pending, `completed` is the number of completed tokens
and `noShow` the number of no-show tokens, and
`allocatedCount + waitingCount + completed + noShow` is the length of the list. -/
theorem C18_status_partition (ops : List Op) (doctorId : Nat) (r : DoctorStats)
    (h : getDoctorStats (run initState ops) doctorId = some r) :
    (∀ p ∈ r.list, p.status ≠ Status.pending) ∧
    r.completed = countStatus Status.completed r.list ∧
    r.noShow = countStatus Status.noShow r.list ∧
    r.allocatedCount + r.waitingCount + r.completed + r.noShow = r.list.length := by
  unfold getDoctorStats at h
  cases hd : findDoctor (run initState ops) doctorId with
  | none => simp [hd] at h
  | some d =>
    simp only [hd, Option.some.injEq] at h
    obtain ⟨hS, _⟩ := reachable_find ops doctorId d hd
    subst h
    have h0 := countStatus_eq_zero Status.pending d.patients (fun p hp => hS.no_pending p hp)
    have ht := countStatus_total d.patients
    refine ⟨fun p hp => hS.no_pending p hp, hS.stats_completed, hS.stats_noShow, ?_⟩
    simp only
    rw [hS.stats_completed, hS.stats_noShow]
    omega

/-- C18, at the scenario of the specification: A, B allocated and C waiting give the counts
2 + 1 + 0 + 0 = 3. -/
theorem C18_status_partition_witness :
    getDoctorStats (run initState Demo.threeBooked) 1
        = some (Demo.stats (run initState Demo.threeBooked)) ∧
    ((Demo.stats (run initState Demo.threeBooked)).allocatedCount,
      (Demo.stats (run initState Demo.threeBooked)).waitingCount,
      (Demo.stats (run initState Demo.threeBooked)).completed,
      (Demo.stats (run initState Demo.threeBooked)).noShow,
      (Demo.stats (run initState Demo.threeBooked)).list.length) = (2, 1, 0, 0, 3) ∧
    ((∀ p ∈ (Demo.stats (run initState Demo.threeBooked)).list, p.status ≠ Status.pending) ∧
      (Demo.stats (run initState Demo.threeBooked)).completed
        = countStatus Status.completed (Demo.stats (run initState Demo.threeBooked)).list ∧
      (Demo.stats (run initState Demo.threeBooked)).noShow
        = countStatus Status.noShow (Demo.stats (run initState Demo.threeBooked)).list ∧
      (Demo.stats (run initState Demo.threeBooked)).allocatedCount
          + (Demo.stats (run initState Demo.threeBooked)).waitingCount
          + (Demo.stats (run initState Demo.threeBooked)).completed
          + (Demo.stats (run initState Demo.threeBooked)).noShow
        = (Demo.stats (run initState Demo.threeBooked)).list.length) :=
  ⟨by decide, by decide,
    C18_status_partition Demo.threeBooked 1 (Demo.stats (run initState Demo.threeBooked))
      (by decide)⟩

/-! ## C15: ids and order -/

theorem relabel_key (st : Num) (step : Int) (cc : Nat) (L : Int) (k : Nat) (p : Token) :
    (relabel st step cc L k p).key = p.key := by
  unfold relabel Token.key
  split_ifs <;> rfl

theorem walkIdx_map_key (st : Num) (step : Int) (cc : Nat) (L : Int) (ps : List Token) :
    ∀ k : Nat, (walkIdx st step cc L k ps).map Token.key = ps.map Token.key := by
  induction ps with
  | nil => intro k; rfl
  | cons p ps ih => intro k; simp [walkIdx, relabel_key, ih]

theorem modifyFirst_map_key (pred : Token → Bool) (stamp : Token → Token)
    (hk : ∀ q, (stamp q).key = q.key) (ps : List Token) :
    (modifyFirst pred stamp ps).map Token.key = ps.map Token.key := by
  induction ps with
  | nil => rfl
  | cons p ps ih => by_cases h : pred p = true <;> simp [modifyFirst, h, hk, ih]

theorem recalculateDoctor_map_key (d : Doctor) :
    (recalculateDoctor d).patients.map Token.key = d.patients.map Token.key := by
  rw [recalculateDoctor_patients, walkIdx_map_key]

theorem completeInDoctor_map_key (tokenId now : Nat) (d : Doctor) :
    (completeInDoctor tokenId now d).patients.map Token.key = d.patients.map Token.key := by
  unfold completeInDoctor
  split
  · rfl
  · rw [recalculateDoctor_map_key]
    exact modifyFirst_map_key _ (stampCompleted now) (fun _ => rfl) _

theorem noShowInDoctor_map_key (tokenId now : Nat) (d : Doctor) :
    (noShowInDoctor tokenId now d).patients.map Token.key = d.patients.map Token.key := by
  unfold noShowInDoctor
  split
  · rfl
  · rw [recalculateDoctor_map_key]
    exact modifyFirst_map_key _ (stampNoShow now) (fun _ => rfl) _

theorem accept_map_key (d : Doctor) (name : String) (n now : Nat) :
    (bookToken.accept d name n now).patients.map Token.key
      = d.patients.map Token.key ++ [(d.patients.length + 1, name)] := by
  unfold bookToken.accept
  rw [recalculateDoctor_map_key]
  simp [Token.key, bookToken.newToken]

/-- C15. Token ids and order are permanent: in every reachable state the i-th token (1-based)
of every doctor has id i, so the ids of a list are pairwise different; and whatever the call,
the doctor found under an id afterwards has either the same ids and names in the same order,
or those followed by one new token with the next id, so the previous list is the beginning of
the new one and nothing is removed, reordered or renumbered. -/
theorem C15_ids_permanent (ops : List Op) (d : Doctor)
    (hmem : d ∈ (run initState ops).doctors) :
    (∀ (i : Nat) (p : Token), d.patients[i]? = some p → p.id = i + 1) ∧
    (d.patients.map (fun p => p.id)).Nodup ∧
    ∀ (op : Op) (doctorId : Nat) (d2 : Doctor),
      findDoctor (run initState ops) doctorId = some d →
      findDoctor (step (run initState ops) op) doctorId = some d2 →
      (d2.patients.map Token.key).take d.patients.length = d.patients.map Token.key ∧
      (d2.patients.map Token.key = d.patients.map Token.key ∨
        ∃ name, d2.patients.map Token.key
          = d.patients.map Token.key ++ [(d.patients.length + 1, name)]) := by
  obtain ⟨hS, hI⟩ := reachable_good ops d hmem
  refine ⟨fun i p hp => hI.id_at i p hp, ?_, ?_⟩
  · rw [show d.patients.map (fun p => p.id) = List.range' 1 d.patients.length from hI]
    exact List.nodup_range' 1 _
  · intro op doctorId d2 hd hd2
    have key : d2.patients.map Token.key = d.patients.map Token.key ∨
        ∃ name, d2.patients.map Token.key
          = d.patients.map Token.key ++ [(d.patients.length + 1, name)] := by
      rcases findDoctor_step _ op doctorId d d2 hd hd2 with h | h | ⟨name, n, now, h⟩ |
        ⟨tokenId, now, _, h⟩ | ⟨tokenId, now, h⟩
      · left; rw [h]
      · left; rw [h, recalculateDoctor_map_key]
      · right; exact ⟨name, by rw [h, accept_map_key]⟩
      · left; rw [h, completeInDoctor_map_key]
      · left; rw [h, noShowInDoctor_map_key]
    refine ⟨?_, key⟩
    have hlen : d.patients.length = (d.patients.map Token.key).length := by simp
    rcases key with h | ⟨name, h⟩
    · rw [h, hlen, List.take_length]
    · rw [h, hlen, List.take_left]

/-- C15, on a run: capacity 2 with A, B, C booked; a fourth booking keeps the three tokens and
appends one with id 4. -/
theorem C15_ids_permanent_witness :
    Demo.firstDoctor (run initState Demo.threeBooked) ∈ (run initState Demo.threeBooked).doctors ∧
    (Demo.firstDoctor (run initState Demo.threeBooked)).patients.map Token.key
      = [(1, "A"), (2, "B"), (3, "C")] ∧
    (Demo.firstDoctor (step (run initState Demo.threeBooked) (Demo.book "D"))).patients.map
        Token.key
      = [(1, "A"), (2, "B"), (3, "C"), (4, "D")] ∧
    ((∀ (i : Nat) (p : Token),
        (Demo.firstDoctor (run initState Demo.threeBooked)).patients[i]? = some p →
          p.id = i + 1) ∧
      ((Demo.firstDoctor (run initState Demo.threeBooked)).patients.map (fun p => p.id)).Nodup) :=
  ⟨by decide, by decide, by decide,
    (C15_ids_permanent Demo.threeBooked (Demo.firstDoctor (run initState Demo.threeBooked))
      (by decide)).1,
    (C15_ids_permanent Demo.threeBooked (Demo.firstDoctor (run initState Demo.threeBooked))
      (by decide)).2.1⟩

/-! ## C16: the waiting sentinel -/

/-- In a settled doctor with a readable start time, an allocated token carries the slot of its
rank. -/
theorem Settled.allocated_arrival {d : Doctor} (h : Settled d) (start : Int)
    (hstart : timeToMinutes d.startTime = Num.int start) (i : Nat) (q : Token)
    (hq : d.patients[i]? = some q) (hs : q.status = Status.allocated) :
    q.arrivalValue = some (Num.int (start
        + ((activeBefore d.patients i : Int) + (countStatus Status.completed d.patients : Int))
          * totalStepOf d)) ∧
      (activeBefore d.patients i : Int) < allowedOf d := by
  obtain ⟨ha, hk⟩ := h.allocated_rank i q hq hs
  have h2 := h.token_at i q hq
  rw [relabel_of_lt _ _ _ _ _ _ ha hk, hstart] at h2
  have h3 := congrArg Token.arrivalValue h2
  simp only [allocateToken, Num.add] at h3
  exact ⟨h3, hk⟩

theorem Settled.waiting_arrival {d : Doctor} (h : Settled d) (i : Nat) (q : Token)
    (hq : d.patients[i]? = some q) (hs : q.status = Status.waiting) :
    q.arrivalValue = some (Num.int 999999) := by
  obtain ⟨ha, hk⟩ := h.waiting_rank i q hq hs
  have h2 := h.token_at i q hq
  rw [relabel_of_not_lt _ _ _ _ _ _ ha hk] at h2
  have h3 := congrArg Token.arrivalValue h2
  simpa [waitToken] using h3

/-- C16, the claim as stated fails. In count mode with capacity 2 and `avgTime = 999999`, B is
allocated at 540 + 999999 = 1000539 while C waits with the sentinel 999999; and with the start
time "0900" (no colon) the allocated A has arrival value `NaN`, which is not below the
sentinel of the waiting B. -/
theorem C16_counterexample_sentinel_not_above :
    Demo.arrivals (run initState Demo.longStep)
        = [(Status.allocated, some (Num.int 540)), (Status.allocated, some (Num.int 1000539)),
           (Status.waiting, some (Num.int 999999))] ∧
      arrivalLt (some (Num.int 1000539)) (some (Num.int 999999)) = false ∧
    Demo.arrivals (run initState Demo.noColonStart)
        = [(Status.allocated, some Num.nan), (Status.waiting, some (Num.int 999999))] ∧
      arrivalLt (some Num.nan) (some (Num.int 999999)) = false := by
  refine ⟨by decide, by decide, by decide, by decide⟩

/-- C16 (amended). Waiting sentinel above the real slots, when they stay below it: in every
reachable state, for every doctor whose start time `timeToMinutes` reads as a number below
999999 and whose last slot `start + (maxPatients - 1) * (avgTime + bufferTime)` is below 999999,
the arrival value of every waiting token (999999) is strictly larger than that of every
allocated token. -/
theorem C16_waiting_sentinel (ops : List Op) (d : Doctor)
    (hmem : d ∈ (run initState ops).doctors) (start : Int)
    (hstart : timeToMinutes d.startTime = Num.int start) (hlow : start < 999999)
    (hlast : start + (d.maxPatients - 1) * totalStepOf d < 999999)
    (a w : Token) (ha : a ∈ d.patients) (hw : w ∈ d.patients)
    (has : a.status = Status.allocated) (hws : w.status = Status.waiting) :
    arrivalLt a.arrivalValue w.arrivalValue = true := by
  obtain ⟨hS, _⟩ := reachable_good ops d hmem
  obtain ⟨i, hi⟩ := List.mem_iff_getElem?.1 ha
  obtain ⟨j, hj⟩ := List.mem_iff_getElem?.1 hw
  obtain ⟨e1, hk⟩ := hS.allocated_arrival start hstart i a hi has
  have e2 := hS.waiting_arrival j w hj hws
  rw [e1, e2]
  simp only [arrivalLt, Num.lt, decide_eq_true_eq]
  unfold allowedOf at hk
  have hx0 : (0 : Int) ≤ (activeBefore d.patients i : Int)
      + (countStatus Status.completed d.patients : Int) := by omega
  have hx1 : (activeBefore d.patients i : Int) + (countStatus Status.completed d.patients : Int)
      ≤ d.maxPatients - 1 := by omega
  by_cases hstep : 0 ≤ totalStepOf d
  · have h3 := mul_le_mul_of_nonneg_right hx1 hstep
    omega
  · have h3 : ((activeBefore d.patients i : Int)
        + (countStatus Status.completed d.patients : Int)) * totalStepOf d ≤ 0 :=
      mul_nonpos_of_nonneg_of_nonpos hx0 (by omega)
    omega

/-- C16 (amended), at the scenario of the specification: B allocated at 550, C waiting at
999999. -/
theorem C16_waiting_sentinel_witness :
    (Demo.firstDoctor (run initState Demo.threeBooked) ∈ (run initState Demo.threeBooked).doctors ∧
      timeToMinutes (Demo.firstDoctor (run initState Demo.threeBooked)).startTime = Num.int 540 ∧
      (540 : Int) < 999999 ∧
      540 + ((Demo.firstDoctor (run initState Demo.threeBooked)).maxPatients - 1)
          * totalStepOf (Demo.firstDoctor (run initState Demo.threeBooked)) < 999999 ∧
      Demo.tokenAt (run initState Demo.threeBooked) 1
        ∈ (Demo.firstDoctor (run initState Demo.threeBooked)).patients ∧
      Demo.tokenAt (run initState Demo.threeBooked) 2
        ∈ (Demo.firstDoctor (run initState Demo.threeBooked)).patients ∧
      (Demo.tokenAt (run initState Demo.threeBooked) 1).status = Status.allocated ∧
      (Demo.tokenAt (run initState Demo.threeBooked) 2).status = Status.waiting) ∧
    arrivalLt (Demo.tokenAt (run initState Demo.threeBooked) 1).arrivalValue
      (Demo.tokenAt (run initState Demo.threeBooked) 2).arrivalValue = true :=
  ⟨⟨by decide, by decide, by decide, by decide, by decide, by decide, by decide, by decide⟩,
    C16_waiting_sentinel Demo.threeBooked (Demo.firstDoctor (run initState Demo.threeBooked))
      (by decide) 540 (by decide) (by decide) (by decide)
      (Demo.tokenAt (run initState Demo.threeBooked) 1)
      (Demo.tokenAt (run initState Demo.threeBooked) 2)
      (by decide) (by decide) (by decide) (by decide)⟩

/-! ## C19: a no-show promotes the next in line -/

theorem activeBefore_succ (ps : List Token) :
    ∀ j : Nat, activeBefore ps (j + 1)
      = activeBefore ps j
        + (match ps[j]? with
          | some q => if isActive q then 1 else 0
          | none => 0) := by
  induction ps with
  | nil => intro j; simp [activeBefore, numActive]
  | cons p ps ih =>
    intro j
    cases j with
    | zero => simp [activeBefore_cons_succ, activeBefore_zero]
    | succ j =>
      rw [activeBefore_cons_succ, activeBefore_cons_succ, ih j]
      simp only [List.getElem?_cons_succ]
      omega

/-- When some active token stands before position `j`, the last of them has rank one less
than position `j`. -/
theorem exists_last_active (ps : List Token) :
    ∀ j : Nat, 0 < activeBefore ps j →
      ∃ i q, i < j ∧ ps[i]? = some q ∧ isActive q = true ∧
        activeBefore ps i + 1 = activeBefore ps j := by
  intro j
  induction j with
  | zero => intro h; rw [activeBefore_zero] at h; omega
  | succ j ih =>
    intro h
    have hs := activeBefore_succ ps j
    cases hq : ps[j]? with
    | none =>
      rw [hq] at hs
      simp only [Nat.add_zero] at hs
      obtain ⟨i, q, h1, h2, h3, h4⟩ := ih (by omega)
      exact ⟨i, q, by omega, h2, h3, by omega⟩
    | some q =>
      rw [hq] at hs
      by_cases ha : isActive q = true
      · simp only [ha, if_true] at hs
        exact ⟨j, q, by omega, hq, ha, by omega⟩
      · have ha2 : isActive q = false := by simpa using ha
        simp only [ha2, Bool.false_eq_true, if_false, Nat.add_zero] at hs
        obtain ⟨i, q2, h1, h2, h3, h4⟩ := ih (by omega)
        exact ⟨i, q2, by omega, h2, h3, by omega⟩

/-- In a settled doctor the earliest waiting token has rank at most the allowance, when the
allowance is positive. -/
theorem Settled.earliest_waiting_rank {d : Doctor} (h : Settled d) (j : Nat) (w : Token)
    (hw : d.patients[j]? = some w)
    (hfirst : ∀ (i : Nat) (q : Token), i < j → d.patients[i]? = some q →
      q.status ≠ Status.waiting)
    (hpos : 0 < allowedOf d) :
    (activeBefore d.patients j : Int) ≤ allowedOf d := by
  have _ := hw
  by_cases h0 : activeBefore d.patients j = 0
  · rw [h0]; omega
  · obtain ⟨i, q, h1, h2, h3, h4⟩ := exists_last_active d.patients j (by omega)
    have h5 := congrArg Token.status (h.token_at i q h2)
    rw [relabel_status] at h5
    simp only [h3, if_true] at h5
    by_cases hk : (activeBefore d.patients i : Int) < allowedOf d
    · omega
    · simp only [hk, if_false] at h5
      exact absurd h5 (hfirst i q h1 h2)

/-- A no-show on an allocated token, in a settled doctor with a waiting token: the earliest
waiting token becomes allocated, every other token keeps its status, and as many tokens are
allocated as before. -/
theorem noShow_promotes_next (d : Doctor) (hS : Settled d) (tokenId now : Nat) (p : Token)
    (hp : findToken d tokenId = some p) (hpa : p.status = Status.allocated)
    (j : Nat) (w : Token) (hw : d.patients[j]? = some w) (hws : w.status = Status.waiting)
    (hfirst : ∀ (i : Nat) (q : Token), i < j → d.patients[i]? = some q →
      q.status ≠ Status.waiting) :
    (∃ w2, (noShowInDoctor tokenId now d).patients[j]? = some w2 ∧
      w2.status = Status.allocated ∧ w2.id = w.id) ∧
    (∀ (i : Nat) (q : Token), d.patients[i]? = some q → q.id ≠ tokenId → i ≠ j →
      ∃ q2, (noShowInDoctor tokenId now d).patients[i]? = some q2 ∧ q2.status = q.status) ∧
    countStatus Status.allocated (noShowInDoctor tokenId now d).patients
      = countStatus Status.allocated d.patients := by
  obtain ⟨front, back, e, hid, _, _, hrest⟩ :=
    stamp_recalculate_getElem? d tokenId (stampNoShow now) (isActive_stampNoShow now) p hp
  have hp_at : d.patients[front.length]? = some p := by
    rw [e]; exact getElem?_split_self front back p
  obtain ⟨hpact, hprank⟩ := hS.allocated_rank front.length p hp_at hpa
  obtain ⟨hwact, hwrank⟩ := hS.waiting_rank j w hw hws
  have hcc : countStatus Status.completed (stampIn tokenId (stampNoShow now) d).patients
      = countStatus Status.completed d.patients := by
    have h := stampIn_completed_count tokenId (stampNoShow now) d p hp
    simpa [hpa, stampNoShow] using h
  have hL : allowedOf (stampIn tokenId (stampNoShow now) d) = allowedOf d := by
    unfold allowedOf
    rw [hcc]
    rfl
  have hjne : j ≠ front.length := by
    intro h
    rw [h, hp_at] at hw
    rw [← Option.some.inj hw, hpa] at hws
    exact absurd hws (by decide)
  have hjgt : front.length < j := by
    by_contra hle
    have := activeBefore_mono d.patients j front.length (by omega)
    omega
  have hposL : 0 < allowedOf d := by omega
  have hjrank := hS.earliest_waiting_rank j w hw hfirst hposL
  rw [noShowInDoctor_of_found tokenId now d p hp]
  refine ⟨?_, ?_, ?_⟩
  · obtain ⟨k2, h1, h2⟩ := hrest j w hw hjne
    simp only [hjgt, hpact, and_self, if_true] at h2
    refine ⟨_, h1, ?_, relabel_id _ _ _ _ _ _⟩
    rw [hcc, hL, relabel_status]
    have hk : (k2 : Int) < allowedOf d := by omega
    simp [hwact, hk]
  · intro i q hq hne hij
    have hi : i ≠ front.length := by
      intro h
      rw [h, hp_at] at hq
      exact hne ((Option.some.inj hq) ▸ hid)
    obtain ⟨k2, h1, h2⟩ := hrest i q hq hi
    refine ⟨_, h1, ?_⟩
    rw [hcc, hL, relabel_status]
    have hq0 := congrArg Token.status (hS.token_at i q hq)
    rw [relabel_status] at hq0
    by_cases hqa : isActive q = true
    · simp only [hqa, if_true] at hq0 ⊢
      rw [hq0]
      by_cases hlt : front.length < i
      · simp only [hlt, hpact, and_self, if_true] at h2
        by_cases hk : (activeBefore d.patients i : Int) < allowedOf d
        · have hk2 : (k2 : Int) < allowedOf d := by omega
          simp [hk, hk2]
        · have hqw : q.status = Status.waiting := by rw [hq0]; simp [hk]
          have hji : j < i := by
            by_contra hle
            exact hfirst i q (by omega) hq hqw
          have h3 := activeBefore_lt_of_active d.patients j i w hw hwact hji
          have hk2 : ¬ (k2 : Int) < allowedOf d := by omega
          simp [hk, hk2]
      · have h3 : k2 = activeBefore d.patients i := by simpa [hlt] using h2
        rw [h3]
    · simp [hqa]
  · rw [countStatus_allocated_recalculateDoctor, hL, hS.allocated_eq]
    have hA := numActive_modifyFirst (fun t : Token => t.id == tokenId) (stampNoShow now)
      d.patients p hp
    simp only [hpact, if_true, isActive_stampNoShow, Bool.false_eq_true, if_false,
      Nat.add_zero] at hA
    have hA2 : numActive (stampIn tokenId (stampNoShow now) d).patients + 1
        = numActive d.patients := hA
    have hwc := hS.waiting_eq
    have hw1 := one_le_countStatus Status.waiting d.patients w
      (List.mem_iff_getElem?.2 ⟨j, hw⟩) hws
    omega

/-- C19. No-show promotes exactly the next in line: in every reachable state of a doctor with
a waiting token, `markDoctorPatientNoShow` (and `cancelDoctorPatient` and `leaveQueue`, which
produce the same state) on an allocated token changes the earliest waiting token to allocated,
leaves the status of every other token with another id unchanged, and leaves the number of
allocated tokens unchanged. -/
theorem C19_no_show_promotes_next (ops : List Op) (doctorId tokenId now : Nat) (d : Doctor)
    (p : Token) (j : Nat) (w : Token)
    (hd : findDoctor (run initState ops) doctorId = some d)
    (hp : findToken d tokenId = some p) (hpa : p.status = Status.allocated)
    (hw : d.patients[j]? = some w) (hws : w.status = Status.waiting)
    (hfirst : ∀ (i : Nat) (q : Token), i < j → d.patients[i]? = some q →
      q.status ≠ Status.waiting) :
    cancelDoctorPatient (run initState ops) doctorId tokenId now
        = markDoctorPatientNoShow (run initState ops) doctorId tokenId now ∧
    leaveQueue (run initState ops) doctorId tokenId now
        = markDoctorPatientNoShow (run initState ops) doctorId tokenId now ∧
    ∃ d2, findDoctor (markDoctorPatientNoShow (run initState ops) doctorId tokenId now) doctorId
        = some d2 ∧
      (∃ w2, d2.patients[j]? = some w2 ∧ w2.status = Status.allocated ∧ w2.id = w.id) ∧
      (∀ (i : Nat) (q : Token), d.patients[i]? = some q → q.id ≠ tokenId → i ≠ j →
        ∃ q2, d2.patients[i]? = some q2 ∧ q2.status = q.status) ∧
      countStatus Status.allocated d2.patients = countStatus Status.allocated d.patients := by
  obtain ⟨hS, _⟩ := reachable_find ops doctorId d hd
  exact ⟨rfl, rfl, noShowInDoctor tokenId now d,
    findDoctor_markDoctorPatientNoShow _ doctorId tokenId now d hd,
    noShow_promotes_next d hS tokenId now p hp hpa j w hw hws hfirst⟩

/-- C19, at the scenario of the specification: A, B allocated and C waiting; marking A no-show
makes C allocated, keeps B allocated and keeps two tokens allocated. -/
theorem C19_no_show_promotes_next_witness :
    (findDoctor (run initState Demo.threeBooked) 1
        = some (Demo.firstDoctor (run initState Demo.threeBooked)) ∧
      findToken (Demo.firstDoctor (run initState Demo.threeBooked)) 1
        = some (Demo.tokenAt (run initState Demo.threeBooked) 0) ∧
      (Demo.tokenAt (run initState Demo.threeBooked) 0).status = Status.allocated ∧
      (Demo.firstDoctor (run initState Demo.threeBooked)).patients[2]?
        = some (Demo.tokenAt (run initState Demo.threeBooked) 2) ∧
      (Demo.tokenAt (run initState Demo.threeBooked) 2).status = Status.waiting ∧
      ∀ i, i < 2 → ∀ q, (Demo.firstDoctor (run initState Demo.threeBooked)).patients[i]? = some q →
        q.status ≠ Status.waiting) ∧
    (Demo.board (markDoctorPatientNoShow (run initState Demo.threeBooked) 1 1 5)).1
      = [Status.noShow, Status.allocated, Status.allocated] ∧
    ∃ d2, findDoctor (markDoctorPatientNoShow (run initState Demo.threeBooked) 1 1 5) 1
        = some d2 ∧
      (∃ w2, d2.patients[2]? = some w2 ∧ w2.status = Status.allocated ∧
        w2.id = (Demo.tokenAt (run initState Demo.threeBooked) 2).id) ∧
      (∀ (i : Nat) (q : Token),
        (Demo.firstDoctor (run initState Demo.threeBooked)).patients[i]? = some q → q.id ≠ 1 →
          i ≠ 2 → ∃ q2, d2.patients[i]? = some q2 ∧ q2.status = q.status) ∧
      countStatus Status.allocated d2.patients
        = countStatus Status.allocated (Demo.firstDoctor (run initState Demo.threeBooked)).patients :=
  ⟨⟨by decide, by decide, by decide, by decide, by decide, by decide⟩, by decide,
    (C19_no_show_promotes_next Demo.threeBooked 1 1 5
      (Demo.firstDoctor (run initState Demo.threeBooked))
      (Demo.tokenAt (run initState Demo.threeBooked) 0) 2
      (Demo.tokenAt (run initState Demo.threeBooked) 2)
      (by decide) (by decide) (by decide) (by decide) (by decide)
      (fun i q hi hq => by
        have h : ∀ i, i < 2 → ∀ q,
            (Demo.firstDoctor (run initState Demo.threeBooked)).patients[i]? = some q →
              q.status ≠ Status.waiting := by decide
        exact h i hi q hq)).2.2⟩

/-! ## C20: allocated slots inside the session window -/

theorem createdFrom_recalculateDoctor (doctorData : DoctorData) (d : Doctor)
    (h : CreatedFrom doctorData d) : CreatedFrom doctorData (recalculateDoctor d) := h

theorem createdFrom_completeInDoctor (doctorData : DoctorData) (tokenId now : Nat) (d : Doctor)
    (h : CreatedFrom doctorData d) : CreatedFrom doctorData (completeInDoctor tokenId now d) := by
  unfold completeInDoctor
  split
  · exact h
  · exact h

theorem createdFrom_noShowInDoctor (doctorData : DoctorData) (tokenId now : Nat) (d : Doctor)
    (h : CreatedFrom doctorData d) : CreatedFrom doctorData (noShowInDoctor tokenId now d) := by
  unfold noShowInDoctor
  split
  · exact h
  · exact h

/-- Every doctor of a reachable state carries the setup `addDoctor` gave it from some form
data: no operation changes anything but the patients and the statistics. -/
theorem reachable_created (ops : List Op) :
    ∀ d ∈ (run initState ops).doctors, ∃ doctorData, CreatedFrom doctorData d := by
  apply run_preserves (fun d => ∃ doctorData, CreatedFrom doctorData d) (fun _ _ => true) _ ops
    initState
  · intro d hd; simp [initState] at hd
  · exact guardedRun_true ops initState
  · intro s op hs _
    apply step_preserves _ s op hs
    · intro doctorData now _
      exact ⟨doctorData, now, rfl⟩
    · intro d ⟨doctorData, h⟩
      exact ⟨doctorData, createdFrom_recalculateDoctor doctorData d h⟩
    · intro name n now d ⟨doctorData, h⟩ _ _
      exact ⟨doctorData, h⟩
    · intro doctorId tokenId now d _ _ ⟨doctorData, h⟩
      exact ⟨doctorData, createdFrom_completeInDoctor doctorData tokenId now d h⟩
    · intro tokenId now d ⟨doctorData, h⟩
      exact ⟨doctorData, createdFrom_noShowInDoctor doctorData tokenId now d h⟩

/-- The setup of a doctor created in time mode from clock strings with the start before the
end, a positive `avgTime` and a non-negative `bufferTime`. -/
theorem createdFrom_time_mode (doctorData : DoctorData) (d : Doctor)
    (hcreated : CreatedFrom doctorData d) (hs ms he me : Nat) (a b : Int)
    (hhs : hs < 100) (hms : ms < 100) (hhe : he < 100) (hme : me < 100)
    (hmode : doctorData.mode = "time")
    (hstart : doctorData.startTime = clock hs ms) (hend : doctorData.endTime = clock he me)
    (havg : doctorData.avgTime = some a) (ha : 0 < a)
    (hbuf : doctorData.bufferTime = some b) (hb : 0 ≤ b)
    (hlt : 60 * (hs : Int) + (ms : Int) < 60 * (he : Int) + (me : Int)) :
    timeToMinutes d.startTime = Num.int (60 * (hs : Int) + (ms : Int)) ∧
    totalStepOf d = a + b ∧
    d.maxPatients * (a + b) ≤ (60 * (he : Int) + (me : Int)) - (60 * (hs : Int) + (ms : Int)) := by
  obtain ⟨now, hnow⟩ := hcreated
  have e1 : timeToMinutes doctorData.startTime = Num.int (60 * (hs : Int) + (ms : Int)) := by
    rw [hstart]; exact timeToMinutes_clock hs ms hhs hms
  have e2 : timeToMinutes doctorData.endTime = Num.int (60 * (he : Int) + (me : Int)) := by
    rw [hend]; exact timeToMinutes_clock he me hhe hme
  have ea : orDefault doctorData.avgTime 10 = a := by
    rw [havg]; simp only [orDefault]; split_ifs <;> omega
  have eb : orDefault doctorData.bufferTime 0 = b := by
    rw [hbuf]; simp only [orDefault]; split_ifs <;> omega
  have hne1 : doctorData.startTime ≠ "" := by rw [hstart]; exact clock_ne_empty hs ms
  have hne2 : doctorData.endTime ≠ "" := by rw [hend]; exact clock_ne_empty he me
  have hstep : ¬ (a + b = 0) := by omega
  have hc : ¬ ("time" = "count") := by decide
  have hpos : 0 < (60 * (he : Int) + (me : Int)) - (60 * (hs : Int) + (ms : Int)) := by omega
  have h1 : d.startTime = doctorData.startTime := by
    have h := congrArg Doctor.startTime hnow
    simpa [addDoctor.newDoctor, hne1] using h
  have h2 : d.avgTime = a := by
    have h := congrArg Doctor.avgTime hnow
    simpa [addDoctor.newDoctor, ea] using h
  have h3 : d.bufferTime = b := by
    have h := congrArg Doctor.bufferTime hnow
    simpa [addDoctor.newDoctor, eb] using h
  have h4 : d.maxPatients
      = Int.fdiv ((60 * (he : Int) + (me : Int)) - (60 * (hs : Int) + (ms : Int))) (a + b) := by
    have h := congrArg Doctor.maxPatients hnow
    simp only [addDoctor.newDoctor, addDoctor.maxPatients, hmode, hc, if_false,
      if_true, hne1, hne2, ne_eq, not_false_eq_true, and_self, e1, e2, Num.sub, ea, eb, hstep,
      hpos] at h
    exact h
  refine ⟨by rw [h1]; exact e1, ?_, ?_⟩
  · unfold totalStepOf
    rw [h2, h3]
    split_ifs <;> omega
  · rw [h4, Int.fdiv_eq_ediv _ (by omega)]
    exact Int.ediv_mul_le _ hstep

/-- C20. Allocated slots fit the session window in time mode: for every doctor created by
`addDoctor` with mode 'time', "HH:MM" start before end, positive `avgTime` and non-negative
`bufferTime`, in every reachable state every allocated token has a numeric arrival value with
`timeToMinutes(startTime) ≤ arrivalValue` and
`arrivalValue + avgTime + bufferTime ≤ timeToMinutes(endTime)`. -/
theorem C20_slots_fit_window (ops : List Op) (d : Doctor)
    (hmem : d ∈ (run initState ops).doctors)
    (doctorData : DoctorData) (hcreated : CreatedFrom doctorData d)
    (hs ms he me : Nat) (a b : Int)
    (hhs : hs < 100) (hms : ms < 100) (hhe : he < 100) (hme : me < 100)
    (hmode : doctorData.mode = "time")
    (hstart : doctorData.startTime = clock hs ms) (hend : doctorData.endTime = clock he me)
    (havg : doctorData.avgTime = some a) (ha : 0 < a)
    (hbuf : doctorData.bufferTime = some b) (hb : 0 ≤ b)
    (hlt : 60 * (hs : Int) + (ms : Int) < 60 * (he : Int) + (me : Int))
    (t : Token) (ht : t ∈ d.patients) (hst : t.status = Status.allocated) :
    ∃ v : Int, t.arrivalValue = some (Num.int v) ∧
      60 * (hs : Int) + (ms : Int) ≤ v ∧
      v + a + b ≤ 60 * (he : Int) + (me : Int) := by
  obtain ⟨hS, _⟩ := reachable_good ops d hmem
  obtain ⟨e1, e2, e3⟩ := createdFrom_time_mode doctorData d hcreated hs ms he me a b
    hhs hms hhe hme hmode hstart hend havg ha hbuf hb hlt
  obtain ⟨i, hi⟩ := List.mem_iff_getElem?.1 ht
  obtain ⟨harr, hk⟩ := hS.allocated_arrival _ e1 i t hi hst
  rw [e2] at harr
  refine ⟨_, harr, ?_, ?_⟩
  · have h0 : (0 : Int) ≤ ((activeBefore d.patients i : Int)
        + (countStatus Status.completed d.patients : Int)) * (a + b) :=
      mul_nonneg (by omega) (by omega)
    omega
  · unfold allowedOf at hk
    have h1 : (activeBefore d.patients i : Int) + (countStatus Status.completed d.patients : Int)
        + 1 ≤ d.maxPatients := by omega
    have h2 := mul_le_mul_of_nonneg_right h1 (by omega : (0 : Int) ≤ a + b)
    have h3 : ((activeBefore d.patients i : Int) + (countStatus Status.completed d.patients : Int)
        + 1) * (a + b)
        = ((activeBefore d.patients i : Int) + (countStatus Status.completed d.patients : Int))
          * (a + b) + (a + b) := by ring
    omega

/-- C20, on a run: session "09:00" to "09:30" with step 12 (capacity 2); B is allocated at 552,
and 552 + 12 is not after 570. -/
theorem C20_slots_fit_window_witness :
    (Demo.firstDoctor (run initState Demo.halfHour) ∈ (run initState Demo.halfHour).doctors ∧
      CreatedFrom (Demo.timeData "09:00" "09:30" 10 2)
        (Demo.firstDoctor (run initState Demo.halfHour)) ∧
      (Demo.timeData "09:00" "09:30" 10 2).mode = "time" ∧
      (Demo.timeData "09:00" "09:30" 10 2).startTime = clock 9 0 ∧
      (Demo.timeData "09:00" "09:30" 10 2).endTime = clock 9 30 ∧
      (Demo.timeData "09:00" "09:30" 10 2).avgTime = some 10 ∧
      (Demo.timeData "09:00" "09:30" 10 2).bufferTime = some 2 ∧
      Demo.tokenAt (run initState Demo.halfHour) 1
        ∈ (Demo.firstDoctor (run initState Demo.halfHour)).patients ∧
      (Demo.tokenAt (run initState Demo.halfHour) 1).status = Status.allocated) ∧
    (Demo.tokenAt (run initState Demo.halfHour) 1).arrivalValue = some (Num.int 552) ∧
    ∃ v : Int, (Demo.tokenAt (run initState Demo.halfHour) 1).arrivalValue = some (Num.int v) ∧
      60 * ((9 : Nat) : Int) + ((0 : Nat) : Int) ≤ v ∧
      v + 10 + 2 ≤ 60 * ((9 : Nat) : Int) + ((30 : Nat) : Int) :=
  ⟨⟨by decide, ⟨1, by decide⟩, by decide, by decide, by decide, by decide, by decide,
      by decide, by decide⟩,
    by decide,
    C20_slots_fit_window Demo.halfHour (Demo.firstDoctor (run initState Demo.halfHour))
      (by decide) (Demo.timeData "09:00" "09:30" 10 2) ⟨1, by decide⟩ 9 0 9 30 10 2
      (by decide) (by decide) (by decide) (by decide) (by decide) (by decide) (by decide)
      (by decide) (by decide) (by decide) (by decide) (by decide)
      (Demo.tokenAt (run initState Demo.halfHour) 1) (by decide) (by decide)⟩

end QueueSense
